import Mathlib

/-!
# doppler-go: transport kernel

A shallow embedding of the request/response kernel of the `doppler` package
(`doppler.go`, `options.go` and the options records of the resource files) and of
the `delete` and `download` methods of the `service_token` and `secret` clients.

Conventions of the embedding:

* a Go `string` is a Lean `String` (a sequence of Unicode scalar values, that
  is, valid UTF-8 text); the string functions of the Go standard library that
  the package calls are written over `List Char`; where a property ranges over
  every Go string, the ones that are not valid UTF-8 included, the string is
  the list of its bytes (`goBytes`, `appendString`);
* Go `int`, `int32`, `int64` are `Int`; where the source parses into a
  machine integer the 64 bit range check of `strconv` is kept explicit;
* a Go map is an association list read with first-match lookup; a `range` over a
  map walks the list in its order, and what is proved holds for every order;
* a nil pointer, nil slice or nil map is `none`;
* an `error` is `Option String` (`none` is `nil`), a fallible result is
  `Except String _`;
* process-wide variables (`Key`, `EnableValidation`, `appInfo`,
  `encodedUserAgent`) are passed explicitly in a `Globals` record; a function
  that assigns them returns the record, and a function that may panic returns
  the value of the panic next to it.
-/

namespace Doppler

/-! ## Go standard library: `strings` and `strconv` -/

/-- `strings.HasPrefix` on character lists. -/
def hasPrefixChars : List Char → List Char → Bool
  | _, [] => true
  | [], _ :: _ => false
  | c :: cs, p :: ps => c == p && hasPrefixChars cs ps

/-- `strings.HasPrefix`. -/
def hasPrefix (s pre : String) : Bool :=
  hasPrefixChars s.data pre.data

/-- `strings.HasSuffix` on character lists. -/
def hasSuffixChars (s suf : List Char) : Bool :=
  hasPrefixChars s.reverse suf.reverse

/-- `strings.TrimSuffix` on character lists: drop `suf` from the end when `s` ends in it. -/
def trimSuffixChars (s suf : List Char) : List Char :=
  if hasSuffixChars s suf then s.take (s.length - suf.length) else s

/-- `strings.TrimSuffix`. -/
def trimSuffix (s suf : String) : String :=
  ⟨trimSuffixChars s.data suf.data⟩

/-- `strings.HasSuffix`. -/
def hasSuffix (s suf : String) : Bool :=
  hasSuffixChars s.data suf.data

/-- `strings.Contains` on character lists. -/
def containsChars : List Char → List Char → Bool
  | [], sub => sub.isEmpty
  | c :: cs, sub => hasPrefixChars (c :: cs) sub || containsChars cs sub

/-- `strings.Contains`. -/
def stringsContains (s sub : String) : Bool :=
  containsChars s.data sub.data

/-- `strings.Cut(s, sep)` for a one-character separator, on character lists: the text
before the first `sep`, the text after it, and whether `sep` occurs; without `sep` the
whole text comes first. -/
def cutChars (sep : Char) : List Char → List Char × List Char × Bool
  | [] => ([], [], false)
  | c :: cs =>
    if c == sep then ([], cs, true)
    else ((c :: (cutChars sep cs).1), (cutChars sep cs).2.1, (cutChars sep cs).2.2)

/-- `unicode.IsSpace`: the code points of the Unicode White_Space property. -/
def isSpace (c : Char) : Bool :=
  let n := c.toNat
  n == 0x20 || (0x09 ≤ n && n ≤ 0x0D) || n == 0x85 || n == 0xA0 || n == 0x1680 ||
    (0x2000 ≤ n && n ≤ 0x200A) || n == 0x2028 || n == 0x2029 || n == 0x202F ||
    n == 0x205F || n == 0x3000

/-- `strings.TrimSpace` on character lists. -/
def trimSpaceChars (s : List Char) : List Char :=
  ((s.dropWhile isSpace).reverse.dropWhile isSpace).reverse

/-- `strings.TrimSpace`. -/
def trimSpace (s : String) : String :=
  ⟨trimSpaceChars s.data⟩

/-- `strings.Join`: empty for no elements, the element itself for one, and otherwise the
first element followed by `sep ++ e` for each further element. -/
def stringsJoin : List String → String → String
  | [], _ => ""
  | e :: es, sep => es.foldl (fun acc x => acc ++ sep ++ x) e

/-- The value of an ASCII decimal digit. -/
def digitVal (c : Char) : Option Nat :=
  if 48 ≤ c.toNat ∧ c.toNat ≤ 57 then some (c.toNat - 48) else none

/-- The loop of `strconv.ParseUint` in base 10 without the overflow test (the range is
checked by the callers on the exact value): every character must be a decimal digit. -/
def parseDigits : List Char → Nat → Option Nat
  | [], acc => some acc
  | c :: cs, acc =>
    match digitVal c with
    | some d => parseDigits cs (acc * 10 + d)
    | none => none

/-- `strconv.ParseInt(s, 10, 64)`: an optional sign, at least one decimal digit, nothing
else, and a value in the range of `int64`. -/
def parseInt64Chars (s : List Char) : Option Int :=
  let neg := s.head? == some '-'
  let body := if s.head? == some '+' ∨ s.head? == some '-' then s.tail else s
  if body.isEmpty then none
  else
    match parseDigits body 0 with
    | none => none
    | some un =>
      if neg then (if un ≤ 2 ^ 63 then some (-(un : Int)) else none)
      else (if un < 2 ^ 63 then some (un : Int) else none)

/-- `strconv.ParseInt(s, 10, 64)`. -/
def parseInt64 (s : String) : Option Int :=
  parseInt64Chars s.data

/-- `strconv.Atoi` where `int` has 64 bits: the fast path and `ParseInt(s, 10, 0)` accept
the same strings with the same values. -/
def atoi (s : String) : Option Int :=
  parseInt64 s

/-! ## Go standard library: `net/textproto` and `net/http` headers -/

/-- `textproto.validHeaderFieldByte`: the token characters of RFC 7230. -/
def validHeaderFieldByte (c : Char) : Bool :=
  let n := c.toNat
  (48 ≤ n && n ≤ 57) || (65 ≤ n && n ≤ 90) || (97 ≤ n && n ≤ 122) ||
    n == 33 || n == 35 || n == 36 || n == 37 || n == 38 || n == 39 || n == 42 ||
    n == 43 || n == 45 || n == 46 || n == 94 || n == 95 || n == 96 || n == 124 || n == 126

/-- The canonicalising loop of `textproto.canonicalMIMEHeaderKey`: upper case for the first
letter and for a letter after `-`, lower case for the others. -/
def canonLoop : Bool → List Char → List Char
  | _, [] => []
  | upper, c :: cs =>
    let n := c.toNat
    let c1 :=
      if upper && (97 ≤ n && n ≤ 122) then Char.ofNat (n - 32)
      else if !upper && (65 ≤ n && n ≤ 90) then Char.ofNat (n + 32)
      else c
    c1 :: canonLoop (c1 == '-') cs

/-- `textproto.CanonicalMIMEHeaderKey`: a key with a character outside the token set is
returned unchanged. -/
def canonicalMIMEHeaderKey (s : String) : String :=
  if s.data.all validHeaderFieldByte then ⟨canonLoop true s.data⟩ else s

/-- `http.Header`, a `map[string][]string`. -/
abbrev Header := List (String × List String)

/-- A Go map index expression `h[k]` on a header map: the zero value (nil slice) when absent. -/
def Header.index (h : Header) (k : String) : List String :=
  match h.find? (fun kv => kv.1 == k) with
  | some kv => kv.2
  | none => []

/-- `http.Header.Get`: the first value stored under the canonical form of `key`, or `""`. -/
def Header.Get (h : Header) (key : String) : String :=
  match h.index (canonicalMIMEHeaderKey key) with
  | [] => ""
  | v :: _ => v

/-! ## Constants of `doppler.go` -/

def SDKVersion : String := "0.2.0"
def APIURL : String := "https://api.doppler.com"
def headerXRequestID : String := "X-Request-Id"
def headerRateLimitLimit : String := "X-RateLimit-Limit"
def headerRateLimitRemaining : String := "X-RateLimit-Remaining"
def headerRateLimitReset : String := "X-RateLimit-Reset"

/-! ## Response envelope -/

/-- A `time.Time`: an instant given by its seconds since the Unix epoch and the
nanoseconds within the second. -/
structure Time where
  unixSec : Int
  nsec : Nat := 0
  deriving DecidableEq, Repr

/-- `time.Unix(sec, 0)`. -/
def timeUnix (sec : Int) : Time := { unixSec := sec }

/-- `RateLimit` of `doppler.go`. -/
structure RateLimit where
  Limit : Int
  Remaining : Int
  Reset : Time
  deriving DecidableEq, Repr

/-- `APIResponse` of `doppler.go`. `Header` is `none` for a nil map; `Messages` is the
list of messages, empty for a nil slice as well (the source only takes its length). -/
structure APIResponse where
  Header : Option Header := none
  RequestID : String := ""
  RateLimit : Option RateLimit := none
  Status : String := ""
  StatusCode : Int := 0
  Success : Option Bool := none
  Messages : List String := []
  Page : Option Int := none
  deriving DecidableEq, Repr

/-- `extractRateLimitFromHeader` of `doppler.go`. The limit is read with `header.Get`
and handed to `strconv.Atoi` as it is; the remaining count and the reset time are
passed through `strings.TrimSpace` first. -/
def extractRateLimitFromHeader (header : Header) : Option RateLimit :=
  let limit := header.Get headerRateLimitLimit
  match atoi limit with
  | none => none
  | some l =>
    let remaining := trimSpace (header.Get headerRateLimitRemaining)
    match atoi remaining with
    | none => none
    | some r =>
      let reset := trimSpace (header.Get headerRateLimitReset)
      match parseInt64 reset with
      | none => none
      | some resetUnix => some { Limit := l, Remaining := r, Reset := timeUnix resetUnix }

/-- A `*http.Response` as far as the package reads it. `Header` is `none` for a nil
header map, `Body` is the whole content of the body stream. -/
structure HTTPResponse where
  Status : String
  StatusCode : Int
  Header : Option Header
  ContentLength : Int
  Body : String
  deriving DecidableEq, Repr

/-- `APIResponse.WithDetails` of `doppler.go`; the argument is `none` for a nil response. -/
def APIResponse.WithDetails (r : APIResponse) (resp : Option HTTPResponse) : APIResponse :=
  match resp with
  | none => r
  | some resp =>
    let r := { r with Status := resp.Status, StatusCode := resp.StatusCode }
    match resp.Header with
    | none => r
    | some h =>
      { r with Header := some h, RequestID := h.Get headerXRequestID,
               RateLimit := extractRateLimitFromHeader h }

/-- `APIResponse.Error` of `doppler.go`: `errors.New(strings.Join(r.Messages, ": "))` when
there is a message, nil otherwise. The error is represented by its text. -/
def APIResponse.Error (r : APIResponse) : Option String :=
  if r.Messages.length > 0 then some (stringsJoin r.Messages ": ") else none

/-! ## Options records, seen the way the reflecting libraries see them -/

/-- A scalar field value: Go `string`, `int` / `int32`, `bool`. -/
inductive Scalar
  | str (s : String)
  | int (n : Int)
  | bool (b : Bool)
  deriving DecidableEq, Repr

/-- The value of a scalar-typed field: the scalar itself, or a pointer to one
(`*string`, `*int32`, `*bool`), `none` being the nil pointer. -/
inductive Value
  | scalar (v : Scalar)
  | ptr (p : Option Scalar)
  deriving DecidableEq, Repr

/-- A struct field of scalar type with the contents of its `url`, `json` and `validate`
struct tags (`""` when the tag is absent, as `reflect.StructTag.Get` returns). -/
structure LeafField where
  name : String
  url : String
  json : String
  validate : String
  value : Value
  deriving DecidableEq, Repr

/-- `AuthToken` of `auth.go`. -/
structure AuthToken where
  Token : Option String
  deriving DecidableEq, Repr

/-- A field of an options record. The records of the package have scalar fields, at most
one level of embedded (anonymous) record, and two kinds of composite field, a
`map[string]string` and a `[]AuthToken`, which the package only ever tags `url:"-"`;
the composite constructors therefore carry no `url` tag. -/
inductive Field
  | leaf (f : LeafField)
  | embedded (name url json : String) (fields : List LeafField)
  | strMap (name json validate : String) (m : Option (List (String × String)))
  | tokens (name json validate : String) (ts : Option (List AuthToken))
  deriving DecidableEq, Repr

/-- The content of the `url` tag of a field. -/
def Field.urlTag : Field → String
  | .leaf f => f.url
  | .embedded _ url _ _ => url
  | .strMap _ _ _ _ => "-"
  | .tokens _ _ _ _ => "-"

/-- The content of the `json` tag of a field. -/
def Field.jsonTag : Field → String
  | .leaf f => f.json
  | .embedded _ _ json _ => json
  | .strMap _ json _ _ => json
  | .tokens _ json _ _ => json

/-- An options record: its fields in declaration order, and, when its pointer type has a
`MarshalJSON` method (only `AuthRevokeOptions` has one), the bytes that method returns. -/
structure Struct where
  fields : List Field
  custom : Option String := none
  deriving DecidableEq, Repr

/-- The `any` stored in `Request.Payload`: the nil interface, a typed nil pointer, or a
pointer to an options record (the resource clients always store a pointer). -/
inductive Payload
  | nil
  | nilPtr
  | ptr (s : Struct)
  deriving DecidableEq, Repr

/-- Split a character list at every occurrence of `sep` (`strings.Split` with a
one-character separator): the accumulator holds the current piece reversed. -/
def splitCharsAux (sep : Char) : List Char → List Char → List (List Char)
  | [], cur => [cur.reverse]
  | c :: cs, cur =>
    if c == sep then cur.reverse :: splitCharsAux sep cs []
    else splitCharsAux sep cs (c :: cur)

/-- `strings.Split(s, sep)` for a one-character separator. -/
def splitOnChar (s : String) (sep : Char) : List String :=
  (splitCharsAux sep s.data []).map String.mk

/-- The name part of a struct tag: the text before the first comma. -/
def tagName (tag : String) : String :=
  (splitOnChar tag ',').headD ""

/-- The options of a struct tag: the comma-separated items after the name. -/
def tagOptions (tag : String) : List String :=
  (splitOnChar tag ',').tail

/-- `tagOptions.Contains`. -/
def tagHas (tag opt : String) : Bool :=
  (tagOptions tag).contains opt

/-! ## Validator (`go-playground/validator`), for the rules the package uses -/

/-- A validation rule `name=param` of a `validate` tag, split at the first `=`. -/
def parseRule (r : String) : String × String :=
  match splitOnChar r '=' with
  | [] => ("", "")
  | n :: ps => (n, stringsJoin ps "=")

/-- The rules of a `validate` tag, in order; an empty tag has none. -/
def parseRules (tag : String) : List (String × String) :=
  if tag == "" then [] else (splitOnChar tag ',').map parseRule

/-- Whether one rule holds of a scalar-typed field. `required`: the value is not the zero
value of its type (a pointer: not nil). `eq`: a string equals the parameter, an integer
equals the parameter read as an integer. `gt`: an integer is greater than the parameter, a
string has more characters than it. A pointer is dereferenced for `eq` and `gt`. A rule
the package does not use counts as failed. -/
def ruleHoldsScalar (rule param : String) (v : Scalar) : Bool :=
  match rule, v with
  | "required", .str s => s != ""
  | "required", .int n => n != 0
  | "required", .bool b => b
  | "eq", .str s => s == param
  | "eq", .int n => parseInt64 param == some n
  | "gt", .int n => (match parseInt64 param with | some p => decide (p < n) | none => false)
  | "gt", .str s => (match parseInt64 param with | some p => decide (p < (s.length : Int)) | none => false)
  | _, _ => false

/-- Whether one rule holds of a field value. -/
def ruleHolds (rule param : String) : Value → Bool
  | .scalar v => ruleHoldsScalar rule param v
  | .ptr none => false
  | .ptr (some v) => if rule == "required" then true else ruleHoldsScalar rule param v

/-- Whether one rule holds of a composite field given by its length (`none` for nil):
`required` asks for a non-nil value, `eq` and `gt` compare the length. -/
def ruleHoldsLen (rule param : String) (len : Option Nat) : Bool :=
  match rule, len with
  | "required", some _ => true
  | "eq", some n => parseInt64 param == some (n : Int)
  | "gt", some n => (match parseInt64 param with | some p => decide (p < (n : Int)) | none => false)
  | "gt", none => (match parseInt64 param with | some p => decide (p < 0) | none => false)
  | "eq", none => parseInt64 param == some 0
  | _, _ => false

/-- The name of a scalar field when all the rules of its tag hold, nothing otherwise. -/
def leafViolation (f : LeafField) : List String :=
  if (parseRules f.validate).all (fun r => ruleHolds r.1 r.2 f.value) then [] else [f.name]

/-- The names of the fields of a record that violate a rule of their `validate` tag; the
validator descends into an embedded record. -/
def fieldViolations : Field → List String
  | .leaf f => leafViolation f
  | .embedded _ _ _ fs => fs.flatMap leafViolation
  | .strMap name _ v m =>
    if (parseRules v).all (fun r => ruleHoldsLen r.1 r.2 (m.map List.length)) then [] else [name]
  | .tokens name _ v ts =>
    if (parseRules v).all (fun r => ruleHoldsLen r.1 r.2 (ts.map List.length)) then [] else [name]

/-- `validator.Validate.Struct`: an error for a nil pointer, otherwise an error exactly when
some field violates its rules. The error is represented by its text. -/
def validateStruct : Payload → Option String
  | .nil => some "validator: (nil)"
  | .nilPtr => some "validator: (nil pointer)"
  | .ptr s =>
    match s.fields.flatMap fieldViolations with
    | [] => none
    | vs => some ("validation failed on: " ++ stringsJoin vs ", ")

/-- `AppInfo` of `doppler.go`. -/
structure AppInfo where
  Name : String := ""
  URL : String := ""
  Version : String := ""
  deriving DecidableEq, Repr

/-- The process-wide variables of `doppler.go`: `Key`, `EnableValidation`, `appInfo` and
`encodedUserAgent`, with the values they have once the package is initialised. -/
structure Globals where
  EnableValidation : Bool := true
  encodedUserAgent : String := "doppler-go/0.2.0"
  Key : String := ""
  appInfo : Option AppInfo := none
  deriving DecidableEq, Repr

/-- `AppInfo.formatUserAgent` of `doppler.go`. -/
def AppInfo.formatUserAgent (a : AppInfo) : String :=
  let userAgent := a.Name
  let userAgent := if a.Version != "" then userAgent ++ ("/" ++ a.Version) else userAgent
  let userAgent := if a.URL != "" then userAgent ++ (" (" ++ a.URL ++ ")") else userAgent
  userAgent

/-- `initUserAgent` of `doppler.go`. -/
def initUserAgent (g : Globals) : Globals :=
  let g := { g with encodedUserAgent := "doppler-go/" ++ SDKVersion }
  match g.appInfo with
  | some a => { g with encodedUserAgent := g.encodedUserAgent ++ (" " ++ a.formatUserAgent) }
  | none => g

/-- `SetAppInfo` of `doppler.go`: the process-wide variables as the call leaves them and the
value of the panic, if the call panics. -/
def SetAppInfo (g : Globals) (info : Option AppInfo) : Globals × Option String :=
  match info with
  | some i =>
    if i.Name == "" then (g, some "info.NewConfig must not be empty")
    else (initUserAgent { g with appInfo := info }, none)
  | none => (initUserAgent { g with appInfo := info }, none)

/-- `isPayloadValid` of `doppler.go`. -/
def isPayloadValid (g : Globals) (payload : Payload) : Option String :=
  if !g.EnableValidation || payload == Payload.nil then none
  else validateStruct payload

/-! ## Query extraction (`google/go-querystring`) -/

/-- `url.Values`, a `map[string][]string`. -/
abbrev Values := List (String × List String)

/-- `url.Values.Add`: append `value` to the list stored under `key`. -/
def valuesAdd : Values → String → String → Values
  | [], key, value => [(key, [value])]
  | (k, xs) :: rest, key, value =>
    if k == key then (k, xs ++ [value]) :: rest else (k, xs) :: valuesAdd rest key value

/-- `fmt.Sprint` of a scalar: a string verbatim, an integer in decimal, `true` / `false`. -/
def sprintScalar : Scalar → String
  | .str s => s
  | .int n => toString n
  | .bool b => if b then "true" else "false"

/-- `query.valueString`: the empty string for a nil pointer and `fmt.Sprint` of the
(pointed-to) value otherwise. Of the tag options of `go-querystring` the records of the
package use `omitempty` (and `inline`, which the library does not read); the options that
change the format of a value (`int`, `unix`, `comma`, ...) are not part of the embedding. -/
def valueString : Value → String
  | .ptr none => ""
  | .ptr (some v) => sprintScalar v
  | .scalar v => sprintScalar v

/-- `isEmptyValue` (the same in `go-querystring` and `encoding/json`) on scalar fields:
the empty string, zero, false, the nil pointer. -/
def isEmptyValue : Value → Bool
  | .scalar (.str s) => s == ""
  | .scalar (.int n) => n == 0
  | .scalar (.bool b) => !b
  | .ptr p => p.isNone

/-- The key under which `go-querystring` files a scalar field: the name of its `url` tag,
the Go field name when the tag has none, wrapped as `scope[name]` inside a named record. -/
def queryName (scope : String) (f : LeafField) : String :=
  let name := if tagName f.url == "" then f.name else tagName f.url
  if scope != "" then scope ++ "[" ++ name ++ "]" else name

/-- One iteration of the field loop of `query.reflectValue` on a scalar field. -/
def reflectLeaf (scope : String) (values : Values) (f : LeafField) : Values :=
  if f.url == "-" then values
  else if tagHas f.url "omitempty" && isEmptyValue f.value then values
  else valuesAdd values (queryName scope f) (valueString f.value)

/-- One iteration of the field loop of `query.reflectValue`: an anonymous record without a
tag name is put aside (second component) and handled after the loop, a record with a tag
name is encoded at once under that scope; composite fields are tagged `-`. -/
def reflectField (acc : Values × List (List LeafField)) : Field → Values × List (List LeafField)
  | .leaf f => (reflectLeaf "" acc.1 f, acc.2)
  | .embedded _ url _ fs =>
    if url == "-" then acc
    else if tagName url == "" then (acc.1, acc.2 ++ [fs])
    else (fs.foldl (reflectLeaf (tagName url)) acc.1, acc.2)
  | .strMap _ _ _ _ => acc
  | .tokens _ _ _ _ => acc

/-- `query.reflectValue` at the top level: the field loop, then the embedded records. -/
def reflectValue (fields : List Field) : Values :=
  let r := fields.foldl reflectField ([], [])
  r.2.foldl (fun vs fs => fs.foldl (reflectLeaf "") vs) r.1

/-- `extractQueryParameters` of `options.go`: an empty mapping for a nil payload, and
`query.Values` otherwise (which returns an empty mapping for a nil pointer). -/
def extractQueryParameters : Payload → Except String Values
  | .nil => .ok []
  | .nilPtr => .ok []
  | .ptr s => .ok (reflectValue s.fields)

/-! ## Body encoding (`encoding/json`) -/

/-- A lower-case hexadecimal digit. -/
def hexDigit (n : Nat) : Char :=
  if n < 10 then Char.ofNat (48 + n) else Char.ofNat (87 + n)

/-- The JSON text of one character inside a string, as `encoding/json` writes it with HTML
escaping on: `\"` and `\\`, the short escapes for backspace, form feed, newline, carriage
return and tab, `\u00XX` for the other control characters and for `<`, `>`, `&`, a
`\u` escape for the line and paragraph separators U+2028 and U+2029, and every other
character verbatim. -/
def escapeChar (c : Char) : List Char :=
  let n := c.toNat
  if c == '"' then ['\\', '"']
  else if c == '\\' then ['\\', '\\']
  else if n == 8 then ['\\', 'b']
  else if n == 12 then ['\\', 'f']
  else if n == 10 then ['\\', 'n']
  else if n == 13 then ['\\', 'r']
  else if n == 9 then ['\\', 't']
  else if n < 32 || c == '<' || c == '>' || c == '&' then
    ['\\', 'u', '0', '0', hexDigit (n / 16), hexDigit (n % 16)]
  else if n == 0x2028 then ['\\', 'u', '2', '0', '2', '8']
  else if n == 0x2029 then ['\\', 'u', '2', '0', '2', '9']
  else [c]

/-- The JSON text of a string: the escaped characters between double quotes. -/
def jsonStringChars (s : List Char) : List Char :=
  '"' :: (s.flatMap escapeChar ++ ['"'])

/-- The JSON text of a string that is a text; `appendString` below writes a Go string
from its bytes and agrees with it on the bytes of a text. -/
def jsonString (s : String) : String :=
  ⟨jsonStringChars s.data⟩

/-- The JSON text of a scalar. -/
def jsonScalar : Scalar → String
  | .str s => jsonString s
  | .int n => toString n
  | .bool b => if b then "true" else "false"

/-- The JSON text of a scalar-typed field value; a nil pointer is `null`. -/
def jsonValue : Value → String
  | .scalar v => jsonScalar v
  | .ptr none => "null"
  | .ptr (some v) => jsonScalar v

/-- `json.isValidTag`: a non-empty name of letters, digits and the listed punctuation
(a character outside ASCII is taken to be a letter). -/
def isValidTag (s : String) : Bool :=
  s != "" && s.data.all (fun c =>
    c.isAlphanum || "!#$%&()*+-./:;<=>?@[]^_\x7b|\x7d~ ".data.contains c || 128 ≤ c.toNat)

/-- The key of a field in the JSON object: the name of its `json` tag, the Go field name
when the tag has no (valid) name. -/
def jsonName (goName tag : String) : String :=
  if isValidTag (tagName tag) then tagName tag else goName

/-- The members (`"key":value`) that a scalar field contributes to the JSON object. -/
def jsonLeafMembers (f : LeafField) : List String :=
  if f.json == "-" then []
  else if tagHas f.json "omitempty" && isEmptyValue f.value then []
  else [jsonString (jsonName f.name f.json) ++ ":" ++ jsonValue f.value]

/-- A JSON object from its members. -/
def jsonObject (members : List String) : String :=
  "\x7b" ++ stringsJoin members "," ++ "\x7d"

/-- A JSON array from its elements. -/
def jsonArray (elems : List String) : String :=
  "[" ++ stringsJoin elems "," ++ "]"

/-- `json.Marshal` of a `map[string]string` (entries in key order): `null` for a nil map. -/
def jsonStrMap : Option (List (String × String)) → String
  | none => "null"
  | some m => jsonObject (m.map (fun kv => jsonString kv.1 ++ ":" ++ jsonString kv.2))

/-- `json.Marshal` of an `AuthToken`: the token is dropped when nil (`omitempty`). -/
def jsonAuthToken (t : AuthToken) : String :=
  match t.Token with
  | none => jsonObject []
  | some tok => jsonObject [jsonString "token" ++ ":" ++ jsonString tok]

/-- `json.Marshal` of a `[]AuthToken`: `null` for a nil slice. -/
def jsonTokens : Option (List AuthToken) → String
  | none => "null"
  | some ts => jsonArray (ts.map jsonAuthToken)

/-- The members that a field contributes to the JSON object of its record. An embedded
record without a tag name is flattened, one with a tag name is a nested object. -/
def jsonFieldMembers : Field → List String
  | .leaf f => jsonLeafMembers f
  | .embedded name _ json fs =>
    if json == "-" then []
    else if tagName json == "" then fs.flatMap jsonLeafMembers
    else [jsonString (jsonName name json) ++ ":" ++ jsonObject (fs.flatMap jsonLeafMembers)]
  | .strMap name json _ m =>
    if json == "-" then []
    else if tagHas json "omitempty" && (m.map List.length).getD 0 == 0 then []
    else [jsonString (jsonName name json) ++ ":" ++ jsonStrMap m]
  | .tokens name json _ ts =>
    if json == "-" then []
    else if tagHas json "omitempty" && (ts.map List.length).getD 0 == 0 then []
    else [jsonString (jsonName name json) ++ ":" ++ jsonTokens ts]

/-- `json.Marshal` of a record by reflection over its fields. -/
def marshalFields (fields : List Field) : String :=
  jsonObject (fields.flatMap jsonFieldMembers)

/-- `json.Marshal` of a pointer to a record: the output of its `MarshalJSON` method when
it has one, the reflected object otherwise. -/
def marshalStruct (s : Struct) : String :=
  match s.custom with
  | some bytes => bytes
  | none => marshalFields s.fields

/-- `AuthRevokeOptions` of `auth.go`. -/
structure AuthRevokeOptions where
  Tokens : Option (List AuthToken)
  deriving DecidableEq, Repr

/-- `AuthRevokeOptions.MarshalJSON` of `auth.go`: `json.Marshal(opts.Tokens)`. -/
def AuthRevokeOptions.MarshalJSON (opts : AuthRevokeOptions) : Except String String :=
  .ok (jsonTokens opts.Tokens)

/-! ## Requests -/

/-- `Request` of `doppler.go`. -/
structure Request where
  Header : Header := []
  Method : String
  Path : String
  Key : String := ""
  Payload : Payload := Payload.nil
  deriving DecidableEq, Repr

/-- `Request.getQueryParameters` of `doppler.go`. -/
def Request.getQueryParameters (req : Request) : Except String Values :=
  extractQueryParameters req.Payload

/-- `Request.getBody` of `doppler.go`: an empty buffer for a nil payload, otherwise what
`json.Encoder.Encode` writes, the JSON text followed by a newline. -/
def Request.getBody (req : Request) : Except String String :=
  match req.Payload with
  | .nil => .ok ""
  | .nilPtr => .ok "null\n"
  | .ptr s => .ok (marshalStruct s ++ "\n")

/-! ## Go standard library: `net/url`, `encoding/base64`, `net/http` requests -/

/-- The UTF-8 bytes of a character. -/
def utf8Bytes (c : Char) : List Nat :=
  let n := c.toNat
  if n < 0x80 then [n]
  else if n < 0x800 then [0xC0 + n / 64, 0x80 + n % 64]
  else if n < 0x10000 then [0xE0 + n / 4096, 0x80 + (n / 64) % 64, 0x80 + n % 64]
  else [0xF0 + n / 262144, 0x80 + (n / 4096) % 64, 0x80 + (n / 64) % 64, 0x80 + n % 64]

/-- An upper-case hexadecimal digit. -/
def upperHexDigit (n : Nat) : Char :=
  if n < 10 then Char.ofNat (48 + n) else Char.ofNat (55 + n)

/-- `url.QueryEscape` of one character: letters, digits and `-_.~` verbatim, a space as
`+`, every other byte as `%XX`. -/
def queryEscapeChar (c : Char) : List Char :=
  if c.isAlphanum || c == '-' || c == '_' || c == '.' || c == '~' then [c]
  else if c == ' ' then ['+']
  else (utf8Bytes c).flatMap (fun b => ['%', upperHexDigit (b / 16), upperHexDigit (b % 16)])

/-- `url.QueryEscape`. -/
def queryEscape (s : String) : String :=
  ⟨s.data.flatMap queryEscapeChar⟩

/-- Insert an entry into a list of entries ordered by key. -/
def insertByKey (kv : String × List String) : Values → Values
  | [] => [kv]
  | x :: xs => if kv.1 < x.1 then kv :: x :: xs else x :: insertByKey kv xs

/-- `url.Values.Encode`: the pairs `key=value`, escaped, ordered by key, joined by `&`. -/
def valuesEncode (v : Values) : String :=
  stringsJoin
    ((v.foldr insertByKey []).flatMap (fun kv =>
      kv.2.map (fun x => queryEscape kv.1 ++ "=" ++ queryEscape x))) "&"

/-- A digit of the standard base64 alphabet. -/
def base64Digit (n : Nat) : Char :=
  if n < 26 then Char.ofNat (65 + n)
  else if n < 52 then Char.ofNat (71 + n)
  else if n < 62 then Char.ofNat (n - 4)
  else if n == 62 then '+' else '/'

/-- `base64.StdEncoding.EncodeToString` on a list of bytes. -/
def base64Bytes : List Nat → List Char
  | a :: b :: c :: rest =>
    base64Digit (a / 4) :: base64Digit (a % 4 * 16 + b / 16) ::
      base64Digit (b % 16 * 4 + c / 64) :: base64Digit (c % 64) :: base64Bytes rest
  | [a, b] => [base64Digit (a / 4), base64Digit (a % 4 * 16 + b / 16), base64Digit (b % 16 * 4), '=']
  | [a] => [base64Digit (a / 4), base64Digit (a % 4 * 16), '=', '=']
  | [] => []

/-- `base64.StdEncoding.EncodeToString` of the bytes of a string. -/
def base64 (s : String) : String :=
  ⟨base64Bytes (s.data.flatMap utf8Bytes)⟩

/-- `http.Header.Add`: append the value under the canonical form of the key. -/
def headerAdd (h : Header) (key value : String) : Header :=
  valuesAdd h (canonicalMIMEHeaderKey key) value

/-- A Go map assignment `h[key] = vs`. -/
def headerAssign : Header → String → List String → Header
  | [], key, vs => [(key, vs)]
  | (k, xs) :: rest, key, vs =>
    if k == key then (k, vs) :: rest else (k, xs) :: headerAssign rest key vs

/-- `http.Header.Set`: replace the values under the canonical form of the key. -/
def headerSet (h : Header) (key value : String) : Header :=
  headerAssign h (canonicalMIMEHeaderKey key) [value]

/-- An `*http.Request` as far as the package fills it: the method, the request URL as
`url.Parse` divides the string handed to `http.NewRequestWithContext` (`URL` is the text
before the query and the fragment, from which the scheme, the host and the path are read;
`RawQuery`, `ForceQuery` and `Fragment` are the fields of that name of `url.URL`), the
headers, and the body (`none` when no body was attached). -/
structure HTTPRequest where
  Method : String
  URL : String
  RawQuery : String := ""
  Header : Header := []
  Body : Option String := none
  ForceQuery : Bool := false
  Fragment : String := ""
  deriving DecidableEq, Repr

/-- The division of its argument that `url.Parse` begins with. -/
structure URLParts where
  text : String
  RawQuery : String
  ForceQuery : Bool
  Fragment : String
  deriving DecidableEq, Repr

/-- The way `url.Parse` divides its argument: the fragment is cut off at the first `#`; of
what comes before it, a single `?` at the very end is dropped and forces an empty query, and
otherwise the query is cut off at the first `?`. What remains holds the scheme, the host and
the path. -/
def urlSplit (rawURL : String) : URLParts :=
  let f := cutChars '#' rawURL.data
  let u := f.1
  if hasSuffixChars u ['?'] && u.count '?' == 1 then
    { text := ⟨u.take (u.length - 1)⟩, RawQuery := "", ForceQuery := true, Fragment := ⟨f.2.1⟩ }
  else
    let q := cutChars '?' u
    { text := ⟨q.1⟩, RawQuery := ⟨q.2.1⟩, ForceQuery := false, Fragment := ⟨f.2.1⟩ }

/-- The escape that `strconv.Quote` writes for one character: `\"`, `\\`, the short
escapes of the control characters that have one, `\x` and two hexadecimal digits for the
other control characters and for DEL; every other character is taken to be printable and is
written as it is. -/
def quoteChar (c : Char) : List Char :=
  let n := c.toNat
  if c == '"' then ['\\', '"']
  else if c == '\\' then ['\\', '\\']
  else if n == 7 then ['\\', 'a']
  else if n == 8 then ['\\', 'b']
  else if n == 12 then ['\\', 'f']
  else if n == 10 then ['\\', 'n']
  else if n == 13 then ['\\', 'r']
  else if n == 9 then ['\\', 't']
  else if n == 11 then ['\\', 'v']
  else if n < 32 || n == 127 then ['\\', 'x', hexDigit (n / 16), hexDigit (n % 16)]
  else [c]

/-- `strconv.Quote`, the `%q` verb of `fmt`. -/
def goQuote (s : String) : String :=
  ⟨'"' :: (s.data.flatMap quoteChar ++ ['"'])⟩

/-- The part of `http.NewRequestWithContext(ctx, method, url, nil)` that depends on the
arguments: an empty method is `GET`, the method must be a token, and the URL must parse;
the request URL is what `url.Parse` makes of the string. Whether the string parses is left to
`urlParses`, a parameter standing for the success of `url.Parse`; the division into text,
query and fragment is `urlSplit`. Of the error of a string that does not parse only the
beginning, `parse` and the quoted string, is that of `url.Error`; the cause that follows
depends on what `url.Parse` objects to. -/
def newRequest (urlParses : String → Bool) (method url : String) : Except String HTTPRequest :=
  let method := if method == "" then "GET" else method
  if !method.data.all validHeaderFieldByte then
    .error ("net/http: invalid method " ++ goQuote method)
  else if !urlParses url then .error ("parse " ++ goQuote url ++ ": invalid URL")
  else
    .ok { Method := method, URL := (urlSplit url).text, RawQuery := (urlSplit url).RawQuery,
          ForceQuery := (urlSplit url).ForceQuery, Fragment := (urlSplit url).Fragment }

/-- `errors.Wrap(err, message)` of `github.com/pkg/errors`, on error texts. -/
def errorsWrap (err message : String) : String :=
  message ++ ": " ++ err

/-- `normalizeURL` of `doppler.go`: one trailing `/`, then one trailing `/v3`, then one
trailing `/v1` is trimmed. -/
def normalizeURL (url : String) : String :=
  let url := trimSuffix url "/"
  let url := trimSuffix url "/v3"
  let url := trimSuffix url "/v1"
  url

/-- A `logging.Logger`: the no-op logger of the package, or a logger of the caller. No
result of the package depends on what a logger does with its messages. -/
inductive Logger
  | nop
  | custom (name : String)
  deriving DecidableEq, Repr

/-- `time.Second`, a `time.Duration` in nanoseconds. -/
def timeSecond : Int := 1000000000

/-- `defaultHTTPTimeout` of `doppler.go`. -/
def defaultHTTPTimeout : Int := 60 * timeSecond

/-- An `http.Client` as far as the package sets it up and uses it: its `Timeout` and the
function that its `Do` method computes. -/
structure HTTPClient where
  Timeout : Int := 0
  Do : HTTPRequest → Except String HTTPResponse

/-- `defaultClient` of `doppler.go`, `&http.Client{Timeout: defaultHTTPTimeout}`; what its
transport answers is the parameter `transport`. -/
def defaultClient (transport : HTTPRequest → Except String HTTPResponse) : HTTPClient :=
  { Timeout := defaultHTTPTimeout, Do := transport }

/-- `backendImplementation` of `doppler.go`. -/
structure backendImplementation where
  URL : String
  HTTPClient : HTTPClient
  Logger : Logger := Logger.nop

/-- `BackendConfig` of `doppler.go`; a field is `none` when it is nil. -/
structure BackendConfig where
  Client : Option HTTPClient := none
  URL : Option String := none
  Logger : Option Logger := none

/-- `newBackendImplementation` of `doppler.go`. The configuration is passed by pointer and
its nil fields are filled in, so it is returned next to the backend. -/
def newBackendImplementation (transport : HTTPRequest → Except String HTTPResponse)
    (config : BackendConfig) : BackendConfig × backendImplementation :=
  let client := match config.Client with
    | none => defaultClient transport
    | some c => c
  let url := match config.URL with
    | none => APIURL
    | some u => u
  let url := normalizeURL url
  let logger := match config.Logger with
    | none => Logger.nop
    | some l => l
  ({ Client := some client, URL := some url, Logger := some logger },
   { HTTPClient := client, URL := url, Logger := logger })

/-- `GetBackendWithConfig` of `doppler.go`. -/
def GetBackendWithConfig (transport : HTTPRequest → Except String HTTPResponse)
    (config : BackendConfig) : BackendConfig × backendImplementation :=
  newBackendImplementation transport config

/-- `GetBackend` of `doppler.go`. -/
def GetBackend (transport : HTTPRequest → Except String HTTPResponse) :
    backendImplementation :=
  (GetBackendWithConfig transport { Client := some (defaultClient transport) }).2

/-- `backendImplementation.prepareRequest` of `doppler.go`. The `Request` is passed by
pointer and its `Path` is overwritten, so the function returns the `Request` as it is left
next to the result. The mapping that `getQueryParameters` returns is never nil
(`extractQueryParameters` and `query.Values` both make one), so the query of the request URL
is always assigned. -/
def prepareRequest (g : Globals) (urlParses : String → Bool) (b : backendImplementation) (req : Request) :
    Request × Except String HTTPRequest :=
  match isPayloadValid g req.Payload with
  | some err => (req, .error (errorsWrap err "validate request payload"))
  | none =>
    let req := if !hasPrefix req.Path "/" then { req with Path := "/" ++ req.Path } else req
    let req := { req with Path := b.URL ++ req.Path }
    match newRequest urlParses req.Method req.Path with
    | .error err => (req, .error err)
    | .ok httpReq =>
      match req.getQueryParameters with
      | .error err => (req, .error (errorsWrap err "get query parameters from request payload"))
      | .ok params =>
        let httpReq := { httpReq with RawQuery := valuesEncode params }
        let withBody : Except String HTTPRequest :=
          if req.Method != "GET" then
            match req.getBody with
            | .error err => .error (errorsWrap err "get body from request payload")
            | .ok body =>
              .ok { httpReq with Body := some body,
                                 Header := headerAdd httpReq.Header "Content-Type" "application/json" }
          else .ok httpReq
        match withBody with
        | .error err => (req, .error err)
        | .ok httpReq =>
          let h := headerSet httpReq.Header "Authorization" ("Basic " ++ base64 (req.Key ++ ":"))
          let h := headerAdd h "Accept" "application/json"
          let h := headerAdd h "User-Agent" g.encodedUserAgent
          let h := req.Header.foldl (fun h kv => kv.2.foldl (fun h v => headerAdd h kv.1 v) h) h
          (req, .ok { httpReq with Header := h })

/-- What a call leaves behind: the caller's `Request`, the HTTP requests that were handed
to the transport, and the result. -/
structure CallResult (α : Type) where
  req : Request
  sent : List HTTPRequest
  result : α

/-- `backendImplementation.call` of `doppler.go`. -/
def call (g : Globals) (urlParses : String → Bool) (b : backendImplementation) (req : Request) :
    CallResult (Except String HTTPResponse) :=
  match prepareRequest g urlParses b req with
  | (req, .error err) => { req := req, sent := [], result := .error (errorsWrap err "prepare request") }
  | (req, .ok httpReq) => { req := req, sent := [httpReq], result := b.HTTPClient.Do httpReq }

/-- `backendImplementation.CallRaw` of `doppler.go`. -/
def CallRaw (g : Globals) (urlParses : String → Bool) (b : backendImplementation) (req : Request) :
    CallResult (Except String HTTPResponse) :=
  call g urlParses b req

/-- A type of typed responses: every response record of the package embeds `APIResponse`,
whose `WithDetails` and `Error` it inherits. `decode` stands for `json.Decoder.Decode` into
a value of the type: it returns the target as it is left and the error, if any. -/
structure ResponseType (T : Type) where
  envelope : T → APIResponse
  withEnvelope : T → APIResponse → T
  decode : String → T → T × Option String

/-- The typed target and the error that `Call` returns. -/
structure CallOutcome (T : Type) where
  target : Option T
  err : Option String

/-- `backendImplementation.Call` of `doppler.go`; `resp` is `none` for a nil target. -/
def Call {T : Type} (R : ResponseType T) (g : Globals) (urlParses : String → Bool)
    (b : backendImplementation) (req : Request) (resp : Option T) : CallResult (CallOutcome T) :=
  let c := call g urlParses b req
  match c.result with
  | .error err => { req := c.req, sent := c.sent, result := { target := resp, err := some err } }
  | .ok httpResp =>
    if httpResp.ContentLength == 0 || resp.isNone then
      { req := c.req, sent := c.sent, result := { target := resp, err := none } }
    else
      match resp with
      | none => { req := c.req, sent := c.sent, result := { target := none, err := none } }
      | some t =>
        let t := R.withEnvelope t ((R.envelope t).WithDetails (some httpResp))
        let decoded : T × Option String :=
          if hasPrefix ((httpResp.Header.getD []).Get "Content-Type") "application/json" then
            R.decode httpResp.Body t
          else (t, none)
        match decoded with
        | (t, some err) =>
          { req := c.req, sent := c.sent,
            result := { target := some t, err := some (errorsWrap err "decode response body") } }
        | (t, none) =>
          let err : Option String := none
          let err :=
            match (R.envelope t).Error with
            | some rerr =>
              (match err with
               | none => some rerr
               | some e => some (errorsWrap e rerr))
            | none => err
          { req := c.req, sent := c.sent, result := { target := some t, err := err } }

/-! ## Options records of the resource files -/

/-- `ListOptions` of `options.go`. -/
structure ListOptions where
  Page : Int := 0
  PerPage : Int := 0
  deriving DecidableEq, Repr

/-- The fields of `ListOptions` with their tags. -/
def ListOptions.fields (o : ListOptions) : List LeafField :=
  [ { name := "Page", url := "page,omitempty", json := "", validate := "",
      value := .scalar (.int o.Page) },
    { name := "PerPage", url := "per_page,omitempty", json := "", validate := "",
      value := .scalar (.int o.PerPage) } ]

/-- `ProjectGetOptions` of `project.go`. -/
structure ProjectGetOptions where
  Name : String := ""
  deriving DecidableEq, Repr

/-- `ProjectGetOptions` with its tags. -/
def ProjectGetOptions.toStruct (o : ProjectGetOptions) : Struct :=
  { fields := [ .leaf { name := "Name", url := "project", json := "-", validate := "required",
                        value := .scalar (.str o.Name) } ] }

/-- `ProjectListOptions` of `project.go`. -/
structure ProjectListOptions where
  ListOptions : ListOptions := {}
  deriving DecidableEq, Repr

/-- `ProjectListOptions` with its tags. -/
def ProjectListOptions.toStruct (o : ProjectListOptions) : Struct :=
  { fields := [ .embedded "ListOptions" ",inline" "-" o.ListOptions.fields ] }

/-- `SecretGetOptions` of `secret.go`. -/
structure SecretGetOptions where
  Project : String := ""
  Config : String := ""
  Name : String := ""
  deriving DecidableEq, Repr

/-- `SecretGetOptions` with its tags: the record declares `url` and `json` tags and no
`validate` tag. -/
def SecretGetOptions.toStruct (o : SecretGetOptions) : Struct :=
  { fields := [ .leaf { name := "Project", url := "project", json := "-", validate := "",
                        value := .scalar (.str o.Project) },
                .leaf { name := "Config", url := "config", json := "-", validate := "",
                        value := .scalar (.str o.Config) },
                .leaf { name := "Name", url := "name", json := "-", validate := "",
                        value := .scalar (.str o.Name) } ] }

/-- `SecretUpdateOptions` of `secret.go`. The map is `none` when nil; its entries are kept
in ascending key order, the order in which `encoding/json` writes them. -/
structure SecretUpdateOptions where
  Project : String := ""
  Config : String := ""
  NewSecrets : Option (List (String × String)) := none
  deriving DecidableEq, Repr

/-- `SecretUpdateOptions` with its tags. -/
def SecretUpdateOptions.toStruct (o : SecretUpdateOptions) : Struct :=
  { fields := [ .leaf { name := "Project", url := "-", json := "project", validate := "",
                        value := .scalar (.str o.Project) },
                .leaf { name := "Config", url := "-", json := "config", validate := "",
                        value := .scalar (.str o.Config) },
                .strMap "NewSecrets" "secrets" "" o.NewSecrets ] }

/-- `ShareEncryptedOptions` of `share.go`. -/
structure ShareEncryptedOptions where
  Secret : String := ""
  Password : String := ""
  KDF : String := ""
  SaltRounds : Int := 0
  ExpireViews : Option Int := none
  ExpireDays : Option Int := none
  deriving DecidableEq, Repr

/-- `ShareEncryptedOptions` with its tags. -/
def ShareEncryptedOptions.toStruct (o : ShareEncryptedOptions) : Struct :=
  { fields := [ .leaf { name := "Secret", url := "-", json := "encrypted_secret",
                        validate := "required", value := .scalar (.str o.Secret) },
                .leaf { name := "Password", url := "-", json := "hashed_password",
                        validate := "required", value := .scalar (.str o.Password) },
                .leaf { name := "KDF", url := "-", json := "encryption_kdf",
                        validate := "required,eq=pbkdf2", value := .scalar (.str o.KDF) },
                .leaf { name := "SaltRounds", url := "-", json := "encryption_salt_rounds",
                        validate := "required,eq=100000", value := .scalar (.int o.SaltRounds) },
                .leaf { name := "ExpireViews", url := "-", json := "expire_views,omitempty",
                        validate := "", value := .ptr (o.ExpireViews.map Scalar.int) },
                .leaf { name := "ExpireDays", url := "-", json := "expire_days,omitempty",
                        validate := "", value := .ptr (o.ExpireDays.map Scalar.int) } ] }

/-- `EncryptionKDF` of `share.go`. -/
def EncryptionKDF : String := "pbkdf2"

/-- `EncryptionSaltRounds` of `share.go`. -/
def EncryptionSaltRounds : Int := 100000

/-- `AuthRevokeOptions` with its tags and the output of its `MarshalJSON` method. -/
def AuthRevokeOptions.toStruct (o : AuthRevokeOptions) : Struct :=
  { fields := [ .tokens "Tokens" "tokens" "gt=0" o.Tokens ],
    custom := some (jsonTokens o.Tokens) }

/-- `ServiceTokenDeleteOptions` of `service_token.go`. -/
structure ServiceTokenDeleteOptions where
  Project : String := ""
  Config : String := ""
  Slug : String := ""
  deriving DecidableEq, Repr

/-- `ServiceTokenDeleteOptions` with its tags. -/
def ServiceTokenDeleteOptions.toStruct (o : ServiceTokenDeleteOptions) : Struct :=
  { fields := [ .leaf { name := "Project", url := "-", json := "project,omitempty",
                        validate := "", value := .scalar (.str o.Project) },
                .leaf { name := "Config", url := "-", json := "config,omitempty",
                        validate := "", value := .scalar (.str o.Config) },
                .leaf { name := "Slug", url := "-", json := "slug,omitempty",
                        validate := "", value := .scalar (.str o.Slug) } ] }

/-- `SecretDownloadOptions` of `secret.go`. -/
structure SecretDownloadOptions where
  Project : String := ""
  Config : String := ""
  IncludeDynamic : Option Bool := none
  DynamicTTLSeconds : Option Int := none
  Format : Option String := none
  NameTransformer : Option String := none
  deriving DecidableEq, Repr

/-- `SecretDownloadOptions` with its tags. -/
def SecretDownloadOptions.toStruct (o : SecretDownloadOptions) : Struct :=
  { fields := [ .leaf { name := "Project", url := "project", json := "-", validate := "",
                        value := .scalar (.str o.Project) },
                .leaf { name := "Config", url := "config", json := "-", validate := "",
                        value := .scalar (.str o.Config) },
                .leaf { name := "IncludeDynamic", url := "include_dynamic_secrets,omitempty",
                        json := "-", validate := "",
                        value := .ptr (o.IncludeDynamic.map Scalar.bool) },
                .leaf { name := "DynamicTTLSeconds", url := "dynamic_secrets_ttl_sec,omitempty",
                        json := "-", validate := "",
                        value := .ptr (o.DynamicTTLSeconds.map Scalar.int) },
                .leaf { name := "Format", url := "format,omitempty", json := "-",
                        validate := "", value := .ptr (o.Format.map Scalar.str) },
                .leaf { name := "NameTransformer", url := "name_transformer,omitempty",
                        json := "-", validate := "",
                        value := .ptr (o.NameTransformer.map Scalar.str) } ] }

/-- `WorkplaceUpdateOptions` of `workplace.go`: its fields declare a `json` tag only. -/
structure WorkplaceUpdateOptions where
  NewName : Option String := none
  NewBillingEmail : Option String := none
  deriving DecidableEq, Repr

/-- `WorkplaceUpdateOptions` with its tags. -/
def WorkplaceUpdateOptions.toStruct (o : WorkplaceUpdateOptions) : Struct :=
  { fields := [ .leaf { name := "NewName", url := "", json := "name,omitempty",
                        validate := "", value := .ptr (o.NewName.map Scalar.str) },
                .leaf { name := "NewBillingEmail", url := "", json := "billing_email,omitempty",
                        validate := "", value := .ptr (o.NewBillingEmail.map Scalar.str) } ] }

/-- `AuditWorkplaceUserGetOptions` of `audit.go`. -/
structure AuditWorkplaceUserGetOptions where
  UserID : String := ""
  Settings : Option Bool := none
  deriving DecidableEq, Repr

/-- `AuditWorkplaceUserGetOptions` with its tags. -/
def AuditWorkplaceUserGetOptions.toStruct (o : AuditWorkplaceUserGetOptions) : Struct :=
  { fields := [ .leaf { name := "UserID", url := "-", json := "-", validate := "",
                        value := .scalar (.str o.UserID) },
                .leaf { name := "Settings", url := "settings,omitempty", json := "-",
                        validate := "", value := .ptr (o.Settings.map Scalar.bool) } ] }

/-- The declaration of a field of an options record: its Go name, the contents of its `url`
and `json` tags (`""` when the tag is absent), and whether the field is anonymous (an
embedded record). -/
structure FieldDecl where
  name : String
  url : String
  json : String
  anonymous : Bool := false
  deriving DecidableEq, Repr

/-- The declaration of a field of the reflective view of a record. -/
def Field.decl : Field → FieldDecl
  | .leaf f => { name := f.name, url := f.url, json := f.json }
  | .embedded name url json _ => { name := name, url := url, json := json, anonymous := true }
  | .strMap name json _ _ => { name := name, url := "-", json := json }
  | .tokens name json _ _ => { name := name, url := "-", json := json }

/-- The options types that the package declares (every `...Options struct` of the files
`activity_log.go`, `audit.go`, `auth.go`, `config.go`, `config_log.go`, `dynamic_secret.go`,
`environment.go`, `options.go`, `project.go`, `secret.go`, `service_token.go`, `share.go` and
`workplace.go`), each with the declarations of its fields in order. -/
def optionsTypes : List (String × List FieldDecl) :=
  [ ("ActivityLogGetOptions",
      [ { name := "ID", url := "log", json := "-" } ]),
    ("ActivityLogListOptions",
      [ { name := "ListOptions", url := ",inline", json := "-", anonymous := true } ]),
    ("AuditWorkplaceGetOptions",
      [ { name := "Settings", url := "settings,omitempty", json := "-" } ]),
    ("AuditWorkplaceUserGetOptions",
      [ { name := "UserID", url := "-", json := "-" },
        { name := "Settings", url := "settings,omitempty", json := "-" } ]),
    ("AuditWorkplaceUserListOptions",
      [ { name := "Settings", url := "settings,omitempty", json := "-" } ]),
    ("AuthRevokeOptions",
      [ { name := "Tokens", url := "-", json := "tokens" } ]),
    ("ConfigGetOptions",
      [ { name := "Project", url := "project", json := "-" },
        { name := "Config", url := "config", json := "-" } ]),
    ("ConfigListOptions",
      [ { name := "ListOptions", url := ",inline", json := "-", anonymous := true },
        { name := "Project", url := "project", json := "-" } ]),
    ("ConfigCreateOptions",
      [ { name := "Project", url := "-", json := "project" },
        { name := "Environment", url := "-", json := "environment" },
        { name := "Name", url := "-", json := "name" } ]),
    ("ConfigUpdateOptions",
      [ { name := "Project", url := "-", json := "project" },
        { name := "Config", url := "-", json := "config" },
        { name := "NewName", url := "-", json := "name" } ]),
    ("ConfigDeleteOptions",
      [ { name := "Project", url := "-", json := "project" },
        { name := "Config", url := "-", json := "config" } ]),
    ("ConfigLockOptions",
      [ { name := "Project", url := "-", json := "project" },
        { name := "Config", url := "-", json := "config" } ]),
    ("ConfigUnlockOptions",
      [ { name := "Project", url := "-", json := "project" },
        { name := "Config", url := "-", json := "config" } ]),
    ("ConfigCloneOptions",
      [ { name := "Project", url := "-", json := "project" },
        { name := "Config", url := "-", json := "config" },
        { name := "NewConfig", url := "-", json := "name" } ]),
    ("ConfigLogGetOptions",
      [ { name := "Project", url := "project", json := "-" },
        { name := "Config", url := "config", json := "-" },
        { name := "ID", url := "log", json := "-" } ]),
    ("ConfigLogListOptions",
      [ { name := "ListOptions", url := ",inline", json := "-", anonymous := true },
        { name := "Project", url := "project", json := "-" },
        { name := "Config", url := "config", json := "-" } ]),
    ("ConfigLogRollbackOptions",
      [ { name := "Project", url := "project", json := "-" },
        { name := "Config", url := "config", json := "-" },
        { name := "ID", url := "log", json := "-" } ]),
    ("DynamicSecretIssueLeaseOptions",
      [ { name := "Project", url := "-", json := "project" },
        { name := "Config", url := "-", json := "config" },
        { name := "Name", url := "-", json := "dynamic_secret" },
        { name := "TTLSeconds", url := "-", json := "ttl_seconds" } ]),
    ("DynamicSecretRevokeLeaseOptions",
      [ { name := "Project", url := "-", json := "project" },
        { name := "Config", url := "-", json := "config" },
        { name := "Name", url := "-", json := "dynamic_secret" },
        { name := "Slug", url := "-", json := "slug" } ]),
    ("EnvironmentGetOptions",
      [ { name := "Project", url := "project", json := "-" },
        { name := "Slug", url := "environment", json := "-" } ]),
    ("EnvironmentListOptions",
      [ { name := "Project", url := "project", json := "-" } ]),
    ("EnvironmentCreateOptions",
      [ { name := "Project", url := "project", json := "-" },
        { name := "Name", url := "-", json := "name,omitempty" },
        { name := "Slug", url := "-", json := "slug,omitempty" } ]),
    ("EnvironmentRenameOptions",
      [ { name := "Project", url := "project", json := "-" },
        { name := "Slug", url := "environment", json := "-" },
        { name := "NewName", url := "-", json := "name,omitempty" },
        { name := "NewSlug", url := "-", json := "slug,omitempty" } ]),
    ("EnvironmentDeleteOptions",
      [ { name := "Project", url := "project", json := "-" },
        { name := "Slug", url := "environment", json := "-" } ]),
    ("ListOptions",
      [ { name := "Page", url := "page,omitempty", json := "" },
        { name := "PerPage", url := "per_page,omitempty", json := "" } ]),
    ("ProjectGetOptions",
      [ { name := "Name", url := "project", json := "-" } ]),
    ("ProjectListOptions",
      [ { name := "ListOptions", url := ",inline", json := "-", anonymous := true } ]),
    ("ProjectCreateOptions",
      [ { name := "Name", url := "-", json := "name" },
        { name := "Description", url := "-", json := "description,omitempty" } ]),
    ("ProjectUpdateOptions",
      [ { name := "Name", url := "-", json := "project" },
        { name := "NewName", url := "-", json := "name,omitempty" },
        { name := "NewDescription", url := "-", json := "description,omitempty" } ]),
    ("ProjectDeleteOptions",
      [ { name := "Name", url := "-", json := "project" } ]),
    ("SecretGetOptions",
      [ { name := "Project", url := "project", json := "-" },
        { name := "Config", url := "config", json := "-" },
        { name := "Name", url := "name", json := "-" } ]),
    ("SecretListOptions",
      [ { name := "Project", url := "project", json := "-" },
        { name := "Config", url := "config", json := "-" },
        { name := "IncludeDynamic", url := "include_dynamic_secrets,omitempty", json := "-" },
        { name := "DynamicTTLSeconds", url := "dynamic_secrets_ttl_sec,omitempty", json := "-" },
        { name := "Secrets", url := "secrets,omitempty", json := "-" } ]),
    ("SecretUpdateOptions",
      [ { name := "Project", url := "-", json := "project" },
        { name := "Config", url := "-", json := "config" },
        { name := "NewSecrets", url := "-", json := "secrets" } ]),
    ("SecretDownloadOptions",
      [ { name := "Project", url := "project", json := "-" },
        { name := "Config", url := "config", json := "-" },
        { name := "IncludeDynamic", url := "include_dynamic_secrets,omitempty", json := "-" },
        { name := "DynamicTTLSeconds", url := "dynamic_secrets_ttl_sec,omitempty", json := "-" },
        { name := "Format", url := "format,omitempty", json := "-" },
        { name := "NameTransformer", url := "name_transformer,omitempty", json := "-" } ]),
    ("ServiceTokenListOptions",
      [ { name := "Project", url := "project,omitempty", json := "-" },
        { name := "Config", url := "config,omitempty", json := "-" } ]),
    ("ServiceTokenCreateOptions",
      [ { name := "Project", url := "-", json := "project,omitempty" },
        { name := "Config", url := "-", json := "config,omitempty" },
        { name := "Name", url := "-", json := "name,omitempty" },
        { name := "Access", url := "-", json := "access,omitempty" },
        { name := "ExpiresAt", url := "-", json := "expires_at,omitempty" } ]),
    ("ServiceTokenDeleteOptions",
      [ { name := "Project", url := "-", json := "project,omitempty" },
        { name := "Config", url := "-", json := "config,omitempty" },
        { name := "Slug", url := "-", json := "slug,omitempty" } ]),
    ("SharePlainOptions",
      [ { name := "Secret", url := "-", json := "secret" },
        { name := "ExpireViews", url := "-", json := "expire_views,omitempty" },
        { name := "ExpireDays", url := "-", json := "expire_days,omitempty" } ]),
    ("ShareEncryptedOptions",
      [ { name := "Secret", url := "-", json := "encrypted_secret" },
        { name := "Password", url := "-", json := "hashed_password" },
        { name := "KDF", url := "-", json := "encryption_kdf" },
        { name := "SaltRounds", url := "-", json := "encryption_salt_rounds" },
        { name := "ExpireViews", url := "-", json := "expire_views,omitempty" },
        { name := "ExpireDays", url := "-", json := "expire_days,omitempty" } ]),
    ("WorkplaceUpdateOptions",
      [ { name := "NewName", url := "", json := "name,omitempty" },
        { name := "NewBillingEmail", url := "", json := "billing_email,omitempty" } ]) ]

/-! ## Go strings as bytes (`unicode/utf8`, `encoding/json`) -/

/-- The bytes of the Go string that holds a text: its UTF-8 encoding. -/
def goBytes (s : String) : List Nat :=
  s.data.flatMap utf8Bytes

/-- `utf8.DecodeRuneInString`: the first rune of a byte string and its width; `(RuneError, 1)`
when the string does not begin with the UTF-8 encoding of a rune (a stray continuation byte,
a truncated, overlong or surrogate encoding, a value above U+10FFFF) and `(RuneError, 0)`
for the empty string. The masks and shifts of the source are written as remainders and
multiples. -/
def decodeRune : List Nat → Nat × Nat
  | [] => (0xFFFD, 0)
  | s0 :: rest =>
    if s0 < 0x80 then (s0, 1)
    else if s0 < 0xC2 || 0xF4 < s0 then (0xFFFD, 1)
    else
      let sz := if s0 < 0xE0 then 2 else if s0 < 0xF0 then 3 else 4
      let lo := if s0 == 0xE0 then 0xA0 else if s0 == 0xF0 then 0x90 else 0x80
      let hi := if s0 == 0xED then 0x9F else if s0 == 0xF4 then 0x8F else 0xBF
      if rest.length + 1 < sz then (0xFFFD, 1)
      else
        match rest with
        | [] => (0xFFFD, 1)
        | s1 :: rest =>
          if s1 < lo || hi < s1 then (0xFFFD, 1)
          else if sz ≤ 2 then (s0 % 32 * 64 + s1 % 64, 2)
          else
            match rest with
            | [] => (0xFFFD, 1)
            | s2 :: rest =>
              if s2 < 0x80 || 0xBF < s2 then (0xFFFD, 1)
              else if sz ≤ 3 then (s0 % 16 * 4096 + s1 % 64 * 64 + s2 % 64, 3)
              else
                match rest with
                | [] => (0xFFFD, 1)
                | s3 :: _ =>
                  if s3 < 0x80 || 0xBF < s3 then (0xFFFD, 1)
                  else (s0 % 8 * 262144 + s1 % 64 * 4096 + s2 % 64 * 64 + s3 % 64, 4)

/-- The loop of `appendString` of `encoding/json` (HTML escaping on) over the bytes of a Go
string: a byte below `utf8.RuneSelf` is written as `escapeChar` writes it; a byte at which
no rune can be decoded is written as the six characters `\ufffd`; the line and paragraph
separators are written as `\u2028` and `\u2029`; every other rune is copied. The first
argument bounds the number of iterations. -/
def appendStringLoop : Nat → List Nat → List Char
  | 0, _ => []
  | _ + 1, [] => []
  | fuel + 1, b :: bs =>
    if b < 0x80 then escapeChar (Char.ofNat b) ++ appendStringLoop fuel bs
    else
      let c := decodeRune ((b :: bs).take 4)
      if c.1 == 0xFFFD && c.2 == 1 then
        ['\\', 'u', 'f', 'f', 'f', 'd'] ++ appendStringLoop fuel bs
      else if c.1 == 0x2028 || c.1 == 0x2029 then
        ['\\', 'u', '2', '0', '2', hexDigit (c.1 % 16)] ++
          appendStringLoop fuel ((b :: bs).drop c.2)
      else
        Char.ofNat c.1 :: appendStringLoop fuel ((b :: bs).drop c.2)

/-- `appendString` of `encoding/json`: the JSON text of a Go string given by its bytes. -/
def appendString (src : List Nat) : String :=
  ⟨'"' :: (appendStringLoop src.length src ++ ['"'])⟩

/-- `json.Marshal` of a `map[string]string` whose strings are given by their bytes (entries
in key order): `null` for a nil map. -/
def appendStrMap : Option (List (List Nat × List Nat)) → String
  | none => "null"
  | some m => jsonObject (m.map (fun kv => appendString kv.1 ++ ":" ++ appendString kv.2))

/-- `json.Marshal` of an `AuthToken` whose token is given by its bytes: the token is dropped
when nil (`omitempty`). -/
def appendAuthToken : Option (List Nat) → String
  | none => jsonObject []
  | some tok => jsonObject [jsonString "token" ++ ":" ++ appendString tok]

/-- `AuthRevokeOptions.MarshalJSON` of `auth.go` for tokens given by their bytes:
`json.Marshal(opts.Tokens)`, `null` for a nil slice. -/
def appendTokens : Option (List (Option (List Nat))) → String
  | none => "null"
  | some ts => jsonArray (ts.map appendAuthToken)

/-- `SecretUpdateOptions` of `secret.go`, its strings given by their bytes: every value of
the Go type, the ones whose strings are not valid UTF-8 included. -/
structure SecretUpdateOptionsBytes where
  Project : List Nat := []
  Config : List Nat := []
  NewSecrets : Option (List (List Nat × List Nat)) := none
  deriving DecidableEq, Repr

/-- The bytes of a `SecretUpdateOptions` whose strings are texts. -/
def SecretUpdateOptions.bytes (o : SecretUpdateOptions) : SecretUpdateOptionsBytes :=
  { Project := goBytes o.Project,
    Config := goBytes o.Config,
    NewSecrets := o.NewSecrets.map (fun m => m.map (fun kv => (goBytes kv.1, goBytes kv.2))) }

/-- `Request.getBody` of `doppler.go` for a payload that points to a `SecretUpdateOptions`:
what `json.Encoder.Encode` writes, the three tagged fields in declaration order and a
newline. -/
def SecretUpdateOptionsBytes.getBody (o : SecretUpdateOptionsBytes) : String :=
  jsonObject [ jsonString "project" ++ ":" ++ appendString o.Project,
               jsonString "config" ++ ":" ++ appendString o.Config,
               jsonString "secrets" ++ ":" ++ appendStrMap o.NewSecrets ] ++ "\n"

/-! ## Decoding (`encoding/json`) -/

/-- A JSON value as the decoder sees it; a number keeps its literal text. -/
inductive Json
  | null
  | bool (b : Bool)
  | num (text : String)
  | str (s : String)
  | arr (elems : List Json)
  | obj (members : List (String × Json))

/-- JSON white space. -/
def isJsonSpace (c : Char) : Bool :=
  c == ' ' || c == '\t' || c == '\r' || c == '\n'

/-- Skip JSON white space. -/
def skipWs : List Char → List Char
  | [] => []
  | c :: cs => if isJsonSpace c then skipWs cs else c :: cs

/-- The value of a hexadecimal digit, either case. -/
def hexVal (c : Char) : Option Nat :=
  let n := c.toNat
  if 48 ≤ n ∧ n ≤ 57 then some (n - 48)
  else if 97 ≤ n ∧ n ≤ 102 then some (n - 87)
  else if 65 ≤ n ∧ n ≤ 70 then some (n - 55)
  else none

/-- The number written by four hexadecimal digits. -/
def hex4 (a b c d : Char) : Option Nat :=
  match hexVal a, hexVal b, hexVal c, hexVal d with
  | some x, some y, some z, some w => some (((x * 16 + y) * 16 + z) * 16 + w)
  | _, _, _, _ => none

/-- The character of a one-letter escape `\e`. -/
def unescapeSimple (e : Char) : Option Char :=
  if e == '"' then some '"'
  else if e == '\\' then some '\\'
  else if e == '/' then some '/'
  else if e == 'b' then some (Char.ofNat 8)
  else if e == 'f' then some (Char.ofNat 12)
  else if e == 'n' then some (Char.ofNat 10)
  else if e == 'r' then some (Char.ofNat 13)
  else if e == 't' then some (Char.ofNat 9)
  else none

/-- The character of a `\uXXXX` escape with value `n`, given the value `m` of a `\uXXXX`
escape that follows it directly, if there is one: a surrogate pair is combined (second
component `true`: the following escape is consumed), a lone surrogate is replaced by
U+FFFD. -/
def unescapeUnicode (n : Nat) (m : Option Nat) : Char × Bool :=
  if 0xD800 ≤ n ∧ n < 0xDC00 then
    match m with
    | some m =>
      if 0xDC00 ≤ m ∧ m < 0xE000 then
        (Char.ofNat (0x10000 + (n - 0xD800) * 0x400 + (m - 0xDC00)), true)
      else (Char.ofNat 0xFFFD, false)
    | none => (Char.ofNat 0xFFFD, false)
  else if 0xDC00 ≤ n ∧ n < 0xE000 then (Char.ofNat 0xFFFD, false)
  else (Char.ofNat n, false)

/-- The value of the `\uXXXX` escape at the head of the input, if there is one. -/
def peekUnicodeEscape : List Char → Option Nat
  | '\\' :: 'u' :: a :: b :: c :: d :: _ => hex4 a b c d
  | _ => none

/-- The states of the string scanner: in plain text, after a backslash, inside a `\\uXXXX`
escape (hexadecimal digits still to read, value read so far), and passing over the second
escape of a surrogate pair that has been combined already. -/
inductive StrState
  | plain
  | escape
  | unicode (digits : Nat) (value : Nat)
  | skip (n : Nat)
  deriving DecidableEq, Repr

/-- The rest of a JSON string after its opening quote: the decoded text (accumulated in
reverse) and the input after the closing quote. A raw control character, an unknown escape
and a missing closing quote are syntax errors. -/
def scanString : StrState → List Char → List Char → Option (String × List Char)
  | _, [], _ => none
  | .plain, c :: cs, acc =>
    if c == '"' then some (⟨acc.reverse⟩, cs)
    else if c == '\\' then scanString .escape cs acc
    else if c.toNat < 32 then none
    else scanString .plain cs (c :: acc)
  | .escape, e :: cs, acc =>
    if e == 'u' then scanString (.unicode 4 0) cs acc
    else
      match unescapeSimple e with
      | some ch => scanString .plain cs (ch :: acc)
      | none => none
  | .unicode k v, h :: cs, acc =>
    match hexVal h with
    | none => none
    | some d =>
      if k ≤ 1 then
        if (unescapeUnicode (v * 16 + d) (peekUnicodeEscape cs)).2 then
          scanString (.skip 6) cs ((unescapeUnicode (v * 16 + d) (peekUnicodeEscape cs)).1 :: acc)
        else
          scanString .plain cs ((unescapeUnicode (v * 16 + d) (peekUnicodeEscape cs)).1 :: acc)
      else scanString (.unicode (k - 1) (v * 16 + d)) cs acc
  | .skip n, _ :: cs, acc =>
    if n ≤ 1 then scanString .plain cs acc else scanString (.skip (n - 1)) cs acc

/-- The rest of a JSON string after its opening quote. -/
def parseStringBody (cs : List Char) : Option (String × List Char) :=
  scanString .plain cs []

/-- The longest prefix of decimal digits, and the rest. -/
def spanDigits : List Char → List Char × List Char
  | [] => ([], [])
  | c :: cs =>
    if (digitVal c).isSome then ((spanDigits cs).1.cons c, (spanDigits cs).2) else ([], c :: cs)

/-- A JSON number literal at the head of the input: `-? (0 | [1-9][0-9]*) (. [0-9]+)?
([eE] [+-]? [0-9]+)?`; the literal text and the rest. -/
def parseNumber (cs : List Char) : Option (String × List Char) :=
  let sign := if cs.head? == some '-' then ['-'] else []
  let cs := if cs.head? == some '-' then cs.tail else cs
  let intPart := spanDigits cs
  if intPart.1.isEmpty || (intPart.1.head? == some '0' && intPart.1.length > 1) then none
  else
    let frac : Option (List Char × List Char) :=
      match intPart.2 with
      | '.' :: r =>
        let f := spanDigits r
        if f.1.isEmpty then none else some ('.' :: f.1, f.2)
      | r => some ([], r)
    match frac with
    | none => none
    | some (fracText, r) =>
      let expo : Option (List Char × List Char) :=
        match r with
        | e :: r1 =>
          if e == 'e' || e == 'E' then
            let s := if r1.head? == some '+' ∨ r1.head? == some '-' then r1.take 1 else []
            let r2 := if r1.head? == some '+' ∨ r1.head? == some '-' then r1.tail else r1
            let x := spanDigits r2
            if x.1.isEmpty then none else some (e :: (s ++ x.1), x.2)
          else some ([], r)
        | [] => some ([], [])
      match expo with
      | none => none
      | some (expText, r) => some (⟨sign ++ intPart.1 ++ fracText ++ expText⟩, r)

mutual
/-- A JSON value at the head of the input (after white space), and the rest of the input.
The first argument bounds the nesting depth and the number of elements that are read. -/
def parseValue : Nat → List Char → Option (Json × List Char)
  | 0, _ => none
  | fuel + 1, cs =>
    match skipWs cs with
    | [] => none
    | c :: r =>
      if c == '"' then (parseStringBody r).map (fun p => (Json.str p.1, p.2))
      else if c == '[' then
        match skipWs r with
        | [] => none
        | c1 :: r1 =>
          if c1 == ']' then some (Json.arr [], r1)
          else (parseElems fuel (c1 :: r1) []).map (fun p => (Json.arr p.1, p.2))
      else if c == '\x7b' then
        match skipWs r with
        | [] => none
        | c1 :: r1 =>
          if c1 == '\x7d' then some (Json.obj [], r1)
          else (parseMembers fuel (c1 :: r1) []).map (fun p => (Json.obj p.1, p.2))
      else if hasPrefixChars (c :: r) "true".data then some (Json.bool true, (c :: r).drop 4)
      else if hasPrefixChars (c :: r) "false".data then some (Json.bool false, (c :: r).drop 5)
      else if hasPrefixChars (c :: r) "null".data then some (Json.null, (c :: r).drop 4)
      else (parseNumber (c :: r)).map (fun p => (Json.num p.1, p.2))
/-- The elements of a JSON array up to and including the closing bracket. -/
def parseElems : Nat → List Char → List Json → Option (List Json × List Char)
  | 0, _, _ => none
  | fuel + 1, cs, acc =>
    match parseValue fuel cs with
    | none => none
    | some (v, r) =>
      match skipWs r with
      | [] => none
      | c :: r1 =>
        if c == ',' then parseElems fuel r1 (acc ++ [v])
        else if c == ']' then some (acc ++ [v], r1)
        else none
/-- The members of a JSON object up to and including the closing brace. -/
def parseMembers : Nat → List Char → List (String × Json) → Option (List (String × Json) × List Char)
  | 0, _, _ => none
  | fuel + 1, cs, acc =>
    match skipWs cs with
    | [] => none
    | q :: r =>
      if q == '"' then
        match parseStringBody r with
        | none => none
        | some (key, r1) =>
          match skipWs r1 with
          | [] => none
          | colon :: r2 =>
            if colon == ':' then
              match parseValue fuel r2 with
              | none => none
              | some (v, r3) =>
                match skipWs r3 with
                | [] => none
                | c :: r4 =>
                  if c == ',' then parseMembers fuel r4 (acc ++ [(key, v)])
                  else if c == '\x7d' then some (acc ++ [(key, v)], r4)
                  else none
            else none
      else none
end

/-- What `json.Decoder.Decode` reads from a stream holding `body`: the first JSON value.
Nothing is read from an empty stream (`io.EOF`) or from malformed text; after a top-level
string, number or literal the next character, if any, must be white space. -/
def readValue (body : String) : Option Json :=
  match parseValue (2 * body.length + 2) body.data with
  | none => none
  | some (Json.arr xs, _) => some (Json.arr xs)
  | some (Json.obj ms, _) => some (Json.obj ms)
  | some (v, []) => some v
  | some (v, c :: _) => if isJsonSpace c then some v else none

/-- The outcome of decoding one JSON value into a Go value: no error, a type mismatch
(`UnmarshalTypeError`: the decoder remembers the first one and goes on), or an error that
ends the decoding at once (the error of an `UnmarshalJSON` method). -/
inductive DecErr
  | ok
  | saved (e : String)
  | fatal (e : String)
  deriving DecidableEq, Repr

/-- The smallest member of the case-folding orbit of a character, as `json.foldRune`
computes it, for the characters whose orbit contains an ASCII letter. -/
def foldChar (c : Char) : Char :=
  let n := c.toNat
  if 97 ≤ n ∧ n ≤ 122 then Char.ofNat (n - 32)
  else if n == 0x17F then 'S'
  else if n == 0x212A then 'K'
  else c

/-- `json.foldName`. -/
def foldName (s : String) : String :=
  ⟨s.data.map foldChar⟩

/-- The field that a JSON key selects among the (ASCII) field names of a record: the one
with that exact name, or else the first one equal to it under case folding. -/
def findField (names : List String) (key : String) : Option String :=
  match names.find? (fun n => n == key) with
  | some n => some n
  | none => names.find? (fun n => foldName n == foldName key)

/-- Decoding into a `string`. -/
def decodeString (cur : String) : Json → String × DecErr
  | .str s => (s, .ok)
  | .null => (cur, .ok)
  | _ => (cur, .saved "json: cannot unmarshal into Go value of type string")

/-- Decoding into an `int`. -/
def decodeInt (cur : Int) : Json → Int × DecErr
  | .num t =>
    match parseInt64 t with
    | some n => (n, .ok)
    | none => (cur, .saved "json: cannot unmarshal number into Go value of type int")
  | .null => (cur, .ok)
  | _ => (cur, .saved "json: cannot unmarshal into Go value of type int")

/-- Decoding into a `*bool`: `null` sets the pointer to nil; otherwise a nil pointer is
first pointed at a new zero value. -/
def decodeBoolPtr (cur : Option Bool) : Json → Option Bool × DecErr
  | .bool b => (some b, .ok)
  | .null => (none, .ok)
  | _ => (some (cur.getD false), .saved "json: cannot unmarshal into Go value of type bool")

/-- Decoding into a `*int`. -/
def decodeIntPtr (cur : Option Int) : Json → Option Int × DecErr
  | .null => (none, .ok)
  | j => ((decodeInt (cur.getD 0) j).map some id)

/-- Decoding into a `*string`. -/
def decodeStringPtr (cur : Option String) : Json → Option String × DecErr
  | .null => (none, .ok)
  | j => ((decodeString (cur.getD "") j).map some id)

/-- The first error of two steps of one decoding. -/
def DecErr.andThen : DecErr → DecErr → DecErr
  | .ok, e => e
  | .saved _, .fatal f => .fatal f
  | .saved e, _ => .saved e
  | .fatal e, _ => .fatal e

/-- Decoding the elements of an array into the elements of a `[]string`: the i-th element
is decoded into the i-th old element, or into a new zero value beyond the old length. -/
def decodeStringElems : List String → List Json → List String × DecErr
  | _, [] => ([], .ok)
  | old, j :: js =>
    let r := decodeString (old.headD "") j
    let rs := decodeStringElems old.tail js
    (r.1 :: rs.1, r.2.andThen rs.2)

/-- Decoding into a `[]string` (nil and empty are both the empty list). -/
def decodeStringList (cur : List String) : Json → List String × DecErr
  | .arr elems => decodeStringElems cur elems
  | .null => ([], .ok)
  | _ => (cur, .saved "json: cannot unmarshal into Go value of type []string")

/-- Decoding the members of an object into a `map[string][]string`: every value is decoded
into a new element, which is then stored under the key. -/
def decodeHeaderMembers : Header → List (String × Json) → Header × DecErr
  | h, [] => (h, .ok)
  | h, (k, j) :: ms =>
    let r := decodeStringList [] j
    let rs := decodeHeaderMembers (headerAssign h k r.1) ms
    (rs.1, r.2.andThen rs.2)

/-- Decoding into an `http.Header`: `null` gives the nil map, an object is merged into the
map that is there (a nil map is replaced by a new one first). -/
def decodeHeader (cur : Option Header) : Json → Option Header × DecErr
  | .obj ms => (decodeHeaderMembers (cur.getD []) ms).map some id
  | .null => (none, .ok)
  | _ => (cur, .saved "json: cannot unmarshal into Go value of type http.Header")

/-- The zero `time.Time`, January 1 of year 1, 00:00:00 UTC. -/
def Time.zero : Time := { unixSec := -62135596800 }

/-- Decoding into a `time.Time` through `Time.UnmarshalJSON`: `null` is ignored; a string
is parsed as RFC 3339 (by `parseTime`, a parameter standing for the parser of `time`) and
the result is assigned, which is the zero time next to an error when the string does not
parse; anything else is an error before an assignment. An error of the method ends the
decoding. -/
def decodeTime (parseTime : String → Option Time) (cur : Time) : Json → Time × DecErr
  | .null => (cur, .ok)
  | .str s =>
    match parseTime s with
    | some t => (t, .ok)
    | none => (Time.zero, .fatal "parsing time: not in RFC 3339 format")
  | _ => (cur, .fatal "Time.UnmarshalJSON: input is not a JSON string")

/-- Decoding one member of an object into a `RateLimit`. -/
def decodeRateLimitMember (parseTime : String → Option Time) (r : RateLimit) (key : String)
    (j : Json) : RateLimit × DecErr :=
  match findField ["limit", "remaining", "reset"] key with
  | some "limit" => (decodeInt r.Limit j).map (fun x => { r with Limit := x }) id
  | some "remaining" => (decodeInt r.Remaining j).map (fun x => { r with Remaining := x }) id
  | some "reset" => (decodeTime parseTime r.Reset j).map (fun x => { r with Reset := x }) id
  | _ => (r, .ok)

/-- Decoding the members of an object in order with `step`: a type mismatch is remembered
and the decoding goes on, a fatal error ends it. -/
def decodeMembers {α : Type} (step : α → String → Json → α × DecErr) :
    α → List (String × Json) → α × DecErr
  | a, [] => (a, .ok)
  | a, (k, j) :: ms =>
    match step a k j with
    | (a1, .fatal e) => (a1, .fatal e)
    | (a1, e) =>
      let rs := decodeMembers step a1 ms
      (rs.1, e.andThen rs.2)

/-- Decoding into a `*RateLimit`: `null` gives nil, an object is decoded into the record
that the pointer holds (a new zero record for a nil pointer). -/
def decodeRateLimitPtr (parseTime : String → Option Time) (cur : Option RateLimit) :
    Json → Option RateLimit × DecErr
  | .null => (none, .ok)
  | .obj ms =>
    (decodeMembers (decodeRateLimitMember parseTime) (cur.getD ⟨0, 0, Time.zero⟩) ms).map some id
  | _ => (some (cur.getD ⟨0, 0, Time.zero⟩),
          .saved "json: cannot unmarshal into Go value of type doppler.RateLimit")

/-- The JSON keys of `APIResponse`, in field order. -/
def apiResponseKeys : List String :=
  ["header", "request_id", "ratelimit", "status", "status_code", "success", "messages", "page"]

/-- Decoding one member of an object into an `APIResponse`; an unknown key is skipped. -/
def decodeAPIResponseMember (parseTime : String → Option Time) (r : APIResponse) (key : String)
    (j : Json) : APIResponse × DecErr :=
  match findField apiResponseKeys key with
  | some "header" => (decodeHeader r.Header j).map (fun x => { r with Header := x }) id
  | some "request_id" => (decodeString r.RequestID j).map (fun x => { r with RequestID := x }) id
  | some "ratelimit" =>
    (decodeRateLimitPtr parseTime r.RateLimit j).map (fun x => { r with RateLimit := x }) id
  | some "status" => (decodeString r.Status j).map (fun x => { r with Status := x }) id
  | some "status_code" => (decodeInt r.StatusCode j).map (fun x => { r with StatusCode := x }) id
  | some "success" => (decodeBoolPtr r.Success j).map (fun x => { r with Success := x }) id
  | some "messages" => (decodeStringList r.Messages j).map (fun x => { r with Messages := x }) id
  | some "page" => (decodeIntPtr r.Page j).map (fun x => { r with Page := x }) id
  | _ => (r, .ok)

/-- The error that a decoding returns. -/
def DecErr.toError : DecErr → Option String
  | .ok => none
  | .saved e => some e
  | .fatal e => some e

/-- `json.Decoder.Decode` into a record whose members are decoded by `step`: the text must
hold a JSON value; `null` leaves the record as it is, an object is decoded member by
member, any other value is a type mismatch. -/
def decodeRecord {α : Type} (step : α → String → Json → α × DecErr) (body : String) (a : α) :
    α × Option String :=
  match readValue body with
  | none => (a, some "json: syntax error or unexpected end of input")
  | some .null => (a, none)
  | some (.obj ms) => (decodeMembers step a ms).map id DecErr.toError
  | some _ => (a, some "json: cannot unmarshal into Go value of a struct type")

/-- The typed responses that consist of the envelope alone (`AuthRevokeResponse`,
`ProjectDeleteResponse`, ...): `json.Decoder.Decode` into the embedded `APIResponse`. -/
def envelopeResponse (parseTime : String → Option Time) : ResponseType APIResponse where
  envelope := fun r => r
  withEnvelope := fun _ e => e
  decode := decodeRecord (decodeAPIResponseMember parseTime)

/-- What `json.Unmarshal` reads from `data`: the JSON value that makes up the whole text
(white space may surround it). -/
def parseDocument (data : String) : Option Json :=
  match parseValue (2 * data.length + 2) data.data with
  | none => none
  | some (v, rest) => if (skipWs rest).isEmpty then some v else none

/-- A Go map assignment `m[key] = value` on a `map[string]string` kept in ascending key
order. -/
def strMapAssign : List (String × String) → String → String → List (String × String)
  | [], key, value => [(key, value)]
  | (k, x) :: rest, key, value =>
    if key < k then (key, value) :: (k, x) :: rest
    else if key == k then (key, value) :: rest
    else (k, x) :: strMapAssign rest key value

/-- Decoding the members of an object into a `map[string]string`: every value is decoded
into a new element, which is then stored under the key. -/
def decodeStrMapMembers : List (String × String) → List (String × Json) →
    List (String × String) × DecErr
  | m, [] => (m, .ok)
  | m, (k, j) :: ms =>
    let r := decodeString "" j
    let rs := decodeStrMapMembers (strMapAssign m k r.1) ms
    (rs.1, r.2.andThen rs.2)

/-- Decoding into a `map[string]string`: `null` gives the nil map, an object is merged into
the map that is there (a nil map is replaced by a new one first). -/
def decodeStrMap (cur : Option (List (String × String))) :
    Json → Option (List (String × String)) × DecErr
  | .obj ms => (decodeStrMapMembers (cur.getD []) ms).map some id
  | .null => (none, .ok)
  | _ => (cur, .saved "json: cannot unmarshal into Go value of type map[string]string")

/-- Decoding one member of an object into a `SecretUpdateOptions`. -/
def decodeSecretUpdateOptionsMember (o : SecretUpdateOptions) (key : String) (j : Json) :
    SecretUpdateOptions × DecErr :=
  match findField ["project", "config", "secrets"] key with
  | some "project" => (decodeString o.Project j).map (fun x => { o with Project := x }) id
  | some "config" => (decodeString o.Config j).map (fun x => { o with Config := x }) id
  | some "secrets" => (decodeStrMap o.NewSecrets j).map (fun x => { o with NewSecrets := x }) id
  | _ => (o, .ok)

/-- `json.NewDecoder(body).Decode(&o)` for a `SecretUpdateOptions`. -/
def decodeSecretUpdateOptions (body : String) (o : SecretUpdateOptions) :
    SecretUpdateOptions × Option String :=
  decodeRecord decodeSecretUpdateOptionsMember body o

/-- Decoding one member of an object into an `AuthToken`. -/
def decodeAuthTokenMember (t : AuthToken) (key : String) (j : Json) : AuthToken × DecErr :=
  match findField ["token"] key with
  | some _ => (decodeStringPtr t.Token j).map (fun x => { t with Token := x }) id
  | none => (t, .ok)

/-- Decoding into an `AuthToken`. -/
def decodeAuthToken (cur : AuthToken) : Json → AuthToken × DecErr
  | .obj ms => decodeMembers decodeAuthTokenMember cur ms
  | .null => (cur, .ok)
  | _ => (cur, .saved "json: cannot unmarshal into Go value of type doppler.AuthToken")

/-- Decoding the elements of an array into the elements of a `[]AuthToken`. -/
def decodeAuthTokenElems : List AuthToken → List Json → List AuthToken × DecErr
  | _, [] => ([], .ok)
  | old, j :: js =>
    match decodeAuthToken (old.headD ⟨none⟩) j with
    | (t, .fatal e) => ([t], .fatal e)
    | (t, e) =>
      let rs := decodeAuthTokenElems old.tail js
      (t :: rs.1, e.andThen rs.2)

/-- Decoding into a `[]AuthToken`: `null` gives the nil slice, an array a non-nil slice. -/
def decodeAuthTokens (cur : Option (List AuthToken)) : Json → Option (List AuthToken) × DecErr
  | .arr elems => (decodeAuthTokenElems (cur.getD []) elems).map some id
  | .null => (none, .ok)
  | _ => (cur, .saved "json: cannot unmarshal into Go value of type []doppler.AuthToken")

/-- `json.Unmarshal(data, &tokens)` for a `[]AuthToken`. -/
def unmarshalAuthTokens (data : String) (cur : Option (List AuthToken)) :
    Option (List AuthToken) × Option String :=
  match parseDocument data with
  | none => (cur, some "json: syntax error or unexpected end of input")
  | some j => (decodeAuthTokens cur j).map id DecErr.toError

/-- The JSON value that `json.Marshal` writes for an `AuthToken`. -/
def AuthToken.toJson (t : AuthToken) : Json :=
  match t.Token with
  | none => .obj []
  | some tok => .obj [("token", .str tok)]

/-- The JSON value that `json.Marshal` writes for a `map[string]string`. -/
def strMapJson : Option (List (String × String)) → Json
  | none => .null
  | some m => .obj (m.map (fun kv => (kv.1, Json.str kv.2)))

/-- The JSON value that `json.Marshal` writes for a `SecretUpdateOptions`. -/
def SecretUpdateOptions.toJson (o : SecretUpdateOptions) : Json :=
  .obj [("project", .str o.Project), ("config", .str o.Config),
        ("secrets", strMapJson o.NewSecrets)]

/-- The keys of a `map[string]string` are in strictly ascending order. -/
def keysAscending (m : List (String × String)) : Prop :=
  (m.map Prod.fst).Pairwise (· < ·)

instance (m : List (String × String)) : Decidable (keysAscending m) := by
  unfold keysAscending; infer_instance

/-- The representation invariant of a `SecretUpdateOptions`: the entries of the map are
listed in ascending key order, each key once. -/
def SecretUpdateOptions.wellFormed (o : SecretUpdateOptions) : Prop :=
  ∀ m, o.NewSecrets = some m → keysAscending m

/-- `SecretUpdateResponse` of `secret.go`: the embedded envelope and the secrets map. -/
structure SecretUpdateResponse where
  APIResponse : APIResponse := {}
  Secrets : Option (List (String × String)) := none
  deriving DecidableEq, Repr

/-- Decoding one member of an object into a `SecretUpdateResponse`: the fields of the
embedded `APIResponse` are promoted, followed by `secrets`. -/
def decodeSecretUpdateResponseMember (parseTime : String → Option Time)
    (r : SecretUpdateResponse) (key : String) (j : Json) : SecretUpdateResponse × DecErr :=
  match findField (apiResponseKeys ++ ["secrets"]) key with
  | some "secrets" => (decodeStrMap r.Secrets j).map (fun x => { r with Secrets := x }) id
  | some _ =>
    (decodeAPIResponseMember parseTime r.APIResponse key j).map
      (fun x => { r with APIResponse := x }) id
  | none => (r, .ok)

/-- The typed response `SecretUpdateResponse`: `WithDetails` and `Error` are those of the
embedded `APIResponse`. -/
def secretUpdateResponse (parseTime : String → Option Time) :
    ResponseType SecretUpdateResponse where
  envelope := fun r => r.APIResponse
  withEnvelope := fun r e => { r with APIResponse := e }
  decode := decodeRecord (decodeSecretUpdateResponseMember parseTime)

/-! ## Resource clients -/

/-- An options pointer `*T` stored in the `any` field `Payload`: a typed nil pointer for
nil, a pointer to the record otherwise. -/
def Payload.ofPtr : Option Struct → Payload
  | none => Payload.nilPtr
  | some s => Payload.ptr s

/-- `Client` of `service_token/client.go`. -/
structure servicetoken.Client where
  Backend : backendImplementation
  Key : String

/-- `Default` of `service_token/client.go`. -/
def servicetoken.Default (transport : HTTPRequest → Except String HTTPResponse) (g : Globals) :
    servicetoken.Client :=
  { Backend := GetBackend transport, Key := g.Key }

/-- The `Request` literal of `Client.delete` in `service_token/client.go`: the options
parameter is the blank identifier there, and the literal sets no `Payload`. -/
def servicetoken.Client.deleteRequest (c : servicetoken.Client)
    (_ : Option ServiceTokenDeleteOptions) : Request :=
  { Method := "DELETE", Path := "/v3/configs/config/tokens/token", Key := c.Key }

/-- `Client.delete` (and with it `Client.Delete`) of `service_token/client.go`: the
envelope of the `ServiceTokenDeleteResponse` and the error. -/
def servicetoken.Client.delete (parseTime : String → Option Time) (g : Globals)
    (urlParses : String → Bool) (c : servicetoken.Client)
    (opts : Option ServiceTokenDeleteOptions) : CallResult (APIResponse × Option String) :=
  let resp : APIResponse := {}
  let r := Call (envelopeResponse parseTime) g urlParses c.Backend (c.deleteRequest opts)
    (some resp)
  { req := r.req, sent := r.sent, result := (r.result.target.getD resp, r.result.err) }

/-- The `Request` literal of `Client.delete` in `config/client.go`, one of the sibling
clients: the options are the payload. The options record is given by its reflective view. -/
def config.Client.deleteRequest (key : String) (opts : Option Struct) : Request :=
  { Method := "DELETE", Path := "/v3/configs/config", Key := key, Payload := Payload.ofPtr opts }

/-- `Client` of `secret/client.go`. -/
structure secret.Client where
  Backend : backendImplementation
  Key : String

/-- `Default` of `secret/client.go`. -/
def secret.Default (transport : HTTPRequest → Except String HTTPResponse) (g : Globals) :
    secret.Client :=
  { Backend := GetBackend transport, Key := g.Key }

/-- The `Request` literal of `Client.download` in `secret/client.go`. -/
def secret.Client.downloadRequest (c : secret.Client) (opts : Option SecretDownloadOptions) :
    Request :=
  { Method := "GET", Path := "/v3/configs/config/secrets/download", Key := c.Key,
    Payload := Payload.ofPtr (opts.map SecretDownloadOptions.toStruct) }

/-- `Client.download` (and with it `Client.Download`) of `secret/client.go`: the body, the
envelope and the error. The body of a response is its whole content, so `io.ReadAll` returns
it without error. -/
def secret.Client.download (g : Globals) (urlParses : String → Bool) (c : secret.Client)
    (opts : Option SecretDownloadOptions) : CallResult (String × APIResponse × Option String) :=
  let resp : APIResponse := {}
  let r := CallRaw g urlParses c.Backend (c.downloadRequest opts)
  match r.result with
  | .error err => { req := r.req, sent := r.sent, result := ("", resp, some err) }
  | .ok httpResp =>
    let resp := resp.WithDetails (some httpResp)
    match resp.Error with
    | some e => { req := r.req, sent := r.sent, result := ("", resp, some e) }
    | none => { req := r.req, sent := r.sent, result := (httpResp.Body, resp, none) }

/-! ## The words of the specification -/

/-- The canonical scalar string of the specification: "booleans as `true`/`false`, integers
as decimal, strings verbatim, nullable pointers as their pointee when present". It is not
defined for an absent pointee. -/
def canonicalScalar : Value → Option String
  | .scalar (.str s) => some s
  | .scalar (.int n) => some (toString n)
  | .scalar (.bool true) => some "true"
  | .scalar (.bool false) => some "false"
  | .ptr (some (.str s)) => some s
  | .ptr (some (.int n)) => some (toString n)
  | .ptr (some (.bool true)) => some "true"
  | .ptr (some (.bool false)) => some "false"
  | .ptr none => none

/-- The seconds since the Unix epoch of a date and time of day in UTC (proleptic Gregorian
calendar, years from 1 on), to read a reset instant the way the specification writes it. -/
def unixOfUTC (year month day hour minute second : Int) : Int :=
  let y := if month ≤ 2 then year - 1 else year
  let era := y / 400
  let yoe := y - era * 400
  let mp := (month + 9) % 12
  let doy := (153 * mp + 2) / 5 + day - 1
  let doe := yoe * 365 + yoe / 4 - yoe / 100 + doy
  (era * 146097 + doe - 719468) * 86400 + hour * 3600 + minute * 60 + second

/-- A header map that holds exactly the three rate-limit headers, one value each. -/
def rateLimitHeader (limit remaining reset : String) : Header :=
  [("X-Ratelimit-Limit", [limit]), ("X-Ratelimit-Remaining", [remaining]),
   ("X-Ratelimit-Reset", [reset])]

/-- The keys of a mapping. -/
def keysOf (v : Values) : List String :=
  v.map Prod.fst

/-- A field is on the query surface when its `url` tag is not `-`. -/
def LeafField.onQuery (f : LeafField) : Prop :=
  f.url ≠ "-"

/-- A field is omitted from the query when it has the zero value of its type and its tag
carries `omitempty`. -/
def LeafField.omitted (f : LeafField) : Prop :=
  tagHas f.url "omitempty" = true ∧ isEmptyValue f.value = true

instance (f : LeafField) : Decidable f.onQuery := by
  unfold LeafField.onQuery; infer_instance

instance (f : LeafField) : Decidable f.omitted := by
  unfold LeafField.omitted; infer_instance

/-- The values that the `Header` of a `Request` gives for the canonical header name `K`, in
the order in which the map is walked. -/
def customValues (custom : Header) (K : String) : List String :=
  custom.flatMap (fun kv => if canonicalMIMEHeaderKey kv.1 = K then kv.2 else [])

/-- No member of a JSON object selects the field with the JSON key `f` of `APIResponse`
(under the exact or case-folded match of the decoder). -/
def keyAbsent (f : String) (ms : List (String × Json)) : Prop :=
  ∀ kj ∈ ms, findField apiResponseKeys kj.1 ≠ some f

/-- The declaration routes the field to exactly one surface: to the query string (a `url`
tag that names a key, or the inlining tag of an embedded record, and `json:"-"`) or to the
body (a `json` tag that names a key and `url:"-"`). -/
def FieldDecl.exactlyOneSurface (d : FieldDecl) : Bool :=
  (d.url != "-" && (tagName d.url != "" || d.anonymous) && d.json == "-") ||
  (d.json != "-" && tagName d.json != "" && d.url == "-")

/-! ## Example inputs -/

/-- A transport that answers every request with an empty `204 No Content`. -/
def exampleBackend : backendImplementation :=
  { URL := "https://api.doppler.com",
    HTTPClient :=
      { Do := fun _ =>
          .ok ({ Status := "204 No Content", StatusCode := 204, Header := some [],
                 ContentLength := 0, Body := "" } : HTTPResponse) } }

/-- The project-get call of `project/client.go` with an empty project name. -/
def exampleProjectGetRequest : Request :=
  { Method := "GET", Path := "/v3/projects/project", Key := "fake-key",
    Payload := .ptr (ProjectGetOptions.toStruct { Name := "" }) }

/-- A transport that answers every request with the response `r`. -/
def backendAnswering (r : HTTPResponse) : backendImplementation :=
  { URL := "https://api.doppler.com", HTTPClient := { Do := fun _ => .ok r } }

/-- A request without payload, the workplace-get call of `workplace/client.go`. -/
def exampleWorkplaceGetRequest : Request :=
  { Method := "GET", Path := "/v3/workplace", Key := "fake-key" }

/-- A `200 OK` whose JSON body reports a failure. -/
def exampleFailure200 : HTTPResponse :=
  { Status := "200 OK", StatusCode := 200,
    Header := some [("Content-Type", ["application/json"])],
    ContentLength := 44,
    Body := "\x7b\"success\":false,\"messages\":[\"bad config\"]\x7d\n" }

/-- A `500 Internal Server Error` whose JSON body has no messages. -/
def exampleError500 : HTTPResponse :=
  { Status := "500 Internal Server Error", StatusCode := 500,
    Header := some [("Content-Type", ["application/json"])],
    ContentLength := 3,
    Body := "\x7b\x7d\n" }

/-- The record of `TestRequest` in `doppler_test.go`. -/
def exampleSecretUpdateOptions : SecretUpdateOptions :=
  { Project := "fake-project", Config := "fake-config",
    NewSecrets := some [("fake-name", "fake-value")] }

/-- A `GET` request that brings its own `Content-Type` header. -/
def exampleGetWithContentType : Request :=
  { Method := "GET", Path := "/v3/workplace", Key := "fake-key",
    Header := [("Content-Type", ["text/plain"])] }

/-- A `GET` request whose payload has body-tagged fields only. -/
def exampleGetWithBodyFields : Request :=
  { Method := "GET", Path := "/v3/configs/config/secrets", Key := "fake-key",
    Payload := .ptr exampleSecretUpdateOptions.toStruct }

/-- The secrets-update call of `secret/client.go` for the record of `TestRequest`. -/
def exampleSecretUpdateRequest : Request :=
  { Method := "PUT", Path := "/v3/configs/config/secrets", Key := "fake-key",
    Payload := .ptr exampleSecretUpdateOptions.toStruct }

/-- A `POST` request without payload that brings its own value for each of the four
headers that `prepareRequest` sets. -/
def exampleOverridingRequest : Request :=
  { Method := "POST", Path := "/v3/workplace", Key := "fake-key",
    Header := [("Accept", ["text/plain"]), ("User-Agent", ["my-agent"]),
               ("Content-Type", ["text/plain"]), ("Authorization", ["Bearer token"])] }

/-- A `204 No Content` with a request id and a content length of zero. -/
def exampleNoContent : HTTPResponse :=
  { Status := "204 No Content", StatusCode := 204,
    Header := some [("X-Request-Id", ["req-1"])],
    ContentLength := 0, Body := "" }

/-- A `200 OK` whose JSON body carries a message and a status code of the wrong type. -/
def exampleUndecodable : HTTPResponse :=
  { Status := "200 OK", StatusCode := 200,
    Header := some [("Content-Type", ["application/json"])],
    ContentLength := 49,
    Body := "\x7b\"messages\":[\"bad config\"],\"status_code\":\"oops\"\x7d\n" }

/-- A `200 OK` whose body is plain text that happens to be a JSON object. -/
def examplePlainText : HTTPResponse :=
  { Status := "200 OK", StatusCode := 200,
    Header := some [("Content-Type", ["text/plain"]), ("X-Request-Id", ["req-2"])],
    ContentLength := 53,
    Body := "\x7b\"success\":true,\"page\":2,\"secrets\":\x7b\"name\":\"value\"\x7d\x7d\n" }

/-- A `200 OK` with a request id and the three rate-limit headers whose JSON body carries a
header object and a rate limit with one member. -/
def exampleMergingResponse : HTTPResponse :=
  { Status := "200 OK", StatusCode := 200,
    Header := some ([("Content-Type", ["application/json"]), ("X-Request-Id", ["req-1"])] ++
      rateLimitHeader "100" "50" "1234567890"),
    ContentLength := 53,
    Body := "\x7b\"header\":\x7b\"X-Extra\":[\"1\"]\x7d,\"ratelimit\":\x7b\"limit\":5\x7d\x7d\n" }

/-- A `200 OK` whose JSON body says `"status":"OK"`, as the server of `Test_Call` answers. -/
def exampleStatusOK : HTTPResponse :=
  { Status := "200 OK", StatusCode := 200,
    Header := some [("Content-Type", ["application/json"]), ("X-Request-Id", ["req-1"])],
    ContentLength := 31,
    Body := "\x7b\"status\":\"OK\",\"success\":true\x7d\n" }

/-- A backend with the empty base URL, as `GetBackendWithConfig` builds it from a
configuration whose URL points to the empty string. -/
def exampleEmptyURLBackend : backendImplementation :=
  (GetBackendWithConfig exampleBackend.HTTPClient.Do { URL := some "" }).2

/-! # Properties -/

/-! ## Helper lemmas -/

theorem stringsJoin_foldl_eq_go (sep : String) (es : List String) (e : String) :
    es.foldl (fun acc x => acc ++ sep ++ x) e = String.intercalate.go e sep es := by
  induction es generalizing e with
  | nil => rfl
  | cons a as ih => simp [String.intercalate.go, ih]

theorem stringsJoin_eq_intercalate (es : List String) (sep : String) :
    stringsJoin es sep = String.intercalate sep es := by
  cases es with
  | nil => rfl
  | cons e es => simp [stringsJoin, String.intercalate, stringsJoin_foldl_eq_go]

theorem error_eq_intercalate (r : APIResponse) :
    r.Error = (if r.Messages = [] then none else some (String.intercalate ": " r.Messages)) := by
  unfold APIResponse.Error
  cases h : r.Messages with
  | nil => simp
  | cons m ms => simp [stringsJoin_eq_intercalate]

theorem error_isSome_iff (r : APIResponse) : (r.Error).isSome ↔ r.Messages ≠ [] := by
  unfold APIResponse.Error
  cases h : r.Messages with
  | nil => simp
  | cons m ms => simp

theorem isPayloadValid_enabled (g : Globals) (s : Struct) (hg : g.EnableValidation = true) :
    isPayloadValid g (.ptr s) = validateStruct (.ptr s) := by
  simp [isPayloadValid, hg]

theorem call_of_invalid (g : Globals) (urlParses : String → Bool) (b : backendImplementation) (req : Request)
    (e : String) (h : isPayloadValid g req.Payload = some e) :
    call g urlParses b req =
      { req := req, sent := [],
        result := .error (errorsWrap (errorsWrap e "validate request payload") "prepare request") } := by
  simp [call, prepareRequest, h]

theorem validateStruct_of_violation (s : Struct) (hv : s.fields.flatMap fieldViolations ≠ []) :
    ∃ e, validateStruct (.ptr s) = some e := by
  cases h : s.fields.flatMap fieldViolations with
  | nil => exact absurd h hv
  | cons v vs =>
    exact ⟨"validation failed on: " ++ stringsJoin (v :: vs) ", ", by simp only [validateStruct, h]⟩

/-! ## Round trip of JSON strings -/

theorem scanString_quote (tail acc : List Char) :
    scanString .plain ('"' :: tail) acc = some (⟨acc.reverse⟩, tail) := by
  rw [scanString]
  simp

theorem scanString_plain (c : Char) (tail acc : List Char)
    (h1 : c ≠ '"') (h2 : c ≠ '\\') (h3 : ¬ c.toNat < 32) :
    scanString .plain (c :: tail) acc = scanString .plain tail (c :: acc) := by
  rw [scanString]
  simp [h1, h2, h3]

theorem scanString_simple (e ch : Char) (tail acc : List Char)
    (he : e ≠ 'u') (h : unescapeSimple e = some ch) :
    scanString .plain ('\\' :: e :: tail) acc = scanString .plain tail (ch :: acc) := by
  rw [scanString]
  simp only [show ('\\' == '"') = false by decide, beq_self_eq_true, Bool.false_eq_true, if_false,
    if_true]
  rw [scanString]
  simp [he, h]

theorem unescapeUnicode_small (n : Nat) (m : Option Nat) (h : n < 0xD800) :
    unescapeUnicode n m = (Char.ofNat n, false) := by
  unfold unescapeUnicode
  have h1 : ¬ (0xD800 ≤ n ∧ n < 0xDC00) := by omega
  have h2 : ¬ (0xDC00 ≤ n ∧ n < 0xE000) := by omega
  simp only [h1, h2, if_false]

theorem scanString_unicode (a b c d : Char) (x y z w : Nat) (tail acc : List Char)
    (ha : hexVal a = some x) (hb : hexVal b = some y) (hc : hexVal c = some z)
    (hd : hexVal d = some w) (hn : ((x * 16 + y) * 16 + z) * 16 + w < 0xD800) :
    scanString .plain ('\\' :: 'u' :: a :: b :: c :: d :: tail) acc =
      scanString .plain tail (Char.ofNat (((x * 16 + y) * 16 + z) * 16 + w) :: acc) := by
  rw [scanString]
  simp only [show ('\\' == '"') = false by decide, beq_self_eq_true, Bool.false_eq_true, if_false,
    if_true]
  rw [scanString]
  simp only [beq_self_eq_true, if_true]
  rw [scanString]
  simp only [ha, show ¬ (4 ≤ 1) by decide, if_false, Nat.zero_mul, Nat.zero_add]
  rw [scanString]
  simp only [hb, show ¬ (4 - 1 ≤ 1) by decide, if_false]
  rw [scanString]
  simp only [hc, show ¬ (4 - 1 - 1 ≤ 1) by decide, if_false]
  rw [scanString]
  simp only [hd, show (4 - 1 - 1 - 1 ≤ 1) by decide, if_true, unescapeUnicode_small _ _ hn,
    Bool.false_eq_true, if_false]

theorem hexVal_hexDigit : ∀ n, n < 16 → hexVal (hexDigit n) = some n := by
  decide

theorem char_eq_of_toNat (c : Char) (n : Nat) (h : c.toNat = n) : c = Char.ofNat n := by
  rw [← h, Char.ofNat_toNat]

theorem escapeChar_plain (c : Char) (h1 : c ≠ '"') (h2 : c ≠ '\\') (h3 : ¬ c.toNat < 32)
    (h4 : c ≠ '<') (h5 : c ≠ '>') (h6 : c ≠ '&') (h7 : c.toNat ≠ 0x2028)
    (h8 : c.toNat ≠ 0x2029) : escapeChar c = [c] := by
  have e8 : c.toNat ≠ 8 := by omega
  have e12 : c.toNat ≠ 12 := by omega
  have e10 : c.toNat ≠ 10 := by omega
  have e13 : c.toNat ≠ 13 := by omega
  have e9 : c.toNat ≠ 9 := by omega
  simp [escapeChar, h1, h2, h3, h4, h5, h6, h7, h8, e8, e12, e10, e13, e9]

theorem escapeChar_unicode (c : Char) (h1 : c.toNat ≠ 8) (h2 : c.toNat ≠ 12) (h3 : c.toNat ≠ 10)
    (h4 : c.toNat ≠ 13) (h5 : c.toNat ≠ 9)
    (h : c.toNat < 32 ∨ c = '<' ∨ c = '>' ∨ c = '&') :
    escapeChar c = ['\\', 'u', '0', '0', hexDigit (c.toNat / 16), hexDigit (c.toNat % 16)] := by
  have hq : c ≠ '"' := by
    rcases h with h | h | h | h
    · intro e; rw [e] at h; revert h; decide
    · rw [h]; decide
    · rw [h]; decide
    · rw [h]; decide
  have hb : c ≠ '\\' := by
    rcases h with h | h | h | h
    · intro e; rw [e] at h; revert h; decide
    · rw [h]; decide
    · rw [h]; decide
    · rw [h]; decide
  have hcond : (decide (c.toNat < 32) || c == '<' || c == '>' || c == '&') = true := by
    rcases h with h | h | h | h <;> simp [h]
  simp [escapeChar, hq, hb, h1, h2, h3, h4, h5, hcond]

/-- Reading back one escaped character. -/
theorem scanString_escapeChar (c : Char) (tail acc : List Char) :
    scanString .plain (escapeChar c ++ tail) acc = scanString .plain tail (c :: acc) := by
  by_cases h1 : c = '"'
  · rw [h1, show escapeChar '"' = ['\\', '"'] by decide]
    exact scanString_simple '"' '"' tail acc (by decide) (by decide)
  by_cases h2 : c = '\\'
  · rw [h2, show escapeChar '\\' = ['\\', '\\'] by decide]
    exact scanString_simple '\\' '\\' tail acc (by decide) (by decide)
  by_cases h3 : c.toNat = 8
  · rw [char_eq_of_toNat c 8 h3, show escapeChar (Char.ofNat 8) = ['\\', 'b'] by decide]
    exact scanString_simple 'b' _ tail acc (by decide) (by decide)
  by_cases h4 : c.toNat = 12
  · rw [char_eq_of_toNat c 12 h4, show escapeChar (Char.ofNat 12) = ['\\', 'f'] by decide]
    exact scanString_simple 'f' _ tail acc (by decide) (by decide)
  by_cases h5 : c.toNat = 10
  · rw [char_eq_of_toNat c 10 h5, show escapeChar (Char.ofNat 10) = ['\\', 'n'] by decide]
    exact scanString_simple 'n' _ tail acc (by decide) (by decide)
  by_cases h6 : c.toNat = 13
  · rw [char_eq_of_toNat c 13 h6, show escapeChar (Char.ofNat 13) = ['\\', 'r'] by decide]
    exact scanString_simple 'r' _ tail acc (by decide) (by decide)
  by_cases h7 : c.toNat = 9
  · rw [char_eq_of_toNat c 9 h7, show escapeChar (Char.ofNat 9) = ['\\', 't'] by decide]
    exact scanString_simple 't' _ tail acc (by decide) (by decide)
  by_cases h8 : c.toNat < 32 ∨ c = '<' ∨ c = '>' ∨ c = '&'
  · have hlt : c.toNat < 64 := by
      rcases h8 with h | h | h | h
      · omega
      · rw [h]; decide
      · rw [h]; decide
      · rw [h]; decide
    rw [escapeChar_unicode c h3 h4 h5 h6 h7 h8]
    have h := scanString_unicode '0' '0' (hexDigit (c.toNat / 16)) (hexDigit (c.toNat % 16))
      0 0 (c.toNat / 16) (c.toNat % 16) tail acc (by decide) (by decide)
      (hexVal_hexDigit _ (by omega)) (hexVal_hexDigit _ (by omega)) (by omega)
    have e : ((0 * 16 + 0) * 16 + c.toNat / 16) * 16 + c.toNat % 16 = c.toNat := by omega
    rw [e, Char.ofNat_toNat] at h
    exact h
  by_cases h9 : c.toNat = 0x2028
  · rw [char_eq_of_toNat c _ h9,
      show escapeChar (Char.ofNat 0x2028) = ['\\', 'u', '2', '0', '2', '8'] by decide]
    exact scanString_unicode '2' '0' '2' '8' 2 0 2 8 tail acc (by decide) (by decide) (by decide)
      (by decide) (by decide)
  by_cases h10 : c.toNat = 0x2029
  · rw [char_eq_of_toNat c _ h10,
      show escapeChar (Char.ofNat 0x2029) = ['\\', 'u', '2', '0', '2', '9'] by decide]
    exact scanString_unicode '2' '0' '2' '9' 2 0 2 9 tail acc (by decide) (by decide) (by decide)
      (by decide) (by decide)
  · simp only [not_or] at h8
    rw [escapeChar_plain c h1 h2 h8.1 h8.2.1 h8.2.2.1 h8.2.2.2 h9 h10]
    exact scanString_plain c tail acc h1 h2 h8.1

/-- Reading back an escaped string up to its closing quote. -/
theorem scanString_escaped (s tail acc : List Char) :
    scanString .plain (s.flatMap escapeChar ++ '"' :: tail) acc =
      some (⟨acc.reverse ++ s⟩, tail) := by
  induction s generalizing acc with
  | nil => simpa using scanString_quote tail acc
  | cons c s ih =>
    rw [List.flatMap_cons, List.append_assoc, scanString_escapeChar, ih]
    simp

/-- `parseStringBody` reads back what `jsonStringChars` writes after the opening quote. -/
theorem parseStringBody_escaped (s tail : List Char) :
    parseStringBody (s.flatMap escapeChar ++ '"' :: tail) = some (⟨s⟩, tail) := by
  simpa [parseStringBody] using scanString_escaped s tail []

/-! ## Round trip of JSON values -/

theorem skipWs_cons (c : Char) (cs : List Char) (h : isJsonSpace c = false) :
    skipWs (c :: cs) = c :: cs := by
  simp [skipWs, h]

theorem jsonString_data (s : String) :
    (jsonString s).data = '"' :: (s.data.flatMap escapeChar ++ ['"']) := rfl

theorem stringsJoin_foldl_data (sep : String) (es : List String) (e : String) :
    (es.foldl (fun acc x => acc ++ sep ++ x) e).data =
      e.data ++ es.flatMap (fun x => sep.data ++ x.data) := by
  induction es generalizing e with
  | nil => simp
  | cons a as ih => simp [ih, String.data_append, List.append_assoc]

theorem stringsJoin_cons_data (e : String) (es : List String) (sep : String) :
    (stringsJoin (e :: es) sep).data = e.data ++ es.flatMap (fun x => sep.data ++ x.data) := by
  simp [stringsJoin, stringsJoin_foldl_data]

/-- A JSON string is read back as it was written. -/
theorem parseValue_string (F : Nat) (s : String) (tail : List Char) :
    parseValue (F + 1) ((jsonString s).data ++ tail) = some (Json.str s, tail) := by
  rw [parseValue, jsonString_data]
  simp only [List.cons_append, List.append_assoc, List.singleton_append, List.nil_append]
  rw [skipWs_cons _ _ (by decide)]
  simp only [beq_self_eq_true, if_true, parseStringBody_escaped, Option.map_some', List.nil_append]

theorem parseMembers_step_more (F : Nat) (key : String) (r2 rest : List Char) (v : Json)
    (acc : List (String × Json)) (h : parseValue F r2 = some (v, ',' :: rest)) :
    parseMembers (F + 1) ((jsonString key).data ++ ':' :: r2) acc =
      parseMembers F rest (acc ++ [(key, v)]) := by
  rw [parseMembers, jsonString_data]
  simp only [List.cons_append, List.append_assoc, List.singleton_append, List.nil_append]
  rw [skipWs_cons _ _ (by decide)]
  simp only [beq_self_eq_true, if_true, parseStringBody_escaped, List.nil_append]
  rw [skipWs_cons _ _ (by decide)]
  simp only [beq_self_eq_true, if_true, h]
  rw [skipWs_cons _ _ (by decide)]
  simp only [beq_self_eq_true, if_true]

theorem parseMembers_step_last (F : Nat) (key : String) (r2 rest : List Char) (v : Json)
    (acc : List (String × Json)) (h : parseValue F r2 = some (v, '\x7d' :: rest)) :
    parseMembers (F + 1) ((jsonString key).data ++ ':' :: r2) acc =
      some (acc ++ [(key, v)], rest) := by
  rw [parseMembers, jsonString_data]
  simp only [List.cons_append, List.append_assoc, List.singleton_append, List.nil_append]
  rw [skipWs_cons _ _ (by decide)]
  simp only [beq_self_eq_true, if_true, parseStringBody_escaped, List.nil_append]
  rw [skipWs_cons _ _ (by decide)]
  simp only [beq_self_eq_true, if_true, h]
  rw [skipWs_cons _ _ (by decide)]
  simp only [show ('\x7d' == ',') = false by decide, beq_self_eq_true, if_true,
    Bool.false_eq_true, if_false]

theorem parseElems_step_more (F : Nat) (cs rest : List Char) (v : Json) (acc : List Json)
    (h : parseValue F cs = some (v, ',' :: rest)) :
    parseElems (F + 1) cs acc = parseElems F rest (acc ++ [v]) := by
  rw [parseElems]
  simp only [h]
  rw [skipWs_cons _ _ (by decide)]
  simp only [beq_self_eq_true, if_true]

theorem parseElems_step_last (F : Nat) (cs rest : List Char) (v : Json) (acc : List Json)
    (h : parseValue F cs = some (v, ']' :: rest)) :
    parseElems (F + 1) cs acc = some (acc ++ [v], rest) := by
  rw [parseElems]
  simp only [h]
  rw [skipWs_cons _ _ (by decide)]
  simp only [show (']' == ',') = false by decide, beq_self_eq_true, if_true,
    Bool.false_eq_true, if_false]

theorem parseValue_empty_object (F : Nat) (tail : List Char) :
    parseValue (F + 1) ('\x7b' :: '\x7d' :: tail) = some (Json.obj [], tail) := by
  rw [parseValue]
  rw [skipWs_cons _ _ (by decide)]
  simp only [show ('\x7b' == '"') = false by decide, show ('\x7b' == '[') = false by decide,
    beq_self_eq_true, if_true, Bool.false_eq_true, if_false]
  rw [skipWs_cons _ _ (by decide)]
  simp only [beq_self_eq_true, if_true]

theorem parseValue_object (F : Nat) (r1 rest : List Char) (ms : List (String × Json))
    (h : parseMembers F ('"' :: r1) [] = some (ms, rest)) :
    parseValue (F + 1) ('\x7b' :: '"' :: r1) = some (Json.obj ms, rest) := by
  rw [parseValue]
  rw [skipWs_cons _ _ (by decide)]
  simp only [show ('\x7b' == '"') = false by decide, show ('\x7b' == '[') = false by decide,
    beq_self_eq_true, if_true, Bool.false_eq_true, if_false]
  rw [skipWs_cons _ _ (by decide)]
  simp only [show ('"' == '\x7d') = false by decide, Bool.false_eq_true, if_false, h,
    Option.map_some']

theorem parseValue_empty_array (F : Nat) (tail : List Char) :
    parseValue (F + 1) ('[' :: ']' :: tail) = some (Json.arr [], tail) := by
  rw [parseValue]
  rw [skipWs_cons _ _ (by decide)]
  simp only [show ('[' == '"') = false by decide, beq_self_eq_true, if_true,
    Bool.false_eq_true, if_false]
  rw [skipWs_cons _ _ (by decide)]
  simp only [beq_self_eq_true, if_true]

theorem parseValue_array (F : Nat) (c1 : Char) (r1 rest : List Char) (xs : List Json)
    (hc : isJsonSpace c1 = false) (hc2 : c1 ≠ ']')
    (h : parseElems F (c1 :: r1) [] = some (xs, rest)) :
    parseValue (F + 1) ('[' :: c1 :: r1) = some (Json.arr xs, rest) := by
  rw [parseValue]
  rw [skipWs_cons _ _ (by decide)]
  simp only [show ('[' == '"') = false by decide, beq_self_eq_true, if_true,
    Bool.false_eq_true, if_false]
  rw [skipWs_cons _ _ hc]
  have e : (c1 == ']') = false := by simpa using hc2
  simp only [e, Bool.false_eq_true, if_false, h, Option.map_some']

theorem parseValue_null (F : Nat) (tail : List Char) :
    parseValue (F + 1) ('n' :: 'u' :: 'l' :: 'l' :: tail) = some (Json.null, tail) := by
  rw [parseValue]
  rw [skipWs_cons _ _ (by decide)]
  simp [hasPrefixChars]

/-! ## Round trip of the token list -/

theorem parseValue_object_key (F : Nat) (key : String) (r rest : List Char)
    (ms : List (String × Json))
    (h : parseMembers F ((jsonString key).data ++ r) [] = some (ms, rest)) :
    parseValue (F + 1) ('\x7b' :: ((jsonString key).data ++ r)) = some (Json.obj ms, rest) := by
  rw [jsonString_data] at h ⊢
  exact parseValue_object F _ rest ms h

theorem jsonAuthToken_none_data : (jsonAuthToken ⟨none⟩).data = ['\x7b', '\x7d'] := by decide

theorem jsonAuthToken_some_data (tok : String) :
    (jsonAuthToken ⟨some tok⟩).data =
      '\x7b' :: ((jsonString "token").data ++ ':' :: ((jsonString tok).data ++ ['\x7d'])) := by
  simp [jsonAuthToken, jsonObject, stringsJoin, String.data_append]

/-- An `AuthToken` is read back as it was written. -/
theorem parseValue_authToken (F : Nat) (t : AuthToken) (tail : List Char) :
    parseValue (F + 3) ((jsonAuthToken t).data ++ tail) = some (t.toJson, tail) := by
  obtain ⟨tok⟩ := t
  cases tok with
  | none =>
    rw [jsonAuthToken_none_data]
    exact parseValue_empty_object (F + 2) tail
  | some tok =>
    rw [jsonAuthToken_some_data]
    simp only [List.cons_append, List.append_assoc, List.singleton_append, List.nil_append]
    apply parseValue_object_key (F + 2) "token"
    apply parseMembers_step_last (F + 1) "token"
    exact parseValue_string F tok _

theorem parseElems_tokens (ts : List AuthToken) (t : AuthToken) (F : Nat)
    (hF : ts.length + 4 ≤ F) (acc : List Json) (tail : List Char) :
    parseElems F ((jsonAuthToken t).data ++
        (ts.flatMap (fun x => ',' :: (jsonAuthToken x).data) ++ ']' :: tail)) acc =
      some (acc ++ (t :: ts).map AuthToken.toJson, tail) := by
  induction ts generalizing t F acc with
  | nil =>
    obtain ⟨F', rfl⟩ : ∃ F', F = F' + 3 + 1 := ⟨F - 4, by simp at hF; omega⟩
    simp only [List.flatMap_nil, List.nil_append]
    rw [parseElems_step_last (F' + 3) _ tail t.toJson acc (parseValue_authToken F' t _)]
    simp
  | cons t2 ts ih =>
    obtain ⟨F', rfl⟩ : ∃ F', F = F' + 3 + 1 := ⟨F - 4, by simp at hF; omega⟩
    simp only [List.flatMap_cons, List.cons_append, List.append_assoc]
    rw [parseElems_step_more (F' + 3) _ _ t.toJson acc (parseValue_authToken F' t _)]
    rw [ih t2 (F' + 3) (by simp at hF; omega)]
    simp

theorem jsonTokens_cons_data (t : AuthToken) (ts : List AuthToken) :
    (jsonTokens (some (t :: ts))).data =
      '[' :: ((jsonAuthToken t).data ++
        (ts.flatMap (fun x => ',' :: (jsonAuthToken x).data) ++ [']'])) := by
  simp [jsonTokens, jsonArray, String.data_append, stringsJoin_cons_data, List.flatMap_map]

theorem jsonAuthToken_head (t : AuthToken) :
    ∃ r, (jsonAuthToken t).data = '\x7b' :: r := by
  obtain ⟨tok⟩ := t
  cases tok with
  | none => exact ⟨_, jsonAuthToken_none_data⟩
  | some tok => exact ⟨_, jsonAuthToken_some_data tok⟩

theorem length_le_flatMap_cons {α : Type} (xs : List α) (f : α → List Char) (c : Char) :
    xs.length ≤ (xs.flatMap (fun x => c :: f x)).length := by
  induction xs with
  | nil => simp
  | cons x xs ih => simp only [List.flatMap_cons, List.length_append, List.length_cons]; omega

/-- The array that `json.Marshal` writes for a token list is read back as a whole. -/
theorem parseValue_tokens (ts : List AuthToken) (F : Nat) (hF : ts.length + 4 ≤ F)
    (tail : List Char) :
    parseValue F ((jsonTokens (some ts)).data ++ tail) =
      some (Json.arr (ts.map AuthToken.toJson), tail) := by
  obtain ⟨F', rfl⟩ : ∃ F', F = F' + 1 := ⟨F - 1, by omega⟩
  cases ts with
  | nil =>
    rw [show (jsonTokens (some [])).data = ['[', ']'] by decide]
    exact parseValue_empty_array F' tail
  | cons t ts =>
    rw [jsonTokens_cons_data]
    obtain ⟨r, hr⟩ := jsonAuthToken_head t
    have h := parseElems_tokens ts t F' (by simp at hF; omega) [] tail
    simp only [List.cons_append, List.append_assoc, List.singleton_append, List.nil_append]
    rw [hr] at h ⊢
    simp only [List.cons_append] at h ⊢
    exact parseValue_array F' '\x7b' _ tail _ (by decide) (by decide) h

theorem jsonTokens_length (ts : List AuthToken) :
    ts.length + 1 ≤ (jsonTokens (some ts)).length := by
  cases ts with
  | nil => decide
  | cons t ts =>
    have h := length_le_flatMap_cons ts (fun x => (jsonAuthToken x).data) ','
    simp only [String.length, jsonTokens_cons_data, List.length_cons, List.length_append,
      List.length_nil]
    omega

theorem parseDocument_tokens (ts : List AuthToken) :
    parseDocument (jsonTokens (some ts)) = some (Json.arr (ts.map AuthToken.toJson)) := by
  have hlen := jsonTokens_length ts
  have h := parseValue_tokens ts (2 * (jsonTokens (some ts)).length + 2) (by omega) []
  simp only [List.append_nil] at h
  simp [parseDocument, h, skipWs]

theorem decodeAuthToken_toJson (t : AuthToken) :
    decodeAuthToken ⟨none⟩ t.toJson = (t, .ok) := by
  obtain ⟨tok⟩ := t
  cases tok with
  | none => rfl
  | some tok =>
    have hf : findField ["token"] "token" = some "token" := by decide
    simp [AuthToken.toJson, decodeAuthToken, decodeMembers, decodeAuthTokenMember, hf,
      decodeStringPtr, decodeString, DecErr.andThen]

theorem decodeAuthTokenElems_toJson (ts : List AuthToken) :
    decodeAuthTokenElems [] (ts.map AuthToken.toJson) = (ts, .ok) := by
  induction ts with
  | nil => rfl
  | cons t ts ih =>
    simp only [List.map_cons, decodeAuthTokenElems, List.headD_nil, List.tail_nil,
      decodeAuthToken_toJson, ih, DecErr.andThen]

/-- Decoding what `json.Marshal` writes for a token list into a nil slice gives the list
back. -/
theorem unmarshalAuthTokens_jsonTokens (ts : List AuthToken) :
    unmarshalAuthTokens (jsonTokens (some ts)) none = (some ts, none) := by
  simp [unmarshalAuthTokens, parseDocument_tokens, decodeAuthTokens, decodeAuthTokenElems_toJson,
    DecErr.toError]

/-! ## Round trip of `SecretUpdateOptions` -/

/-- The JSON text of a map entry, `"key":"value"`. -/
theorem strMap_member_data (kv : String × String) :
    (jsonString kv.1 ++ ":" ++ jsonString kv.2).data =
      (jsonString kv.1).data ++ ':' :: (jsonString kv.2).data := by
  simp [String.data_append]

theorem parseMembers_strMap (kvs : List (String × String)) (kv : String × String) (F : Nat)
    (hF : kvs.length + 2 ≤ F) (acc : List (String × Json)) (tail : List Char) :
    parseMembers F ((jsonString kv.1).data ++ ':' :: ((jsonString kv.2).data ++
        (kvs.flatMap (fun x => ',' :: ((jsonString x.1).data ++ ':' :: (jsonString x.2).data)) ++
          '\x7d' :: tail))) acc =
      some (acc ++ (kv :: kvs).map (fun x => (x.1, Json.str x.2)), tail) := by
  induction kvs generalizing kv F acc with
  | nil =>
    obtain ⟨F', rfl⟩ : ∃ F', F = F' + 1 + 1 := ⟨F - 2, by simp at hF; omega⟩
    simp only [List.flatMap_nil, List.nil_append]
    rw [parseMembers_step_last (F' + 1) kv.1 _ tail (Json.str kv.2) acc (parseValue_string F' kv.2 _)]
    simp
  | cons kv2 kvs ih =>
    obtain ⟨F', rfl⟩ : ∃ F', F = F' + 1 + 1 := ⟨F - 2, by simp at hF; omega⟩
    simp only [List.flatMap_cons, List.cons_append, List.append_assoc]
    rw [parseMembers_step_more (F' + 1) kv.1 _ _ (Json.str kv.2) acc (parseValue_string F' kv.2 _)]
    rw [ih kv2 (F' + 1) (by simp at hF; omega)]
    simp

/-- The JSON value that `json.Marshal` writes for a `map[string]string`. -/
theorem jsonStrMap_some_cons_data (kv : String × String) (kvs : List (String × String)) :
    (jsonStrMap (some (kv :: kvs))).data =
      '\x7b' :: ((jsonString kv.1).data ++ ':' :: ((jsonString kv.2).data ++
        (kvs.flatMap (fun x => ',' :: ((jsonString x.1).data ++ ':' :: (jsonString x.2).data)) ++
          ['\x7d']))) := by
  simp [jsonStrMap, jsonObject, String.data_append, stringsJoin_cons_data, List.flatMap_map]

theorem strMapAssign_append (acc : List (String × String)) (k v : String)
    (h : ∀ kv ∈ acc, kv.1 < k) : strMapAssign acc k v = acc ++ [(k, v)] := by
  induction acc with
  | nil => rfl
  | cons kv acc ih =>
    obtain ⟨k0, x⟩ := kv
    have h0 : k0 < k := h (k0, x) (List.mem_cons_self _ _)
    have h1 : ¬ k < k0 := lt_asymm h0
    have h2 : (k == k0) = false := by simpa using (ne_of_lt h0).symm
    simp only [strMapAssign, h1, h2, if_false, Bool.false_eq_true, List.cons_append]
    rw [ih (fun kv hkv => h kv (List.mem_cons_of_mem _ hkv))]

theorem decodeStrMapMembers_ascending (m acc : List (String × String))
    (h : keysAscending (acc ++ m)) :
    decodeStrMapMembers acc (m.map (fun kv => (kv.1, Json.str kv.2))) = (acc ++ m, .ok) := by
  induction m generalizing acc with
  | nil => simp [decodeStrMapMembers]
  | cons kv m ih =>
    obtain ⟨k, v⟩ := kv
    have hlt : ∀ x ∈ acc, x.1 < k := by
      intro x hx
      unfold keysAscending at h
      rw [List.map_append, List.pairwise_append] at h
      exact h.2.2 x.1 (List.mem_map_of_mem _ hx) k (by simp)
    have h2 : keysAscending ((acc ++ [(k, v)]) ++ m) := by
      simpa [List.append_assoc] using h
    simp only [List.map_cons, decodeStrMapMembers, decodeString, strMapAssign_append acc k v hlt,
      ih _ h2, DecErr.andThen, List.append_assoc, List.singleton_append]

theorem decodeStrMap_toJson (m : List (String × String)) (h : keysAscending m) :
    decodeStrMap none (Json.obj (m.map (fun kv => (kv.1, Json.str kv.2)))) = (some m, .ok) := by
  have := decodeStrMapMembers_ascending m [] (by simpa using h)
  simp [decodeStrMap, this]

theorem parseValue_strMap (m : Option (List (String × String))) (F : Nat)
    (hF : (m.getD []).length + 3 ≤ F) (tail : List Char) :
    parseValue F ((jsonStrMap m).data ++ tail) = some (strMapJson m, tail) := by
  obtain ⟨F', rfl⟩ : ∃ F', F = F' + 1 := ⟨F - 1, by omega⟩
  cases m with
  | none =>
    rw [show (jsonStrMap none).data = ['n', 'u', 'l', 'l'] by decide]
    exact parseValue_null F' tail
  | some m =>
    cases m with
    | nil =>
      rw [show (jsonStrMap (some [])).data = ['\x7b', '\x7d'] by decide]
      exact parseValue_empty_object F' tail
    | cons kv kvs =>
      rw [jsonStrMap_some_cons_data]
      simp only [List.cons_append, List.append_assoc, List.singleton_append, List.nil_append]
      apply parseValue_object_key F' kv.1
      have h := parseMembers_strMap kvs kv F' (by simp at hF; omega) [] tail
      simpa using h

theorem decodeStrMap_strMapJson (m : Option (List (String × String)))
    (h : ∀ x, m = some x → keysAscending x) :
    decodeStrMap none (strMapJson m) = (m, .ok) := by
  cases m with
  | none => rfl
  | some x => exact decodeStrMap_toJson x (h x rfl)

theorem secretUpdate_body_data (o : SecretUpdateOptions) :
    (marshalStruct o.toStruct).data =
      '\x7b' :: ((jsonString "project").data ++ ':' :: ((jsonString o.Project).data ++
        ',' :: ((jsonString "config").data ++ ':' :: ((jsonString o.Config).data ++
          ',' :: ((jsonString "secrets").data ++ ':' :: ((jsonStrMap o.NewSecrets).data ++
            ['\x7d'])))))) := by
  have n1 : jsonName "Project" "project" = "project" := by decide
  have n2 : jsonName "Config" "config" = "config" := by decide
  have n3 : jsonName "NewSecrets" "secrets" = "secrets" := by decide
  have o1 : tagHas "project" "omitempty" = false := by decide
  have o2 : tagHas "config" "omitempty" = false := by decide
  have o3 : tagHas "secrets" "omitempty" = false := by decide
  simp [marshalStruct, SecretUpdateOptions.toStruct, marshalFields, jsonFieldMembers,
    jsonLeafMembers, n1, n2, n3, o1, o2, o3, jsonObject, stringsJoin, String.data_append,
    jsonValue, jsonScalar]

theorem parseValue_secretUpdate (o : SecretUpdateOptions) (F : Nat)
    (hF : (o.NewSecrets.getD []).length + 7 ≤ F) (tail : List Char) :
    parseValue F ((marshalStruct o.toStruct).data ++ tail) = some (o.toJson, tail) := by
  obtain ⟨F', rfl⟩ : ∃ F', F = F' + 1 + 1 + 1 + 1 + 1 := ⟨F - 5, by omega⟩
  rw [secretUpdate_body_data]
  simp only [List.cons_append, List.append_assoc, List.singleton_append, List.nil_append]
  apply parseValue_object_key _ "project"
  rw [parseMembers_step_more _ "project" _ _ (Json.str o.Project) [] (parseValue_string _ _ _)]
  rw [parseMembers_step_more _ "config" _ _ (Json.str o.Config) _ (parseValue_string _ _ _)]
  rw [parseMembers_step_last _ "secrets" _ _ (strMapJson o.NewSecrets) _
    (parseValue_strMap o.NewSecrets (F' + 1) (by omega) _)]
  rfl

theorem jsonStrMap_length (m : Option (List (String × String))) :
    (m.getD []).length ≤ (jsonStrMap m).data.length := by
  cases m with
  | none => decide
  | some m =>
    cases m with
    | nil => decide
    | cons kv kvs =>
      have h := length_le_flatMap_cons kvs
        (fun x => (jsonString x.1).data ++ ':' :: (jsonString x.2).data) ','
      rw [jsonStrMap_some_cons_data]
      simp only [Option.getD_some, List.length_cons, List.length_append, List.length_nil]
      omega

theorem secretUpdate_body_length (o : SecretUpdateOptions) :
    (o.NewSecrets.getD []).length + 8 ≤ (marshalStruct o.toStruct ++ "\n").length := by
  have h := jsonStrMap_length o.NewSecrets
  have e : (marshalStruct o.toStruct ++ "\n").length =
      (marshalStruct o.toStruct).data.length + 1 := by
    rw [String.length_append]; rfl
  rw [e, secretUpdate_body_data]
  simp only [List.length_cons, List.length_append, List.length_nil]
  omega

theorem readValue_secretUpdate (o : SecretUpdateOptions) :
    readValue (marshalStruct o.toStruct ++ "\n") = some o.toJson := by
  have hlen := secretUpdate_body_length o
  have h := parseValue_secretUpdate o (2 * (marshalStruct o.toStruct ++ "\n").length + 2)
    (by omega) "\n".data
  simp only [readValue, String.data_append, h, SecretUpdateOptions.toJson]

theorem decodeMembers_secretUpdate (o : SecretUpdateOptions) (h : o.wellFormed) :
    decodeMembers decodeSecretUpdateOptionsMember {}
      [("project", .str o.Project), ("config", .str o.Config),
       ("secrets", strMapJson o.NewSecrets)] = (o, .ok) := by
  have f1 : findField ["project", "config", "secrets"] "project" = some "project" := by decide
  have f2 : findField ["project", "config", "secrets"] "config" = some "config" := by decide
  have f3 : findField ["project", "config", "secrets"] "secrets" = some "secrets" := by decide
  simp [decodeMembers, decodeSecretUpdateOptionsMember, f1, f2, f3, decodeString,
    decodeStrMap_strMapJson o.NewSecrets h, DecErr.andThen]

/-- Decoding the body of a `SecretUpdateOptions` gives the record back. -/
theorem decode_secretUpdate_body (o : SecretUpdateOptions) (h : o.wellFormed) :
    decodeSecretUpdateOptions (marshalStruct o.toStruct ++ "\n") {} = (o, none) := by
  simp only [decodeSecretUpdateOptions, decodeRecord, readValue_secretUpdate,
    SecretUpdateOptions.toJson, decodeMembers_secretUpdate o h, Prod.map, id, DecErr.toError]

/-! ## The JSON text of a Go string that holds a text -/

theorem char_scalar (c : Char) :
    c.toNat < 0xD800 ∨ (0xDFFF < c.toNat ∧ c.toNat < 0x110000) := by
  have h := c.valid
  simp only [UInt32.isValidChar, Nat.isValidChar] at h
  exact h

theorem decodeRune_two (s0 s1 : Nat) (rest : List Nat) (h0 : 0xC2 ≤ s0) (h0' : s0 < 0xE0)
    (h1 : 0x80 ≤ s1) (h1' : s1 ≤ 0xBF) :
    decodeRune (s0 :: s1 :: rest) = (s0 % 32 * 64 + s1 % 64, 2) := by
  have a1 : ¬ s0 < 0x80 := by omega
  have a2 : (decide (s0 < 0xC2) || decide (0xF4 < s0)) = false := by
    simp only [Bool.or_eq_false_iff, decide_eq_false_iff_not]; omega
  have a3 : (s0 == 0xE0) = false := by simp only [beq_eq_false_iff_ne]; omega
  have a4 : (s0 == 0xF0) = false := by simp only [beq_eq_false_iff_ne]; omega
  have a5 : (s0 == 0xED) = false := by simp only [beq_eq_false_iff_ne]; omega
  have a6 : (s0 == 0xF4) = false := by simp only [beq_eq_false_iff_ne]; omega
  have a7 : (decide (s1 < 0x80) || decide (0xBF < s1)) = false := by
    simp only [Bool.or_eq_false_iff, decide_eq_false_iff_not]; omega
  simp [decodeRune, a1, a2, a3, a4, a5, a6, a7, h0']

theorem decodeRune_three (s0 s1 s2 : Nat) (rest : List Nat) (h0 : 0xE0 ≤ s0) (h0' : s0 < 0xF0)
    (h1 : (if s0 = 0xE0 then 0xA0 else 0x80) ≤ s1)
    (h1' : s1 ≤ (if s0 = 0xED then 0x9F else 0xBF))
    (h2 : 0x80 ≤ s2) (h2' : s2 ≤ 0xBF) :
    decodeRune (s0 :: s1 :: s2 :: rest) = (s0 % 16 * 4096 + s1 % 64 * 64 + s2 % 64, 3) := by
  have a1 : ¬ s0 < 0x80 := by omega
  have a2 : (decide (s0 < 0xC2) || decide (0xF4 < s0)) = false := by
    simp only [Bool.or_eq_false_iff, decide_eq_false_iff_not]; omega
  have a3 : ¬ s0 < 0xE0 := by omega
  have a4 : (s0 == 0xF0) = false := by simp only [beq_eq_false_iff_ne]; omega
  have a6 : (s0 == 0xF4) = false := by simp only [beq_eq_false_iff_ne]; omega
  have a7 : (decide (s2 < 0x80) || decide (0xBF < s2)) = false := by
    simp only [Bool.or_eq_false_iff, decide_eq_false_iff_not]; omega
  have a8 : (decide (s1 < if (s0 == 0xE0) = true then 0xA0 else 0x80) ||
      decide ((if (s0 == 0xED) = true then 0x9F else 0xBF) < s1)) = false := by
    simp only [Bool.or_eq_false_iff, decide_eq_false_iff_not, beq_iff_eq]
    exact ⟨by omega, by omega⟩
  simp [decodeRune, a1, a2, a3, a4, a6, a7, h0']
  rw [if_neg (by omega), if_neg (by push_neg; exact ⟨h1, h1'⟩)]

theorem decodeRune_four (s0 s1 s2 s3 : Nat) (rest : List Nat) (h0 : 0xF0 ≤ s0) (h0' : s0 ≤ 0xF4)
    (h1 : (if s0 = 0xF0 then 0x90 else 0x80) ≤ s1)
    (h1' : s1 ≤ (if s0 = 0xF4 then 0x8F else 0xBF))
    (h2 : 0x80 ≤ s2) (h2' : s2 ≤ 0xBF) (h3 : 0x80 ≤ s3) (h3' : s3 ≤ 0xBF) :
    decodeRune (s0 :: s1 :: s2 :: s3 :: rest) =
      (s0 % 8 * 262144 + s1 % 64 * 4096 + s2 % 64 * 64 + s3 % 64, 4) := by
  have a1 : ¬ s0 < 0x80 := by omega
  have a2 : (decide (s0 < 0xC2) || decide (0xF4 < s0)) = false := by
    simp only [Bool.or_eq_false_iff, decide_eq_false_iff_not]; omega
  have a3 : ¬ s0 < 0xE0 := by omega
  have a3' : ¬ s0 < 0xF0 := by omega
  have a4 : (s0 == 0xE0) = false := by simp only [beq_eq_false_iff_ne]; omega
  have a6 : (s0 == 0xED) = false := by simp only [beq_eq_false_iff_ne]; omega
  have a7 : (decide (s2 < 0x80) || decide (0xBF < s2)) = false := by
    simp only [Bool.or_eq_false_iff, decide_eq_false_iff_not]; omega
  have a8 : (decide (s3 < 0x80) || decide (0xBF < s3)) = false := by
    simp only [Bool.or_eq_false_iff, decide_eq_false_iff_not]; omega
  simp [decodeRune, a1, a2, a3, a3', a4, a6, a7, a8]
  rw [if_neg (by omega), if_neg (by push_neg; exact ⟨h1, h1'⟩)]

/-- `utf8.DecodeRuneInString` reads a character back from its UTF-8 bytes. -/
theorem decodeRune_utf8Bytes (c : Char) (rest : List Nat) (h : 0x80 ≤ c.toNat) :
    decodeRune ((utf8Bytes c ++ rest).take 4) = (c.toNat, (utf8Bytes c).length) := by
  have hv := char_scalar c
  unfold utf8Bytes
  simp only []
  generalize c.toNat = n at *
  have h1 : ¬ n < 0x80 := by omega
  rw [if_neg h1]
  by_cases h2 : n < 0x800
  · rw [if_pos h2]
    simp only [List.cons_append, List.nil_append, List.take_succ_cons]
    rw [decodeRune_two _ _ _ (by omega) (by omega) (by omega) (by omega)]
    simp only [List.length_cons, List.length_nil, Prod.mk.injEq, and_true]
    omega
  · rw [if_neg h2]
    by_cases h3 : n < 0x10000
    · rw [if_pos h3]
      simp only [List.cons_append, List.nil_append, List.take_succ_cons]
      rw [decodeRune_three _ _ _ _ (by omega) (by omega) (by split <;> omega)
        (by split <;> omega) (by omega) (by omega)]
      simp only [List.length_cons, List.length_nil, Prod.mk.injEq, and_true]
      omega
    · rw [if_neg h3]
      simp only [List.cons_append, List.nil_append, List.take_succ_cons]
      rw [decodeRune_four _ _ _ _ _ (by omega) (by omega) (by split <;> omega)
        (by split <;> omega) (by omega) (by omega) (by omega) (by omega)]
      simp only [List.length_cons, List.length_nil, Prod.mk.injEq, and_true]
      omega

theorem utf8Bytes_shape (c : Char) (h : 0x80 ≤ c.toNat) :
    2 ≤ (utf8Bytes c).length ∧ ∃ b bs, utf8Bytes c = b :: bs ∧ 0x80 ≤ b := by
  unfold utf8Bytes
  simp only []
  rw [if_neg (by omega)]
  split
  · exact ⟨by simp, _, _, rfl, by omega⟩
  · split
    · exact ⟨by simp, _, _, rfl, by omega⟩
    · exact ⟨by simp, _, _, rfl, by omega⟩

theorem escapeChar_of_not_ascii (c : Char) (h : 0x80 ≤ c.toNat) :
    escapeChar c =
      if c.toNat == 0x2028 || c.toNat == 0x2029 then
        ['\\', 'u', '2', '0', '2', hexDigit (c.toNat % 16)]
      else [c] := by
  have q : ∀ d : Char, d.toNat < 0x80 → (c == d) = false := by
    intro d hd
    simp only [beq_eq_false_iff_ne, ne_eq]
    intro hcd
    rw [hcd] at h
    omega
  have n : ∀ k : Nat, k < 0x80 → (c.toNat == k) = false := by
    intro k hk
    simp only [beq_eq_false_iff_ne, ne_eq]
    omega
  have l : decide (c.toNat < 32) = false := by
    simp only [decide_eq_false_iff_not]
    omega
  unfold escapeChar
  simp only [q '"' (by decide), q '\\' (by decide), q '<' (by decide), q '>' (by decide),
    q '&' (by decide), n 8 (by decide), n 12 (by decide), n 10 (by decide), n 13 (by decide),
    n 9 (by decide), l, Bool.or_false, Bool.false_eq_true, if_false]
  by_cases h1 : c.toNat = 0x2028
  · simp [h1]
    decide
  · by_cases h2 : c.toNat = 0x2029
    · simp [h2]
      decide
    · simp [h1, h2]

/-- On the bytes of a text the loop of `appendString` writes the escaped characters. -/
theorem appendStringLoop_utf8 (cs : List Char) (fuel : Nat)
    (hf : (cs.flatMap utf8Bytes).length ≤ fuel) :
    appendStringLoop fuel (cs.flatMap utf8Bytes) = cs.flatMap escapeChar := by
  induction cs generalizing fuel with
  | nil =>
    cases fuel <;> rfl
  | cons c cs ih =>
    simp only [List.flatMap_cons] at hf ⊢
    by_cases h : c.toNat < 0x80
    · have e : utf8Bytes c = [c.toNat] := by
        unfold utf8Bytes
        simp only []
        rw [if_pos h]
      rw [e] at hf ⊢
      simp only [List.length_append, List.length_cons, List.length_nil] at hf
      obtain ⟨f, rfl⟩ : ∃ f, fuel = f + 1 := ⟨fuel - 1, by omega⟩
      simp only [List.singleton_append, appendStringLoop, if_pos h]
      show escapeChar (Char.ofNat c.toNat) ++ appendStringLoop f (cs.flatMap utf8Bytes) = _
      rw [ih f (by omega), Char.ofNat_toNat]
    · have h' : 0x80 ≤ c.toNat := by omega
      obtain ⟨h2, b, bs, e, hb⟩ := utf8Bytes_shape c h'
      have hd := decodeRune_utf8Bytes c (cs.flatMap utf8Bytes) h'
      simp only [List.length_append] at hf
      obtain ⟨f, rfl⟩ : ∃ f, fuel = f + 1 := ⟨fuel - 1, by omega⟩
      have hlen : (cs.flatMap utf8Bytes).length ≤ f := by omega
      have hdrop : (utf8Bytes c ++ cs.flatMap utf8Bytes).drop (utf8Bytes c).length =
          cs.flatMap utf8Bytes := List.drop_left _ _
      rw [escapeChar_of_not_ascii c h']
      rw [e] at hd hdrop h2
      rw [e]
      simp only [List.cons_append] at hd hdrop ⊢
      simp only [appendStringLoop, if_neg (show ¬ b < 0x80 by omega), hd, hdrop]
      have hne : ((c.toNat == 0xFFFD) && ((b :: bs).length == 1)) = false := by
        have : ((b :: bs).length == 1) = false := by
          simp only [beq_eq_false_iff_ne]; omega
        rw [this, Bool.and_false]
      rw [hne]
      rw [ih f hlen, Char.ofNat_toNat]
      simp only [Bool.false_eq_true, if_false]
      split <;> rfl

/-- On the bytes of a text `appendString` writes what `jsonString` writes. -/
theorem appendString_goBytes (s : String) : appendString (goBytes s) = jsonString s := by
  unfold appendString jsonString jsonStringChars goBytes
  rw [appendStringLoop_utf8 _ _ (le_refl _)]

theorem appendStrMap_bytes (m : Option (List (String × String))) :
    appendStrMap (m.map (fun x => x.map (fun kv => (goBytes kv.1, goBytes kv.2)))) =
      jsonStrMap m := by
  cases m with
  | none => rfl
  | some x =>
    simp only [Option.map_some', appendStrMap, jsonStrMap, List.map_map]
    congr 1
    apply List.map_congr_left
    intro kv _
    simp only [Function.comp, appendString_goBytes]

/-- For a record whose strings are texts the body written from the bytes is the body that
`Request.getBody` returns. -/
theorem getBody_bytes (o : SecretUpdateOptions) :
    o.bytes.getBody = marshalStruct o.toStruct ++ "\n" := by
  have n1 : jsonName "Project" "project" = "project" := by decide
  have n2 : jsonName "Config" "config" = "config" := by decide
  have n3 : jsonName "NewSecrets" "secrets" = "secrets" := by decide
  have o1 : tagHas "project" "omitempty" = false := by decide
  have o2 : tagHas "config" "omitempty" = false := by decide
  have o3 : tagHas "secrets" "omitempty" = false := by decide
  simp [SecretUpdateOptionsBytes.getBody, SecretUpdateOptions.bytes, appendString_goBytes,
    appendStrMap_bytes, marshalStruct, SecretUpdateOptions.toStruct, marshalFields,
    jsonFieldMembers, jsonLeafMembers, n1, n2, n3, o1, o2, o3, jsonValue, jsonScalar]

/-- On the bytes of tokens that are texts `appendTokens` writes what `jsonTokens` writes. -/
theorem appendTokens_bytes (ts : List AuthToken) :
    appendTokens (some (ts.map (fun t => t.Token.map goBytes))) = jsonTokens (some ts) := by
  simp only [appendTokens, jsonTokens, List.map_map]
  congr 1
  apply List.map_congr_left
  intro t _
  obtain ⟨tok⟩ := t
  cases tok with
  | none => rfl
  | some tok => simp only [Function.comp, Option.map_some', appendAuthToken, jsonAuthToken,
      appendString_goBytes]

/-! ## C1 -/

/-- What `extractRateLimitFromHeader` computes: nothing as soon as one of the three reads
fails, and otherwise the three parsed values; the limit is parsed as it stands, the other
two after trimming. -/
theorem extractRateLimitFromHeader_eq (h : Header) :
    extractRateLimitFromHeader h =
      match atoi (h.Get headerRateLimitLimit),
            atoi (trimSpace (h.Get headerRateLimitRemaining)),
            parseInt64 (trimSpace (h.Get headerRateLimitReset)) with
      | some l, some r, some t => some { Limit := l, Remaining := r, Reset := timeUnix t }
      | _, _, _ => none := by
  unfold extractRateLimitFromHeader
  cases h1 : atoi (h.Get headerRateLimitLimit) <;>
    cases h2 : atoi (trimSpace (h.Get headerRateLimitRemaining)) <;>
    cases h3 : parseInt64 (trimSpace (h.Get headerRateLimitReset)) <;>
    simp only [h1, h2, h3]

/-- The scenario of the specification: limit 100, remaining 50, reset 1234567890 give
(100, 50, 2009-02-13T23:31:30Z); a missing or non-numeric header gives nothing. -/
theorem extractRateLimitFromHeader_examples :
    extractRateLimitFromHeader (rateLimitHeader "100" "50" "1234567890") =
      some { Limit := 100, Remaining := 50, Reset := timeUnix (unixOfUTC 2009 2 13 23 31 30) } ∧
    extractRateLimitFromHeader
      [("X-Ratelimit-Remaining", ["50"]), ("X-Ratelimit-Reset", ["1234567890"])] = none ∧
    extractRateLimitFromHeader (rateLimitHeader "invalid" "50" "1234567890") = none ∧
    extractRateLimitFromHeader (rateLimitHeader "100" "invalid" "1234567890") = none ∧
    extractRateLimitFromHeader (rateLimitHeader "100" "50" "invalid") = none := by
  decide

/-- C1 (code defect). `extractRateLimitFromHeader` does not treat the three headers alike:
a value padded with white space is accepted for `X-RateLimit-Remaining` and
`X-RateLimit-Reset`, which are trimmed, and refused for `X-RateLimit-Limit`, which is not.
With all three headers present and holding the decimal integers 100, 50 and 1234567890
behind a space, the result is absent; with the space removed from the limit alone it is
(100, 50, 1234567890 s after the epoch). Hence no single notion of "parses as a decimal
integer" makes the result absent exactly when one of the three values does not parse. -/
theorem C1_limit_header_not_trimmed :
    extractRateLimitFromHeader (rateLimitHeader " 100" " 50" " 1234567890") = none ∧
    extractRateLimitFromHeader (rateLimitHeader "100" " 50" " 1234567890") =
      some { Limit := 100, Remaining := 50, Reset := timeUnix 1234567890 } ∧
    ¬ ∃ parses : String → Prop, ∀ limit remaining reset : String,
      (extractRateLimitFromHeader (rateLimitHeader limit remaining reset) = none ↔
        (¬ parses limit ∨ ¬ parses remaining ∨ ¬ parses reset)) := by
  refine ⟨by decide, by decide, ?_⟩
  rintro ⟨parses, h⟩
  have h1 : ¬ (¬ parses "100" ∨ ¬ parses " 50" ∨ ¬ parses "1234567890") := by
    rw [← h "100" " 50" "1234567890"]
    decide
  have h2 : ¬ parses " 50" ∨ ¬ parses "100" ∨ ¬ parses "1234567890" := by
    rw [← h " 50" "100" "1234567890"]
    decide
  simp only [not_or, not_not] at h1
  rcases h2 with h2 | h2 | h2
  · exact h2 h1.2.1
  · exact h2 h1.1
  · exact h2 h1.2.2

/-! ## C2 -/

/-- C2. `APIResponse.Error` returns an error exactly when `Messages` is not empty; the
error text is then the messages in order, joined by `": "`; for an empty (or nil) list the
result is nil. -/
theorem C2_error_iff_messages (r : APIResponse) :
    ((r.Error).isSome ↔ r.Messages ≠ []) ∧
    r.Error = (if r.Messages = [] then none else some (String.intercalate ": " r.Messages)) :=
  ⟨error_isSome_iff r, error_eq_intercalate r⟩

/-! ## C3 -/

/-- C3. When the transport answers with a response of non-zero content length and a JSON
content type, and the body decodes without error into the target (after the details of the
response have been bound to it), `Call` returns the decoded target, and it returns an error
exactly when the decoded message list is not empty, namely the envelope's `Error`; the
status code plays no part. -/
theorem C3_call_error_iff_messages {T : Type} (R : ResponseType T) (g : Globals)
    (urlParses : String → Bool) (b : backendImplementation) (req : Request) (t0 t1 : T)
    (httpResp : HTTPResponse)
    (hcall : (call g urlParses b req).result = .ok httpResp)
    (hlen : httpResp.ContentLength ≠ 0)
    (hct : hasPrefix ((httpResp.Header.getD []).Get "Content-Type") "application/json" = true)
    (hdec : R.decode httpResp.Body
      (R.withEnvelope t0 ((R.envelope t0).WithDetails (some httpResp))) = (t1, none)) :
    (Call R g urlParses b req (some t0)).result.target = some t1 ∧
    (((Call R g urlParses b req (some t0)).result.err).isSome ↔ (R.envelope t1).Messages ≠ []) ∧
    (Call R g urlParses b req (some t0)).result.err = (R.envelope t1).Error := by
  have hE : (R.envelope t1).Error.isSome ↔ (R.envelope t1).Messages ≠ [] :=
    error_isSome_iff (R.envelope t1)
  have hC : (Call R g urlParses b req (some t0)).result =
      { target := some t1, err := (R.envelope t1).Error } := by
    simp only [Call, hcall, hct, if_true, hdec]
    have h0 : (httpResp.ContentLength == 0) = false := by simpa using hlen
    simp only [h0, Bool.false_eq_true, if_false]
    cases hErr : (R.envelope t1).Error <;> rfl
  rw [hC]
  exact ⟨rfl, hE, rfl⟩

/-- C3, witness: a `200 OK` with body `{"success":false,"messages":["bad config"]}` gives
the error `bad config` with status code 200 and success flag false in the envelope; a
`500` whose body has no messages gives no error. -/
theorem C3_call_error_iff_messages_witness :
    ((call {} (fun _ => true) (backendAnswering exampleFailure200)
        exampleWorkplaceGetRequest).result = .ok exampleFailure200 ∧
      exampleFailure200.ContentLength ≠ 0 ∧
      hasPrefix ((exampleFailure200.Header.getD []).Get "Content-Type") "application/json" = true ∧
      (envelopeResponse fun _ => none).decode exampleFailure200.Body
        (({} : APIResponse).WithDetails (some exampleFailure200)) =
        ({ Header := some [("Content-Type", ["application/json"])], Status := "200 OK",
           StatusCode := 200, Success := some false, Messages := ["bad config"] }, none)) ∧
    (Call (envelopeResponse fun _ => none) {} (fun _ => true) (backendAnswering exampleFailure200)
        exampleWorkplaceGetRequest (some {})).result.err = some "bad config" ∧
    (Call (envelopeResponse fun _ => none) {} (fun _ => true) (backendAnswering exampleError500)
        exampleWorkplaceGetRequest (some {})).result.err = none :=
  ⟨⟨rfl, by decide, by decide, by decide⟩,
   (C3_call_error_iff_messages (envelopeResponse fun _ => none) {} (fun _ => true)
      (backendAnswering exampleFailure200) exampleWorkplaceGetRequest {}
      { Header := some [("Content-Type", ["application/json"])], Status := "200 OK",
        StatusCode := 200, Success := some false, Messages := ["bad config"] }
      exampleFailure200 rfl (by decide) (by decide) (by decide)).2.2.trans (by decide),
   (C3_call_error_iff_messages (envelopeResponse fun _ => none) {} (fun _ => true)
      (backendAnswering exampleError500) exampleWorkplaceGetRequest {}
      { Header := some [("Content-Type", ["application/json"])],
        Status := "500 Internal Server Error", StatusCode := 500 }
      exampleError500 rfl (by decide) (by decide) (by decide)).2.2.trans (by decide)⟩

/-! ## C4 -/

/-- C4. With validation enabled, when the payload of a request is an options record with
a field that violates its `validate` tag, `CallRaw` and `Call` return an error, no HTTP
request reaches the transport, the typed target is returned as it was passed, and the
request itself is left as it was. -/
theorem C4_invalid_payload_suppresses_http {T : Type} (R : ResponseType T) (g : Globals)
    (urlParses : String → Bool) (b : backendImplementation) (req : Request) (resp : Option T) (s : Struct)
    (hg : g.EnableValidation = true) (hp : req.Payload = .ptr s)
    (hv : s.fields.flatMap fieldViolations ≠ []) :
    (∃ e, (CallRaw g urlParses b req).result = .error e) ∧
    (CallRaw g urlParses b req).sent = [] ∧
    (∃ e, (Call R g urlParses b req resp).result.err = some e) ∧
    (Call R g urlParses b req resp).sent = [] ∧
    (Call R g urlParses b req resp).result.target = resp ∧
    (Call R g urlParses b req resp).req = req := by
  obtain ⟨e, he⟩ := validateStruct_of_violation s hv
  have hinv : isPayloadValid g req.Payload = some e := by
    rw [hp, isPayloadValid_enabled g s hg, he]
  have hc := call_of_invalid g urlParses b req e hinv
  refine ⟨⟨_, by rw [CallRaw, hc]⟩, by rw [CallRaw, hc], ?_, ?_, ?_, ?_⟩ <;>
    simp [Call, hc]

/-- C4, witness: the project-get request with an empty project name. -/
theorem C4_invalid_payload_suppresses_http_witness :
    (({} : Globals).EnableValidation = true ∧
      exampleProjectGetRequest.Payload = .ptr (ProjectGetOptions.toStruct { Name := "" }) ∧
      (ProjectGetOptions.toStruct { Name := "" }).fields.flatMap fieldViolations ≠ []) ∧
    ((∃ e, (CallRaw {} (fun _ => true) exampleBackend exampleProjectGetRequest).result = .error e) ∧
     (CallRaw {} (fun _ => true) exampleBackend exampleProjectGetRequest).sent = [] ∧
     (∃ e, (Call (envelopeResponse fun _ => none) {} (fun _ => true) exampleBackend
              exampleProjectGetRequest (some {})).result.err = some e) ∧
     (Call (envelopeResponse fun _ => none) {} (fun _ => true) exampleBackend
        exampleProjectGetRequest (some {})).sent = [] ∧
     (Call (envelopeResponse fun _ => none) {} (fun _ => true) exampleBackend
        exampleProjectGetRequest (some {})).result.target = some {} ∧
     (Call (envelopeResponse fun _ => none) {} (fun _ => true) exampleBackend
        exampleProjectGetRequest (some {})).req = exampleProjectGetRequest) :=
  ⟨⟨rfl, rfl, by decide⟩,
   C4_invalid_payload_suppresses_http (envelopeResponse fun _ => none) {} (fun _ => true)
     exampleBackend exampleProjectGetRequest (some {}) (ProjectGetOptions.toStruct { Name := "" })
     rfl rfl (by decide)⟩

/-! ## C5 -/

/-- C5 (code defect). `SecretGetOptions` declares no `validate` tag, so `isPayloadValid`
accepts every `SecretGetOptions`, whatever the validation flag; in particular the record
of `Test_isPayloadValid` with an empty `Project`, for which the test expects an error. -/
theorem C5_secret_get_options_never_rejected (g : Globals) (o : SecretGetOptions) :
    isPayloadValid g (.ptr o.toStruct) = none ∧
    isPayloadValid { EnableValidation := true }
      (.ptr (SecretGetOptions.toStruct
        { Project := "", Config := "fake-config", Name := "fake-name" })) = none := by
  constructor
  · unfold isPayloadValid
    split
    · rfl
    · simp [validateStruct, SecretGetOptions.toStruct, fieldViolations, leafViolation, parseRules]
  · decide

/-! ## C6 -/

theorem parseRules_required : parseRules "required" = [("required", "")] := by decide

theorem parseRules_required_eq_pbkdf2 :
    parseRules "required,eq=pbkdf2" = [("required", ""), ("eq", "pbkdf2")] := by decide

theorem parseRules_required_eq_100000 :
    parseRules "required,eq=100000" = [("required", ""), ("eq", "100000")] := by decide

theorem parseRules_empty : parseRules "" = [] := by decide

theorem parseInt64_100000 : parseInt64 "100000" = some 100000 := by decide

/-- The fields of a `ShareEncryptedOptions` that violate their rules: none exactly when the
secret and the password are not empty, the KDF is `pbkdf2` and the salt rounds are 100000. -/
theorem shareEncrypted_violations (o : ShareEncryptedOptions) :
    o.toStruct.fields.flatMap fieldViolations = [] ↔
      (o.Secret ≠ "" ∧ o.Password ≠ "" ∧ o.KDF = "pbkdf2" ∧ o.SaltRounds = 100000) := by
  simp only [ShareEncryptedOptions.toStruct, List.flatMap_cons, List.flatMap_nil, fieldViolations,
    leafViolation, parseRules_required, parseRules_required_eq_pbkdf2,
    parseRules_required_eq_100000, parseRules_empty, List.all_cons, List.all_nil, ruleHolds,
    ruleHoldsScalar, parseInt64_100000]
  by_cases h1 : o.Secret = "" <;> by_cases h2 : o.Password = "" <;>
    by_cases h3 : o.KDF = "pbkdf2" <;> by_cases h4 : o.SaltRounds = 100000 <;>
    simp [h1, h2, h3, h4]
  all_goals omega

/-- C6. With validation enabled, a `ShareEncryptedOptions` passes `isPayloadValid` exactly
when `Secret` and `Password` are not empty, `KDF` is `pbkdf2` and `SaltRounds` is 100000;
any other record is refused before HTTP work: `call` returns an error and hands no request
to the transport. -/
theorem C6_share_encrypted_validation (ua : String) (urlParses : String → Bool) (b : backendImplementation)
    (h : Header) (m p k : String) (o : ShareEncryptedOptions) :
    (isPayloadValid { EnableValidation := true, encodedUserAgent := ua } (.ptr o.toStruct) = none ↔
      (o.Secret ≠ "" ∧ o.Password ≠ "" ∧ o.KDF = "pbkdf2" ∧ o.SaltRounds = 100000)) ∧
    ((o.Secret ≠ "" ∧ o.Password ≠ "" ∧ o.KDF = "pbkdf2" ∧ o.SaltRounds = 100000) ∨
      ((call { EnableValidation := true, encodedUserAgent := ua } urlParses b
          { Header := h, Method := m, Path := p, Key := k, Payload := .ptr o.toStruct }).sent = [] ∧
       ∃ e, (call { EnableValidation := true, encodedUserAgent := ua } urlParses b
          { Header := h, Method := m, Path := p, Key := k, Payload := .ptr o.toStruct }).result
            = .error e)) := by
  have hiff : isPayloadValid { EnableValidation := true, encodedUserAgent := ua }
      (.ptr o.toStruct) = none ↔
      (o.Secret ≠ "" ∧ o.Password ≠ "" ∧ o.KDF = "pbkdf2" ∧ o.SaltRounds = 100000) := by
    rw [isPayloadValid_enabled _ _ rfl, ← shareEncrypted_violations]
    cases hf : o.toStruct.fields.flatMap fieldViolations with
    | nil => simp [validateStruct, hf]
    | cons v vs => simp [validateStruct, hf]
  refine ⟨hiff, ?_⟩
  by_cases hok : (o.Secret ≠ "" ∧ o.Password ≠ "" ∧ o.KDF = "pbkdf2" ∧ o.SaltRounds = 100000)
  · exact Or.inl hok
  · right
    cases hv : isPayloadValid { EnableValidation := true, encodedUserAgent := ua }
        (.ptr o.toStruct) with
    | none => exact absurd (hiff.mp hv) hok
    | some e =>
      rw [call_of_invalid _ urlParses b _ e hv]
      exact ⟨rfl, _, rfl⟩

/-! ## C7 -/

/-- C7, counterexample: for the nil token list (the zero value of `AuthRevokeOptions`)
`MarshalJSON` returns `null`, which is not a JSON array. -/
theorem C7_nil_token_list_marshals_null :
    AuthRevokeOptions.MarshalJSON { Tokens := none } = .ok "null" ∧
    ¬ ∃ elems : List String,
      AuthRevokeOptions.MarshalJSON { Tokens := none } = .ok (jsonArray elems) := by
  refine ⟨rfl, ?_⟩
  rintro ⟨elems, h⟩
  have h2 : ("null" : String) = jsonArray elems := by
    simpa [AuthRevokeOptions.MarshalJSON, jsonTokens] using h
  have h3 := congrArg (fun x : String => x.data.head?) h2
  simp [jsonArray, String.data_append] at h3

/-- C7, amended. For every non-nil list of tokens that are texts (valid UTF-8)
`MarshalJSON` returns a bare JSON array: an opening bracket, the elements in input order
separated by commas, a closing bracket, where the element of a token `t` is the object
`{"token":t}` (and `{}` for an `AuthToken` whose pointer is nil); decoding these bytes into a
nil `[]AuthToken` gives the list back; for `token1`, `token2` the bytes are
`[{"token":"token1"},{"token":"token2"}]` and for the empty non-nil list they are `[]`. For
the nil list the bytes are `null`, which decodes to the nil list. These are the bytes that
`appendString` of `encoding/json` writes from the UTF-8 bytes of the tokens. Tokens that
are not valid UTF-8 are left out: for instance the token of the single byte `0xFF` is
written as `[{"token":"\ufffd"}]`, which decodes to the token U+FFFD, of bytes
`EF BF BD`. -/
theorem C7_marshal_json_bare_array (ts : List AuthToken) :
    AuthRevokeOptions.MarshalJSON { Tokens := some ts } =
      .ok ("[" ++ String.intercalate "," (ts.map jsonAuthToken) ++ "]") ∧
    (∀ tok : String, jsonAuthToken ⟨some tok⟩ = "\x7b\"token\":" ++ jsonString tok ++ "\x7d") ∧
    jsonAuthToken ⟨none⟩ = "\x7b\x7d" ∧
    unmarshalAuthTokens ("[" ++ String.intercalate "," (ts.map jsonAuthToken) ++ "]") none =
      (some ts, none) ∧
    AuthRevokeOptions.MarshalJSON { Tokens := some [⟨some "token1"⟩, ⟨some "token2"⟩] } =
      .ok "[\x7b\"token\":\"token1\"\x7d,\x7b\"token\":\"token2\"\x7d]" ∧
    AuthRevokeOptions.MarshalJSON { Tokens := some [] } = .ok "[]" ∧
    unmarshalAuthTokens "null" none = (none, none) ∧
    appendTokens (some (ts.map (fun t => t.Token.map goBytes))) =
      "[" ++ String.intercalate "," (ts.map jsonAuthToken) ++ "]" ∧
    (∀ tok : String, appendString (goBytes tok) = jsonString tok) ∧
    appendTokens (some [some [0xFF]]) = "[\x7b\"token\":\"\\ufffd\"\x7d]" ∧
    unmarshalAuthTokens (appendTokens (some [some [0xFF]])) none =
      (some [⟨some "\uFFFD"⟩], none) ∧
    goBytes "\uFFFD" = [0xEF, 0xBF, 0xBD] := by
  have hbytes : jsonTokens (some ts) =
      "[" ++ String.intercalate "," (ts.map jsonAuthToken) ++ "]" := by
    simp [jsonTokens, jsonArray, stringsJoin_eq_intercalate]
  have hkey : jsonString "token" = "\"token\"" := by decide
  refine ⟨?_, ?_, by decide, ?_, congrArg Except.ok (by decide), congrArg Except.ok (by decide),
    by decide, ?_, appendString_goBytes, by decide, by decide, by decide⟩
  · rw [← hbytes]; rfl
  · intro tok
    apply String.ext
    simp [jsonAuthToken, jsonObject, stringsJoin, String.data_append, hkey]
  · rw [← hbytes]
    exact unmarshalAuthTokens_jsonTokens ts
  · rw [← hbytes]
    exact appendTokens_bytes ts

/-! ## C8 -/

theorem index_nil (k1 : String) : Header.index [] k1 = [] := rfl

theorem index_cons (k0 : String) (xs : List String) (rest : Values) (k1 : String) :
    Header.index ((k0, xs) :: rest) k1 = if k0 = k1 then xs else Header.index rest k1 := by
  by_cases h : k0 = k1
  · simp [Header.index, List.find?, h]
  · have hb : (k0 == k1) = false := by simpa using h
    simp [Header.index, List.find?, h, hb]

theorem index_valuesAdd (vs : Values) (k x k1 : String) :
    Header.index (valuesAdd vs k x) k1 =
      if k1 = k then Header.index vs k ++ [x] else Header.index vs k1 := by
  induction vs with
  | nil =>
    simp only [valuesAdd, index_cons, index_nil, List.nil_append]
    by_cases h : k1 = k
    · simp [h]
    · have h2 : ¬ k = k1 := fun e => h e.symm
      simp [h, h2]
  | cons kv rest ih =>
    obtain ⟨k0, xs⟩ := kv
    by_cases h0 : k0 = k
    · subst h0
      simp only [valuesAdd, beq_self_eq_true, if_true, index_cons]
      by_cases h : k1 = k0
      · simp [h]
      · have h2 : ¬ k0 = k1 := fun e => h e.symm
        simp [h, h2]
    · have hb : (k0 == k) = false := by simpa using h0
      simp only [valuesAdd, hb, Bool.false_eq_true, if_false, index_cons, ih]
      by_cases h : k1 = k
      · subst h
        simp [h0]
      · by_cases h3 : k0 = k1 <;> simp [h, h3]

theorem keysOf_valuesAdd (vs : Values) (k x k1 : String) :
    k1 ∈ keysOf (valuesAdd vs k x) ↔ k1 = k ∨ k1 ∈ keysOf vs := by
  induction vs with
  | nil => simp [valuesAdd, keysOf]
  | cons kv rest ih =>
    obtain ⟨k0, xs⟩ := kv
    by_cases h0 : k0 = k
    · subst h0
      simp [valuesAdd, keysOf]
    · have hb : (k0 == k) = false := by simpa using h0
      simp only [keysOf] at ih
      simp only [valuesAdd, hb, keysOf, List.map_cons, List.mem_cons, ih]
      simp only [Bool.false_eq_true, if_false, List.map_cons, List.mem_cons, ih]
      tauto

/-- `reflectLeaf` keeps what is in the mapping. -/
theorem reflectLeaf_mono (scope : String) (vs : Values) (f : LeafField) (k y : String)
    (h : y ∈ Header.index vs k) : y ∈ Header.index (reflectLeaf scope vs f) k := by
  unfold reflectLeaf
  split
  · exact h
  · split
    · exact h
    · rw [index_valuesAdd]
      split
      · rename_i hk; subst hk; exact List.mem_append_left _ h
      · exact h

/-- `reflectLeaf` files a field that is on the query surface and not omitted. -/
theorem reflectLeaf_hit (scope : String) (vs : Values) (f : LeafField)
    (hq : f.onQuery) (ho : ¬ f.omitted) :
    valueString f.value ∈ Header.index (reflectLeaf scope vs f) (queryName scope f) := by
  unfold reflectLeaf
  have h1 : ¬ (f.url == "-") = true := by simpa [LeafField.onQuery] using hq
  have h2 : ¬ (tagHas f.url "omitempty" && isEmptyValue f.value) = true := by
    simpa [LeafField.omitted] using ho
  simp only [h1, h2, Bool.false_eq_true, if_false]
  rw [index_valuesAdd]
  simp

/-- `reflectLeaf` adds no key but the query name of a field that is on the query surface. -/
theorem reflectLeaf_keys (scope : String) (vs : Values) (f : LeafField) (k : String)
    (h : k ∈ keysOf (reflectLeaf scope vs f)) :
    k ∈ keysOf vs ∨ (f.onQuery ∧ ¬ f.omitted ∧ k = queryName scope f) := by
  unfold reflectLeaf at h
  split at h
  · exact Or.inl h
  · rename_i h1
    split at h
    · exact Or.inl h
    · rename_i h2
      rw [keysOf_valuesAdd] at h
      rcases h with h | h
      · right
        refine ⟨?_, ?_, h⟩
        · simpa [LeafField.onQuery] using h1
        · simpa [LeafField.omitted] using h2
      · exact Or.inl h

theorem foldLeaf_mono (scope : String) (fs : List LeafField) (vs : Values) (k y : String)
    (h : y ∈ Header.index vs k) : y ∈ Header.index (fs.foldl (reflectLeaf scope) vs) k := by
  induction fs generalizing vs with
  | nil => exact h
  | cons f fs ih => exact ih _ (reflectLeaf_mono scope vs f k y h)

theorem foldLeaf_hit (scope : String) (fs : List LeafField) (vs : Values) (f : LeafField)
    (hf : f ∈ fs) (hq : f.onQuery) (ho : ¬ f.omitted) :
    valueString f.value ∈ Header.index (fs.foldl (reflectLeaf scope) vs) (queryName scope f) := by
  induction fs generalizing vs with
  | nil => cases hf
  | cons g fs ih =>
    rcases List.mem_cons.mp hf with h | h
    · subst h
      exact foldLeaf_mono scope fs _ _ _ (reflectLeaf_hit scope vs f hq ho)
    · exact ih _ h

theorem foldLeaf_keys (scope : String) (fs : List LeafField) (vs : Values) (k : String)
    (h : k ∈ keysOf (fs.foldl (reflectLeaf scope) vs)) :
    k ∈ keysOf vs ∨ ∃ f ∈ fs, f.onQuery ∧ ¬ f.omitted ∧ k = queryName scope f := by
  induction fs generalizing vs with
  | nil => exact Or.inl h
  | cons g fs ih =>
    rcases ih _ h with h1 | ⟨f, hf, hr⟩
    · rcases reflectLeaf_keys scope vs g k h1 with h2 | h2
      · exact Or.inl h2
      · exact Or.inr ⟨g, List.mem_cons_self _ _, h2⟩
    · exact Or.inr ⟨f, List.mem_cons_of_mem _ hf, hr⟩

theorem canonicalScalar_getD (v : Value) : (canonicalScalar v).getD "" = valueString v := by
  cases v with
  | scalar s => cases s with
    | str s => rfl
    | int n => rfl
    | bool b => cases b <;> rfl
  | ptr p => cases p with
    | none => rfl
    | some s => cases s with
      | str s => rfl
      | int n => rfl
      | bool b => cases b <;> rfl

theorem reflectField_mono (acc : Values × List (List LeafField)) (fld : Field) (k y : String)
    (h : y ∈ Header.index acc.1 k) : y ∈ Header.index (reflectField acc fld).1 k := by
  cases fld with
  | leaf f => exact reflectLeaf_mono "" acc.1 f k y h
  | embedded n url j fs =>
    simp only [reflectField]
    split
    · exact h
    · split
      · exact h
      · exact foldLeaf_mono _ fs acc.1 k y h
  | strMap n j v m => exact h
  | tokens n j v ts => exact h

theorem reflectField_embedded_mono (acc : Values × List (List LeafField)) (fld : Field)
    (fs : List LeafField) (h : fs ∈ acc.2) : fs ∈ (reflectField acc fld).2 := by
  cases fld with
  | leaf f => exact h
  | embedded n url j gs =>
    simp only [reflectField]
    split
    · exact h
    · split
      · exact List.mem_append_left _ h
      · exact h
  | strMap n j v m => exact h
  | tokens n j v ts => exact h

theorem foldField_mono (fields : List Field) (acc : Values × List (List LeafField))
    (k y : String) (h : y ∈ Header.index acc.1 k) :
    y ∈ Header.index (fields.foldl reflectField acc).1 k := by
  induction fields generalizing acc with
  | nil => exact h
  | cons fld fields ih => exact ih _ (reflectField_mono acc fld k y h)

theorem foldField_embedded_mono (fields : List Field) (acc : Values × List (List LeafField))
    (fs : List LeafField) (h : fs ∈ acc.2) : fs ∈ (fields.foldl reflectField acc).2 := by
  induction fields generalizing acc with
  | nil => exact h
  | cons fld fields ih => exact ih _ (reflectField_embedded_mono acc fld fs h)

theorem foldField_leaf_hit (fields : List Field) (acc : Values × List (List LeafField))
    (f : LeafField) (hf : Field.leaf f ∈ fields) (hq : f.onQuery) (ho : ¬ f.omitted) :
    valueString f.value ∈ Header.index (fields.foldl reflectField acc).1 (queryName "" f) := by
  induction fields generalizing acc with
  | nil => cases hf
  | cons fld fields ih =>
    rcases List.mem_cons.mp hf with h | h
    · subst h
      exact foldField_mono fields _ _ _ (reflectLeaf_hit "" acc.1 f hq ho)
    · exact ih _ h

theorem foldField_embedded_hit (fields : List Field) (acc : Values × List (List LeafField))
    (n url j : String) (fs : List LeafField) (hf : Field.embedded n url j fs ∈ fields)
    (hu : url ≠ "-") (hn : tagName url = "") : fs ∈ (fields.foldl reflectField acc).2 := by
  induction fields generalizing acc with
  | nil => cases hf
  | cons fld fields ih =>
    rcases List.mem_cons.mp hf with h | h
    · subst h
      rw [List.foldl_cons]
      apply foldField_embedded_mono
      have h1 : (url == "-") = false := by simpa using hu
      simp [reflectField, h1, hn]
    · exact ih _ h

/-- Where a key of the first phase comes from. -/
theorem foldField_keys (fields : List Field) (acc : Values × List (List LeafField)) (k : String)
    (h : k ∈ keysOf (fields.foldl reflectField acc).1) :
    k ∈ keysOf acc.1 ∨
      ∃ scope f, f.onQuery ∧ ¬ f.omitted ∧ k = queryName scope f ∧
        (Field.leaf f ∈ fields ∨
          ∃ n url j fs, Field.embedded n url j fs ∈ fields ∧ url ≠ "-" ∧ f ∈ fs) := by
  induction fields generalizing acc with
  | nil => exact Or.inl h
  | cons fld fields ih =>
    rcases ih _ h with h1 | ⟨scope, f, hq, ho, hk, hm⟩
    · cases fld with
      | leaf g =>
        rcases reflectLeaf_keys "" acc.1 g k h1 with h2 | ⟨hq, ho, hk⟩
        · exact Or.inl h2
        · exact Or.inr ⟨"", g, hq, ho, hk, Or.inl (List.mem_cons_self _ _)⟩
      | embedded n url j fs =>
        simp only [reflectField] at h1
        split at h1
        · exact Or.inl h1
        · rename_i hu
          split at h1
          · exact Or.inl h1
          · rcases foldLeaf_keys _ fs acc.1 k h1 with h2 | ⟨f, hf, hq, ho, hk⟩
            · exact Or.inl h2
            · refine Or.inr ⟨tagName url, f, hq, ho, hk, Or.inr ⟨n, url, j, fs, ?_, ?_, hf⟩⟩
              · exact List.mem_cons_self _ _
              · simpa using hu
      | strMap n j v m => exact Or.inl h1
      | tokens n j v ts => exact Or.inl h1
    · refine Or.inr ⟨scope, f, hq, ho, hk, ?_⟩
      rcases hm with hm | ⟨n, url, j, fs, hm, hu, hf⟩
      · exact Or.inl (List.mem_cons_of_mem _ hm)
      · exact Or.inr ⟨n, url, j, fs, List.mem_cons_of_mem _ hm, hu, hf⟩

/-- Where a record put aside in the first phase comes from. -/
theorem foldField_embedded_origin (fields : List Field) (acc : Values × List (List LeafField))
    (fs : List LeafField) (h : fs ∈ (fields.foldl reflectField acc).2) :
    fs ∈ acc.2 ∨ ∃ n url j, Field.embedded n url j fs ∈ fields ∧ url ≠ "-" := by
  induction fields generalizing acc with
  | nil => exact Or.inl h
  | cons fld fields ih =>
    rcases ih _ h with h1 | ⟨n, url, j, hm, hu⟩
    · cases fld with
      | leaf g => exact Or.inl h1
      | embedded n url j gs =>
        simp only [reflectField] at h1
        split at h1
        · exact Or.inl h1
        · rename_i hu
          split at h1
          · rcases List.mem_append.mp h1 with h2 | h2
            · exact Or.inl h2
            · have : fs = gs := by simpa using h2
              subst this
              exact Or.inr ⟨n, url, j, List.mem_cons_self _ _, by simpa using hu⟩
          · exact Or.inl h1
      | strMap n j v m => exact Or.inl h1
      | tokens n j v ts => exact Or.inl h1
    · exact Or.inr ⟨n, url, j, List.mem_cons_of_mem _ hm, hu⟩

theorem foldEmbedded_mono (embs : List (List LeafField)) (vs : Values) (k y : String)
    (h : y ∈ Header.index vs k) :
    y ∈ Header.index (embs.foldl (fun vs fs => fs.foldl (reflectLeaf "") vs) vs) k := by
  induction embs generalizing vs with
  | nil => exact h
  | cons fs embs ih => exact ih _ (foldLeaf_mono "" fs vs k y h)

theorem foldEmbedded_hit (embs : List (List LeafField)) (vs : Values) (fs : List LeafField)
    (f : LeafField) (hfs : fs ∈ embs) (hf : f ∈ fs) (hq : f.onQuery) (ho : ¬ f.omitted) :
    valueString f.value ∈
      Header.index (embs.foldl (fun vs fs => fs.foldl (reflectLeaf "") vs) vs) (queryName "" f) := by
  induction embs generalizing vs with
  | nil => cases hfs
  | cons gs embs ih =>
    rcases List.mem_cons.mp hfs with h | h
    · subst h
      exact foldEmbedded_mono embs _ _ _ (foldLeaf_hit "" fs vs f hf hq ho)
    · exact ih _ h

theorem foldEmbedded_keys (embs : List (List LeafField)) (vs : Values) (k : String)
    (h : k ∈ keysOf (embs.foldl (fun vs fs => fs.foldl (reflectLeaf "") vs) vs)) :
    k ∈ keysOf vs ∨ ∃ fs ∈ embs, ∃ f ∈ fs, f.onQuery ∧ ¬ f.omitted ∧ k = queryName "" f := by
  induction embs generalizing vs with
  | nil => exact Or.inl h
  | cons gs embs ih =>
    rcases ih _ h with h1 | ⟨fs, hfs, r⟩
    · rcases foldLeaf_keys "" gs vs k h1 with h2 | ⟨f, hf, r⟩
      · exact Or.inl h2
      · exact Or.inr ⟨gs, List.mem_cons_self _ _, f, hf, r⟩
    · exact Or.inr ⟨fs, List.mem_cons_of_mem _ hfs, r⟩

theorem reflectValue_secretGet (o : SecretGetOptions) :
    reflectValue o.toStruct.fields =
      [("project", [o.Project]), ("config", [o.Config]), ("name", [o.Name])] := by
  have t1 : tagName "project" = "project" := by decide
  have t2 : tagName "config" = "config" := by decide
  have t3 : tagName "name" = "name" := by decide
  have o1 : tagHas "project" "omitempty" = false := by decide
  have o2 : tagHas "config" "omitempty" = false := by decide
  have o3 : tagHas "name" "omitempty" = false := by decide
  simp [reflectValue, SecretGetOptions.toStruct, reflectField, reflectLeaf, queryName,
    valuesAdd, valueString, sprintScalar, t1, t2, t3, o1, o2, o3]

theorem reflectValue_secretUpdate (o : SecretUpdateOptions) :
    reflectValue o.toStruct.fields = [] := by
  simp [reflectValue, SecretUpdateOptions.toStruct, reflectField, reflectLeaf]

/-- C8. For every options record and every scalar field of it, at the top level or in an
embedded record without a tag name (`ListOptions`), whose `url` tag is not `-` and that is
not omitted (zero value with `omitempty`), the mapping of `extractQueryParameters` holds,
under the field's query name, the field's canonical scalar string (the empty string for a
nil pointer); every key of the mapping is the query name of such a field, so fields tagged
`-` contribute nothing; `SecretGetOptions` yields exactly project, config and name, and
`SecretUpdateOptions` yields the empty mapping. -/
theorem C8_query_parameters (s : Struct) :
    extractQueryParameters (.ptr s) = .ok (reflectValue s.fields) ∧
    (∀ f, Field.leaf f ∈ s.fields → f.onQuery → ¬ f.omitted →
      (canonicalScalar f.value).getD "" ∈ Header.index (reflectValue s.fields) (queryName "" f)) ∧
    (∀ n url j fs f, Field.embedded n url j fs ∈ s.fields → url ≠ "-" → tagName url = "" →
      f ∈ fs → f.onQuery → ¬ f.omitted →
      (canonicalScalar f.value).getD "" ∈ Header.index (reflectValue s.fields) (queryName "" f)) ∧
    (∀ k, k ∈ keysOf (reflectValue s.fields) →
      ∃ scope f, f.onQuery ∧ ¬ f.omitted ∧ k = queryName scope f ∧
        (Field.leaf f ∈ s.fields ∨
          ∃ n url j fs, Field.embedded n url j fs ∈ s.fields ∧ url ≠ "-" ∧ f ∈ fs)) ∧
    (∀ o : SecretGetOptions, extractQueryParameters (.ptr o.toStruct) =
      .ok [("project", [o.Project]), ("config", [o.Config]), ("name", [o.Name])]) ∧
    (∀ o : SecretUpdateOptions, extractQueryParameters (.ptr o.toStruct) = .ok []) := by
  refine ⟨rfl, ?_, ?_, ?_, ?_, ?_⟩
  · intro f hf hq ho
    rw [canonicalScalar_getD]
    exact foldEmbedded_mono _ _ _ _ (foldField_leaf_hit s.fields ([], []) f hf hq ho)
  · intro n url j fs f hm hu hn hf hq ho
    rw [canonicalScalar_getD]
    exact foldEmbedded_hit _ _ fs f (foldField_embedded_hit s.fields ([], []) n url j fs hm hu hn)
      hf hq ho
  · intro k hk
    rcases foldEmbedded_keys _ _ k hk with h1 | ⟨fs, hfs, f, hf, hq, ho, hkq⟩
    · rcases foldField_keys s.fields ([], []) k h1 with h2 | h2
      · simp [keysOf] at h2
      · exact h2
    · rcases foldField_embedded_origin s.fields ([], []) fs hfs with h2 | ⟨n, url, j, hm, hu⟩
      · simp at h2
      · exact ⟨"", f, hq, ho, hkq, Or.inr ⟨n, url, j, fs, hm, hu, hf⟩⟩
  · intro o
    simp only [extractQueryParameters, reflectValue_secretGet]
  · intro o
    simp only [extractQueryParameters, reflectValue_secretUpdate]

/-- C8, an instance: `ProjectListOptions` with page 1 and 2 entries per page files `1`
under `page` and `2` under `per_page`, the embedded `ListOptions` being flattened. -/
theorem C8_query_parameters_witness :
    "1" ∈ Header.index
      (reflectValue (ProjectListOptions.toStruct { ListOptions := { Page := 1, PerPage := 2 } }).fields)
      "page" ∧
    "2" ∈ Header.index
      (reflectValue (ProjectListOptions.toStruct { ListOptions := { Page := 1, PerPage := 2 } }).fields)
      "per_page" :=
  ⟨(C8_query_parameters
      (ProjectListOptions.toStruct { ListOptions := { Page := 1, PerPage := 2 } })).2.2.1
      "ListOptions" ",inline" "-" (ListOptions.fields { Page := 1, PerPage := 2 })
      { name := "Page", url := "page,omitempty", json := "", validate := "",
        value := .scalar (.int 1) }
      (by decide) (by decide) (by decide) (by decide) (by decide) (by decide),
   (C8_query_parameters
      (ProjectListOptions.toStruct { ListOptions := { Page := 1, PerPage := 2 } })).2.2.1
      "ListOptions" ",inline" "-" (ListOptions.fields { Page := 1, PerPage := 2 })
      { name := "PerPage", url := "per_page,omitempty", json := "", validate := "",
        value := .scalar (.int 2) }
      (by decide) (by decide) (by decide) (by decide) (by decide) (by decide)⟩

/-! ## C9 -/

/-- C9, counterexample: the `SecretUpdateOptions` whose `Project` is the single byte `0xFF`,
a Go string that is not valid UTF-8. `encoding/json` writes the byte as `\ufffd`, so the
body is `{"project":"\ufffd","config":"","secrets":null}` and a newline; decoding it
succeeds and gives the `Project` U+FFFD, of bytes `EF BF BD`, which is not the original. -/
theorem C9_invalid_utf8_not_restored :
    SecretUpdateOptionsBytes.getBody { Project := [0xFF] } =
      "\x7b\"project\":\"\\ufffd\",\"config\":\"\",\"secrets\":null\x7d\n" ∧
    decodeSecretUpdateOptions (SecretUpdateOptionsBytes.getBody { Project := [0xFF] }) {} =
      ({ Project := "\uFFFD" }, none) ∧
    (decodeSecretUpdateOptions
      (SecretUpdateOptionsBytes.getBody { Project := [0xFF] }) {}).1.bytes =
      { Project := [0xEF, 0xBF, 0xBD] } ∧
    (decodeSecretUpdateOptions
      (SecretUpdateOptionsBytes.getBody { Project := [0xFF] }) {}).1.bytes ≠
      { Project := [0xFF] } := by
  refine ⟨by decide, by decide, by decide, by decide⟩

/-- C9, amended. For every `SecretUpdateOptions` whose strings are texts (valid UTF-8; the
entries of its map listed in ascending key order), `Request.getBody` returns a body,
decoding that body into a zero `SecretUpdateOptions` returns the original record without
error, and the body is what `appendString` of `encoding/json` writes from the UTF-8 bytes
of the strings. -/
theorem C9_secret_update_body_round_trip (h : Header) (m p k : String)
    (o : SecretUpdateOptions) (hw : o.wellFormed) :
    ∃ body,
      Request.getBody
        { Header := h, Method := m, Path := p, Key := k, Payload := .ptr o.toStruct } = .ok body ∧
      decodeSecretUpdateOptions body {} = (o, none) ∧
      o.bytes.getBody = body :=
  ⟨marshalStruct o.toStruct ++ "\n", rfl, decode_secretUpdate_body o hw, getBody_bytes o⟩

/-- C9, witness: the record of `TestRequest`, whose body is
`{"project":"fake-project","config":"fake-config","secrets":{"fake-name":"fake-value"}}`
followed by a newline. -/
theorem C9_secret_update_body_round_trip_witness :
    exampleSecretUpdateOptions.wellFormed ∧
    (∃ body,
      Request.getBody
        { Header := [], Method := "PUT", Path := "/v3/configs/config/secrets", Key := "fake-key",
          Payload := .ptr exampleSecretUpdateOptions.toStruct } = .ok body ∧
      decodeSecretUpdateOptions body {} = (exampleSecretUpdateOptions, none) ∧
      exampleSecretUpdateOptions.bytes.getBody = body) ∧
    Request.getBody
        { Header := [], Method := "PUT", Path := "/v3/configs/config/secrets", Key := "fake-key",
          Payload := .ptr exampleSecretUpdateOptions.toStruct } =
      .ok ("\x7b\"project\":\"fake-project\",\"config\":\"fake-config\"," ++
           "\"secrets\":\x7b\"fake-name\":\"fake-value\"\x7d\x7d\n") :=
  ⟨fun m hm => by cases hm; decide,
   C9_secret_update_body_round_trip [] "PUT" "/v3/configs/config/secrets" "fake-key"
     exampleSecretUpdateOptions (fun m hm => by cases hm; decide),
   congrArg Except.ok (by decide)⟩

/-! ## C10 -/

/-- C10. For a request with a nil payload, `getQueryParameters` returns an empty mapping
and no error, `getBody` returns an empty buffer and no error, and `isPayloadValid` returns
no error, whatever the validation flag. -/
theorem C10_nil_payload (g : Globals) (h : Header) (m p k : String) :
    (Request.getQueryParameters
      { Header := h, Method := m, Path := p, Key := k, Payload := Payload.nil } = .ok []) ∧
    (Request.getBody
      { Header := h, Method := m, Path := p, Key := k, Payload := Payload.nil } = .ok "") ∧
    isPayloadValid g Payload.nil = none := by
  simp [Request.getQueryParameters, extractQueryParameters, Request.getBody, isPayloadValid]

/-! ## The headers and parts of a prepared request -/

theorem index_headerAdd (h : Header) (key v K : String) :
    Header.index (headerAdd h key v) K =
      if K = canonicalMIMEHeaderKey key then Header.index h K ++ [v] else Header.index h K := by
  rw [headerAdd, index_valuesAdd]
  split_ifs with hk
  · rw [hk]
  · rfl

theorem index_headerAssign (h : Header) (key : String) (vs : List String) (K : String) :
    Header.index (headerAssign h key vs) K = if K = key then vs else Header.index h K := by
  induction h with
  | nil =>
    by_cases hk : K = key
    · subst hk; simp [headerAssign, index_cons]
    · have hk2 : ¬ key = K := fun h => hk h.symm
      simp [headerAssign, index_cons, index_nil, hk, hk2]
  | cons kv rest ih =>
    obtain ⟨k0, xs⟩ := kv
    by_cases h0 : k0 = key
    · subst h0
      by_cases hk : K = k0
      · subst hk; simp [headerAssign, index_cons]
      · have hk2 : ¬ k0 = K := fun h => hk h.symm
        simp [headerAssign, index_cons, hk, hk2]
    · have hb0 : (k0 == key) = false := by simpa using h0
      simp only [headerAssign, hb0, Bool.false_eq_true, if_false, index_cons, ih]
      by_cases hk : k0 = K
      · subst hk
        simp [h0]
      · simp [hk]

theorem index_addValues (key : String) (vs : List String) (h : Header) (K : String) :
    Header.index (vs.foldl (fun h v => headerAdd h key v) h) K =
      Header.index h K ++ (if canonicalMIMEHeaderKey key = K then vs else []) := by
  induction vs generalizing h with
  | nil => simp
  | cons v vs ih =>
    rw [List.foldl_cons, ih, index_headerAdd]
    by_cases hk : canonicalMIMEHeaderKey key = K
    · simp [hk]
    · have : ¬ K = canonicalMIMEHeaderKey key := fun h => hk h.symm
      simp [hk, this]

theorem index_mergeCustom (custom : Header) (h : Header) (K : String) :
    Header.index
        (custom.foldl (fun h kv => kv.2.foldl (fun h v => headerAdd h kv.1 v) h) h) K =
      Header.index h K ++ customValues custom K := by
  induction custom generalizing h with
  | nil => simp [customValues]
  | cons kv rest ih =>
    rw [List.foldl_cons, ih, index_addValues]
    simp [customValues, List.append_assoc]

theorem canonical_defaults :
    canonicalMIMEHeaderKey "Content-Type" = "Content-Type" ∧
    canonicalMIMEHeaderKey "Authorization" = "Authorization" ∧
    canonicalMIMEHeaderKey "Accept" = "Accept" ∧
    canonicalMIMEHeaderKey "User-Agent" = "User-Agent" := by decide

/-- The body that `prepareRequest` attaches -/
theorem getBody_ok (req : Request) : ∃ body, req.getBody = .ok body := by
  unfold Request.getBody
  cases req.Payload <;> exact ⟨_, rfl⟩

theorem newRequest_ok (urlParses : String → Bool) (method url : String) (r : HTTPRequest)
    (h : newRequest urlParses method url = .ok r) :
    r = { Method := if method = "" then "GET" else method, URL := (urlSplit url).text,
          RawQuery := (urlSplit url).RawQuery, ForceQuery := (urlSplit url).ForceQuery,
          Fragment := (urlSplit url).Fragment } := by
  unfold newRequest at h
  simp only [beq_iff_eq] at h
  generalize (if method = "" then "GET" else method) = m at h ⊢
  by_cases h1 : (!m.data.all validHeaderFieldByte) = true
  · rw [if_pos h1] at h; cases h
  · rw [if_neg h1] at h
    by_cases h2 : (!urlParses url) = true
    · rw [if_pos h2] at h; cases h
    · rw [if_neg h2] at h
      cases h; rfl

theorem prepareRequest_ok_aux (g : Globals) (urlParses : String → Bool)
    (req req1 : Request) (httpReq : HTTPRequest) (P body : String)
    (h : (match isPayloadValid g req.Payload with
    | some err => (req, Except.error (errorsWrap err "validate request payload"))
    | none =>
      match newRequest urlParses req.Method P with
      | Except.error err =>
        (({ Header := req.Header, Method := req.Method, Path := P, Key := req.Key,
            Payload := req.Payload } : Request),
          Except.error err)
      | Except.ok httpReq =>
        match req.getQueryParameters with
        | Except.error err =>
          ({ Header := req.Header, Method := req.Method, Path := P, Key := req.Key,
              Payload := req.Payload },
            Except.error (errorsWrap err "get query parameters from request payload"))
        | Except.ok params =>
          match
            (if (req.Method != "GET") = true then
              Except.ok
                { Method := httpReq.Method, URL := httpReq.URL, RawQuery := valuesEncode params,
                  Header := headerAdd httpReq.Header "Content-Type" "application/json", Body := some body,
                  ForceQuery := httpReq.ForceQuery, Fragment := httpReq.Fragment }
            else
              Except.ok
                { Method := httpReq.Method, URL := httpReq.URL, RawQuery := valuesEncode params,
                  Header := httpReq.Header, Body := httpReq.Body,
                  ForceQuery := httpReq.ForceQuery,
                  Fragment := httpReq.Fragment } : Except String HTTPRequest) with
          | Except.error err =>
            ({ Header := req.Header, Method := req.Method, Path := P, Key := req.Key,
                Payload := req.Payload },
              Except.error err)
          | Except.ok httpReq =>
            ({ Header := req.Header, Method := req.Method, Path := P, Key := req.Key,
                Payload := req.Payload },
              Except.ok
                { Method := httpReq.Method, URL := httpReq.URL, RawQuery := httpReq.RawQuery,
                  Header :=
                    List.foldl (fun h kv => List.foldl (fun h v => headerAdd h kv.1 v) h kv.2)
                      (headerAdd
                        (headerAdd
                          (headerSet httpReq.Header "Authorization"
                            ("Basic " ++ base64 (req.Key ++ ":")))
                          "Accept" "application/json")
                        "User-Agent" g.encodedUserAgent)
                      req.Header,
                  Body := httpReq.Body, ForceQuery := httpReq.ForceQuery,
                  Fragment := httpReq.Fragment })) =
    (req1, Except.ok httpReq)) :
    isPayloadValid g req.Payload = none ∧
    req1 = { req with Path := P } ∧
    httpReq.Method = (if req.Method = "" then "GET" else req.Method) ∧
    (httpReq.URL = (urlSplit P).text ∧ httpReq.ForceQuery = (urlSplit P).ForceQuery ∧
      httpReq.Fragment = (urlSplit P).Fragment) ∧
    (∃ params, req.getQueryParameters = .ok params ∧ httpReq.RawQuery = valuesEncode params) ∧
    httpReq.Body = (if req.Method = "GET" then none else some body) ∧
    ∀ K, Header.index httpReq.Header K =
      (if K = "Content-Type" ∧ req.Method ≠ "GET" then ["application/json"] else []) ++
      (if K = "Authorization" then ["Basic " ++ base64 (req.Key ++ ":")] else []) ++
      (if K = "Accept" then ["application/json"] else []) ++
      (if K = "User-Agent" then [g.encodedUserAgent] else []) ++
      customValues req.Header K := by
  cases hv : isPayloadValid g req.Payload with
  | some e => rw [hv] at h; simp at h
  | none =>
    rw [hv] at h
    cases hn : newRequest urlParses req.Method P with
    | error e => rw [hn] at h; simp at h
    | ok r =>
      have hr := newRequest_ok _ _ _ _ hn
      rw [hn] at h
      cases hq : req.getQueryParameters with
      | error e => rw [hq] at h; simp at h
      | ok params =>
        rw [hq] at h
        obtain ⟨hC, hA, hAc, hU⟩ := canonical_defaults
        by_cases hm : req.Method = "GET"
        · have hne : (req.Method != "GET") = false := by simp [hm]
          simp only [hne, Bool.false_eq_true, if_false, Prod.mk.injEq, Except.ok.injEq] at h
          obtain ⟨h1, h2⟩ := h
          subst h2
          subst hr
          refine ⟨rfl, h1.symm, rfl, ⟨rfl, rfl, rfl⟩, ⟨params, rfl, rfl⟩, by simp [hm], ?_⟩
          intro K
          simp only [index_mergeCustom, index_headerAdd, headerSet, index_headerAssign, hA, hAc, hU,
            index_nil, hm]
          by_cases k1 : K = "Authorization" <;> by_cases k2 : K = "Accept" <;>
            by_cases k3 : K = "User-Agent" <;> simp_all
        · have hne : (req.Method != "GET") = true := by simp [hm]
          simp only [hne, if_true, Prod.mk.injEq, Except.ok.injEq] at h
          obtain ⟨h1, h2⟩ := h
          subst h2
          subst hr
          refine ⟨rfl, h1.symm, rfl, ⟨rfl, rfl, rfl⟩, ⟨params, rfl, rfl⟩, by simp [hm], ?_⟩
          intro K
          simp only [index_mergeCustom, index_headerAdd, headerSet, index_headerAssign, hA, hAc, hU, hC,
            index_nil, hm]
          by_cases k0 : K = "Content-Type" <;> by_cases k1 : K = "Authorization" <;>
            by_cases k2 : K = "Accept" <;>
            by_cases k3 : K = "User-Agent" <;> simp_all

theorem prepareRequest_ok (g : Globals) (urlParses : String → Bool) (b : backendImplementation)
    (req req1 : Request) (httpReq : HTTPRequest)
    (h : prepareRequest g urlParses b req = (req1, .ok httpReq)) :
    isPayloadValid g req.Payload = none ∧
    req1 = { req with
      Path := b.URL ++ (if hasPrefix req.Path "/" then req.Path else "/" ++ req.Path) } ∧
    httpReq.Method = (if req.Method = "" then "GET" else req.Method) ∧
    (httpReq.URL =
        (urlSplit (b.URL ++ (if hasPrefix req.Path "/" then req.Path else "/" ++ req.Path))).text ∧
      httpReq.ForceQuery =
        (urlSplit (b.URL ++
          (if hasPrefix req.Path "/" then req.Path else "/" ++ req.Path))).ForceQuery ∧
      httpReq.Fragment =
        (urlSplit (b.URL ++
          (if hasPrefix req.Path "/" then req.Path else "/" ++ req.Path))).Fragment) ∧
    (∃ params, req.getQueryParameters = .ok params ∧ httpReq.RawQuery = valuesEncode params) ∧
    (∃ body, req.getBody = .ok body ∧
      httpReq.Body = (if req.Method = "GET" then none else some body)) ∧
    ∀ K, Header.index httpReq.Header K =
      (if K = "Content-Type" ∧ req.Method ≠ "GET" then ["application/json"] else []) ++
      (if K = "Authorization" then ["Basic " ++ base64 (req.Key ++ ":")] else []) ++
      (if K = "Accept" then ["application/json"] else []) ++
      (if K = "User-Agent" then [g.encodedUserAgent] else []) ++
      customValues req.Header K := by
  have hq0 : ∀ p : String, Request.getQueryParameters
      { Header := req.Header, Method := req.Method, Path := p, Key := req.Key,
        Payload := req.Payload } = req.getQueryParameters := fun _ => rfl
  have hb0 : ∀ p : String, Request.getBody
      { Header := req.Header, Method := req.Method, Path := p, Key := req.Key,
        Payload := req.Payload } = req.getBody := fun _ => rfl
  obtain ⟨body, hbody⟩ := getBody_ok req
  by_cases hp : hasPrefix req.Path "/" = true
  · simp only [prepareRequest, hp, Bool.not_true, Bool.not_false, Bool.false_eq_true, if_false,
      if_true, hq0, hb0, hbody] at h
    obtain ⟨a1, a2, a3, a4, a5, a6, a7⟩ := prepareRequest_ok_aux g urlParses req req1 httpReq _ body h
    simp only [hp, if_true]
    exact ⟨a1, a2, a3, a4, a5, ⟨body, hbody, a6⟩, a7⟩
  · simp only [prepareRequest, hp, Bool.not_true, Bool.not_false, Bool.false_eq_true, if_false,
      if_true, hq0, hb0, hbody] at h
    obtain ⟨a1, a2, a3, a4, a5, a6, a7⟩ := prepareRequest_ok_aux g urlParses req req1 httpReq _ body h
    simp only [hp, if_false]
    exact ⟨a1, a2, a3, a4, a5, ⟨body, hbody, a6⟩, a7⟩

/-! ## C11 -/

/-- C11 (counterexample). A `GET` request without payload whose own `Header` gives
`Content-Type: text/plain` passes validation and is built as a `GET` request without body
that does carry a `Content-Type` header, `text/plain`. -/
theorem C11_get_with_own_content_type :
    isPayloadValid {} exampleGetWithContentType.Payload = none ∧
    (prepareRequest {} (fun _ => true) exampleBackend exampleGetWithContentType).2.toOption.map
        (fun r => (r.Method, r.Body, r.Header.Get "Content-Type")) =
      some ("GET", none, "text/plain") := by
  decide

/-- C11 (amended). When `prepareRequest` builds an HTTP request for a `Request` with a
non-empty method, the HTTP request has that method; it has no body when the method is `GET`,
whatever the payload, and otherwise its body is what `getBody` returns: the JSON encoding of
an options record followed by a newline, and the empty buffer for a nil payload. The values
of its `Content-Type` header are `application/json` when the method is not `GET`, followed
by the values that the `Header` of the `Request` gives for `Content-Type`; so `Header.Get`
reads `application/json` from every non-`GET` request, and a `GET` request has a
`Content-Type` only when the `Request` brings one. -/
theorem C11_body_iff_not_get (g : Globals) (urlParses : String → Bool)
    (b : backendImplementation) (req req1 : Request) (httpReq : HTTPRequest)
    (hm : req.Method ≠ "")
    (h : prepareRequest g urlParses b req = (req1, .ok httpReq)) :
    httpReq.Method = req.Method ∧
    (req.Method = "GET" → httpReq.Body = none) ∧
    (req.Method ≠ "GET" → ∃ body, req.getBody = .ok body ∧ httpReq.Body = some body) ∧
    (∀ s, req.Method ≠ "GET" → req.Payload = .ptr s →
      httpReq.Body = some (marshalStruct s ++ "\n")) ∧
    (req.Method ≠ "GET" → req.Payload = .nil → httpReq.Body = some "") ∧
    httpReq.Header.index "Content-Type" =
      (if req.Method = "GET" then [] else ["application/json"]) ++
        customValues req.Header "Content-Type" ∧
    (req.Method ≠ "GET" → httpReq.Header.Get "Content-Type" = "application/json") ∧
    (req.Method = "GET" → customValues req.Header "Content-Type" = [] →
      httpReq.Header.index "Content-Type" = []) := by
  obtain ⟨_, _, h3, _, _, ⟨body, hb, h6⟩, h7⟩ := prepareRequest_ok g urlParses b req req1 httpReq h
  have hct : httpReq.Header.index "Content-Type" =
      (if req.Method = "GET" then [] else ["application/json"]) ++
        customValues req.Header "Content-Type" := by
    rw [h7 "Content-Type"]
    by_cases hg : req.Method = "GET" <;> simp [hg]
  have hcanon : canonicalMIMEHeaderKey "Content-Type" = "Content-Type" := by decide
  refine ⟨by rw [h3, if_neg hm], fun hg => by rw [h6, if_pos hg],
    fun hg => ⟨body, hb, by rw [h6, if_neg hg]⟩, ?_, ?_, hct, ?_, ?_⟩
  · intro s hg hp
    rw [h6, if_neg hg]
    have : req.getBody = .ok (marshalStruct s ++ "\n") := by simp [Request.getBody, hp]
    rw [this] at hb
    cases hb; rfl
  · intro hg hp
    rw [h6, if_neg hg]
    have : req.getBody = .ok "" := by simp [Request.getBody, hp]
    rw [this] at hb
    cases hb; rfl
  · intro hg
    simp [Header.Get, hcanon, hct, hg]
  · intro hg hc
    rw [hct, hc, if_pos hg]; rfl

/-- C11, witness: the secrets-update request of `TestRequest` is built as a `PUT` request
whose body is the JSON encoding of the record and whose `Content-Type` reads
`application/json`; the same payload, all of whose fields are body-tagged, sent with `GET`
is built without body and without `Content-Type`. -/
theorem C11_body_iff_not_get_witness :
    (exampleSecretUpdateRequest.Method ≠ "" ∧
      prepareRequest {} (fun _ => true) exampleBackend exampleSecretUpdateRequest =
        ({ exampleSecretUpdateRequest with
            Path := "https://api.doppler.com/v3/configs/config/secrets" },
         .ok { Method := "PUT", URL := "https://api.doppler.com/v3/configs/config/secrets",
               Header := [("Content-Type", ["application/json"]),
                          ("Authorization", ["Basic ZmFrZS1rZXk6"]),
                          ("Accept", ["application/json"]),
                          ("User-Agent", ["doppler-go/0.2.0"])],
               Body := some ("\x7b\"project\":\"fake-project\",\"config\":\"fake-config\"," ++
                 "\"secrets\":\x7b\"fake-name\":\"fake-value\"\x7d\x7d\n") })) ∧
    (exampleGetWithBodyFields.Method ≠ "" ∧
      prepareRequest {} (fun _ => true) exampleBackend exampleGetWithBodyFields =
        ({ exampleGetWithBodyFields with
            Path := "https://api.doppler.com/v3/configs/config/secrets" },
         .ok { Method := "GET", URL := "https://api.doppler.com/v3/configs/config/secrets",
               Header := [("Authorization", ["Basic ZmFrZS1rZXk6"]),
                          ("Accept", ["application/json"]),
                          ("User-Agent", ["doppler-go/0.2.0"])],
               Body := none })) ∧
    ("\x7b\"project\":\"fake-project\",\"config\":\"fake-config\"," ++
        "\"secrets\":\x7b\"fake-name\":\"fake-value\"\x7d\x7d\n" =
      marshalStruct exampleSecretUpdateOptions.toStruct ++ "\n") :=
  ⟨⟨by decide, rfl⟩, ⟨by decide, rfl⟩,
   Option.some.inj
     ((C11_body_iff_not_get {} (fun _ => true) exampleBackend exampleSecretUpdateRequest _
        { Method := "PUT", URL := "https://api.doppler.com/v3/configs/config/secrets",
          Header := [("Content-Type", ["application/json"]),
                     ("Authorization", ["Basic ZmFrZS1rZXk6"]),
                     ("Accept", ["application/json"]),
                     ("User-Agent", ["doppler-go/0.2.0"])],
          Body := some ("\x7b\"project\":\"fake-project\",\"config\":\"fake-config\"," ++
            "\"secrets\":\x7b\"fake-name\":\"fake-value\"\x7d\x7d\n") }
        (by decide) rfl).2.2.2.1 _ (by decide) rfl)⟩

/-! ## C12 -/

/-- C12. Every HTTP request that `prepareRequest` builds reads, through `Header.Get`,
`Authorization` as `"Basic " ++ base64 (Key ++ ":")` (the key as user name, the empty
password), `Accept` as `application/json` and `User-Agent` as the composed user-agent
string of the process. -/
theorem C12_default_headers (g : Globals) (urlParses : String → Bool)
    (b : backendImplementation) (req req1 : Request) (httpReq : HTTPRequest)
    (h : prepareRequest g urlParses b req = (req1, .ok httpReq)) :
    httpReq.Header.Get "Authorization" = "Basic " ++ base64 (req.Key ++ ":") ∧
    httpReq.Header.Get "Accept" = "application/json" ∧
    httpReq.Header.Get "User-Agent" = g.encodedUserAgent := by
  obtain ⟨_, _, _, _, _, _, h7⟩ := prepareRequest_ok g urlParses b req req1 httpReq h
  obtain ⟨_, hA, hAc, hU⟩ := canonical_defaults
  refine ⟨?_, ?_, ?_⟩
  · simp [Header.Get, hA, h7 "Authorization"]
  · simp [Header.Get, hAc, h7 "Accept"]
  · simp [Header.Get, hU, h7 "User-Agent"]

/-- C12, witness: the workplace-get request with the key `fake-key` is built with
`Authorization: Basic ZmFrZS1rZXk6`, the base64 form of `fake-key:`. -/
theorem C12_default_headers_witness :
    prepareRequest {} (fun _ => true) exampleBackend exampleWorkplaceGetRequest =
      ({ exampleWorkplaceGetRequest with Path := "https://api.doppler.com/v3/workplace" },
       .ok { Method := "GET", URL := "https://api.doppler.com/v3/workplace",
             Header := [("Authorization", ["Basic ZmFrZS1rZXk6"]),
                        ("Accept", ["application/json"]),
                        ("User-Agent", ["doppler-go/0.2.0"])] }) ∧
    "Basic ZmFrZS1rZXk6" = "Basic " ++ base64 (exampleWorkplaceGetRequest.Key ++ ":") ∧
    "doppler-go/0.2.0" = ({} : Globals).encodedUserAgent :=
  have c := C12_default_headers {} (fun _ => true) exampleBackend exampleWorkplaceGetRequest _
    { Method := "GET", URL := "https://api.doppler.com/v3/workplace",
      Header := [("Authorization", ["Basic ZmFrZS1rZXk6"]),
                 ("Accept", ["application/json"]),
                 ("User-Agent", ["doppler-go/0.2.0"])] } rfl
  ⟨rfl, c.1, c.2.2⟩

/-! ## C13 -/

/-- C13 (code defect). A `POST` request whose own `Header` gives `Accept: text/plain`,
`User-Agent: my-agent`, `Content-Type: text/plain` and `Authorization: Bearer token` is
built with the per-request values appended behind the defaults, so `Header.Get` reads the
default for each of the four headers. -/
theorem C13_own_headers_do_not_override :
    isPayloadValid {} exampleOverridingRequest.Payload = none ∧
    (prepareRequest {} (fun _ => true) exampleBackend exampleOverridingRequest).2.toOption.map
        (fun r => (r.Header.Get "Accept", r.Header.Get "User-Agent",
                   r.Header.Get "Content-Type", r.Header.Get "Authorization")) =
      some ("application/json", "doppler-go/0.2.0", "application/json", "Basic ZmFrZS1rZXk6") ∧
    (prepareRequest {} (fun _ => true) exampleBackend exampleOverridingRequest).2.toOption.map
        (fun r => (r.Header.index "Accept", r.Header.index "User-Agent",
                   r.Header.index "Content-Type", r.Header.index "Authorization")) =
      some (["application/json", "text/plain"], ["doppler-go/0.2.0", "my-agent"],
            ["application/json", "text/plain"], ["Basic ZmFrZS1rZXk6", "Bearer token"]) := by
  decide

/-! ## The division of a URL -/

theorem cutChars_of_not_mem (sep : Char) (l : List Char) (h : sep ∉ l) :
    cutChars sep l = (l, [], false) := by
  induction l with
  | nil => rfl
  | cons c cs ih =>
    have hc : (c == sep) = false := by
      simp only [beq_eq_false_iff_ne, ne_eq]
      intro e; exact h (by simp [e])
    have hcs : sep ∉ cs := fun hm => h (List.mem_cons_of_mem _ hm)
    simp only [cutChars, hc, Bool.false_eq_true, if_false, ih hcs]

theorem urlSplit_clean (s : String) (hq : '?' ∉ s.data) (hf : '#' ∉ s.data) :
    urlSplit s = { text := s, RawQuery := "", ForceQuery := false, Fragment := "" } := by
  have hc : s.data.count '?' = 0 := List.count_eq_zero_of_not_mem hq
  simp only [urlSplit, cutChars_of_not_mem '#' s.data hf, hc, cutChars_of_not_mem '?' s.data hq]
  simp

/-! ## C14 -/

/-- C14 (counterexample). On the backend with the default base URL the request with the
path `/v3/workplace?x=1` and no payload is built with the URL text
`https://api.doppler.com/v3/workplace` and an empty query: the parser moves `x=1` into the
query, which `prepareRequest` then overwrites with the encoded (empty) parameters of the
payload. The URL requested is not `https://api.doppler.com/v3/workplace?x=1`, the string
that is left in the path of the `Request`. -/
theorem C14_query_in_path_dropped :
    (prepareRequest {} (fun _ => true) (GetBackendWithConfig exampleBackend.HTTPClient.Do {}).2
        { Method := "GET", Path := "/v3/workplace?x=1", Key := "fake-key" }).1.Path =
      "https://api.doppler.com/v3/workplace?x=1" ∧
    ((prepareRequest {} (fun _ => true) (GetBackendWithConfig exampleBackend.HTTPClient.Do {}).2
        { Method := "GET", Path := "/v3/workplace?x=1", Key := "fake-key" }).2.toOption.map
      (fun r => (r.URL, r.RawQuery, r.ForceQuery, r.Fragment))) =
      some ("https://api.doppler.com/v3/workplace", "", false, "") ∧
    (urlSplit "https://api.doppler.com/v3/workplace?x=1").RawQuery = "x=1" := by
  decide

/-- C14 (amended). For a backend built by `GetBackendWithConfig` from a configuration with
base URL `U` (the default API URL when the configuration has none) and a request with path
`p`, the string from which the request URL is parsed, and which is left in the path of the
`Request`, is `normalizeURL U` followed by `p`, with one `/` put in front of `p` when `p` does
not start with `/`. The request URL takes its scheme, host and path from that string up to
the first `?` or `#`, its fragment from what follows the first `#`, and its query from the
encoded query parameters of the payload, whatever query the string holds. For a string
without `?` and `#` the URL is the whole string. The request is the one that `call` hands to
the transport. -/
theorem C14_requested_url (transport : HTTPRequest → Except String HTTPResponse)
    (config : BackendConfig) (g : Globals) (urlParses : String → Bool)
    (req req1 : Request) (httpReq : HTTPRequest)
    (h : prepareRequest g urlParses (GetBackendWithConfig transport config).2 req =
      (req1, .ok httpReq)) :
    req1.Path = normalizeURL (config.URL.getD APIURL) ++
      (if hasPrefix req.Path "/" then req.Path else "/" ++ req.Path) ∧
    httpReq.URL = (urlSplit req1.Path).text ∧
    httpReq.ForceQuery = (urlSplit req1.Path).ForceQuery ∧
    httpReq.Fragment = (urlSplit req1.Path).Fragment ∧
    (∃ params, req.getQueryParameters = .ok params ∧ httpReq.RawQuery = valuesEncode params) ∧
    ('?' ∉ req1.Path.data → '#' ∉ req1.Path.data →
      httpReq.URL = normalizeURL (config.URL.getD APIURL) ++
        (if hasPrefix req.Path "/" then req.Path else "/" ++ req.Path) ∧
      httpReq.ForceQuery = false ∧ httpReq.Fragment = "") ∧
    (call g urlParses (GetBackendWithConfig transport config).2 req).sent = [httpReq] := by
  obtain ⟨_, h2, _, ⟨h4, h4f, h4g⟩, h5, _, _⟩ :=
    prepareRequest_ok g urlParses _ req req1 httpReq h
  have hU : (GetBackendWithConfig transport config).2.URL =
      normalizeURL (config.URL.getD APIURL) := by
    simp only [GetBackendWithConfig, newBackendImplementation]
    cases config.URL <;> rfl
  have hP : req1.Path = normalizeURL (config.URL.getD APIURL) ++
      (if hasPrefix req.Path "/" then req.Path else "/" ++ req.Path) := by
    rw [h2, hU]
  have hP2 : req1.Path = (GetBackendWithConfig transport config).2.URL ++
      (if hasPrefix req.Path "/" then req.Path else "/" ++ req.Path) := by
    rw [h2]
  refine ⟨hP, by rw [h4, hP2], by rw [h4f, hP2], by rw [h4g, hP2], h5, ?_, ?_⟩
  · intro hq hf
    have hs := urlSplit_clean req1.Path hq hf
    rw [hP2] at hs
    rw [h4, h4f, h4g, hs, ← hP2, hP]
    exact ⟨rfl, rfl, rfl⟩
  · simp only [call, h]

/-- C14, witness: the base URL `https://api.example.com/v3/` with the path `/v3/projects`
gives `https://api.example.com/v3/projects`, and so does the path `v3/projects`. -/
theorem C14_requested_url_witness :
    prepareRequest {} (fun _ => true)
        (GetBackendWithConfig exampleBackend.HTTPClient.Do
          { URL := some "https://api.example.com/v3/" }).2
        { Method := "GET", Path := "/v3/projects", Key := "fake-key" } =
      ({ Method := "GET", Path := "https://api.example.com/v3/projects", Key := "fake-key" },
       .ok { Method := "GET", URL := "https://api.example.com/v3/projects",
             Header := [("Authorization", ["Basic ZmFrZS1rZXk6"]),
                        ("Accept", ["application/json"]),
                        ("User-Agent", ["doppler-go/0.2.0"])] }) ∧
    "https://api.example.com/v3/projects" =
      normalizeURL ((some "https://api.example.com/v3/").getD APIURL) ++
        (if hasPrefix "/v3/projects" "/" then "/v3/projects" else "/" ++ "/v3/projects") ∧
    (prepareRequest {} (fun _ => true)
        (GetBackendWithConfig exampleBackend.HTTPClient.Do
          { URL := some "https://api.example.com/v3/" }).2
        { Method := "GET", Path := "v3/projects", Key := "fake-key" }).2.toOption.map
      (fun r => r.URL) = some "https://api.example.com/v3/projects" :=
  ⟨rfl,
   ((C14_requested_url exampleBackend.HTTPClient.Do
      { URL := some "https://api.example.com/v3/" }
      {} (fun _ => true) { Method := "GET", Path := "/v3/projects", Key := "fake-key" }
      { Method := "GET", Path := "https://api.example.com/v3/projects", Key := "fake-key" }
      { Method := "GET", URL := "https://api.example.com/v3/projects",
        Header := [("Authorization", ["Basic ZmFrZS1rZXk6"]),
                   ("Accept", ["application/json"]),
                   ("User-Agent", ["doppler-go/0.2.0"])] } rfl).2.2.2.2.2.1
      (by decide) (by decide)).1,
   by decide⟩

/-! ## Trimming suffixes -/

theorem hasPrefixChars_append (p r : List Char) : hasPrefixChars (p ++ r) p = true := by
  induction p with
  | nil => cases r <;> rfl
  | cons c cs ih => simp [hasPrefixChars, ih]

theorem hasPrefixChars_length (s p : List Char) (h : hasPrefixChars s p = true) :
    p.length ≤ s.length := by
  induction p generalizing s with
  | nil => simp
  | cons c cs ih =>
    cases s with
    | nil => simp [hasPrefixChars] at h
    | cons d ds =>
      simp only [hasPrefixChars, Bool.and_eq_true] at h
      have := ih ds h.2
      simp only [List.length_cons]
      omega

theorem trimSuffixChars_append (b suf : List Char) : trimSuffixChars (b ++ suf) suf = b := by
  have h : hasSuffixChars (b ++ suf) suf = true := by
    rw [hasSuffixChars, List.reverse_append]
    exact hasPrefixChars_append _ _
  simp [trimSuffixChars, h]

theorem trimSuffixChars_of_not (s suf : List Char) (h : hasSuffixChars s suf = false) :
    trimSuffixChars s suf = s := by
  simp [trimSuffixChars, h]

theorem trimSuffixChars_length_le (s suf : List Char) :
    (trimSuffixChars s suf).length ≤ s.length := by
  unfold trimSuffixChars
  split_ifs <;> simp

theorem trimSuffixChars_length_lt (s suf : List Char) (h : hasSuffixChars s suf = true)
    (hs : 0 < suf.length) : (trimSuffixChars s suf).length < s.length := by
  have hl : suf.length ≤ s.length := by
    have := hasPrefixChars_length _ _ h
    simpa using this
  simp only [trimSuffixChars, h, if_true, List.length_take]
  omega

theorem normalizeURL_data (url : String) :
    (normalizeURL url).data =
      trimSuffixChars (trimSuffixChars (trimSuffixChars url.data ['/']) ['/', 'v', '3'])
        ['/', 'v', '1'] := rfl

theorem normalizeURL_fixed_iff (v : String) :
    normalizeURL v = v ↔
      (hasSuffix v "/" = false ∧ hasSuffix v "/v3" = false ∧ hasSuffix v "/v1" = false) := by
  constructor
  · intro h
    have hd : (normalizeURL v).data = v.data := by rw [h]
    rw [normalizeURL_data] at hd
    have hlen := congrArg List.length hd
    have l1 := trimSuffixChars_length_le v.data ['/']
    have l2 := trimSuffixChars_length_le (trimSuffixChars v.data ['/']) ['/', 'v', '3']
    have l3 := trimSuffixChars_length_le
      (trimSuffixChars (trimSuffixChars v.data ['/']) ['/', 'v', '3']) ['/', 'v', '1']
    have h1 : hasSuffixChars v.data ['/'] = false := by
      by_contra hc
      have := trimSuffixChars_length_lt v.data ['/'] (by simpa using hc) (by simp)
      omega
    rw [trimSuffixChars_of_not _ _ h1] at hd hlen l2 l3
    have h2 : hasSuffixChars v.data ['/', 'v', '3'] = false := by
      by_contra hc
      have := trimSuffixChars_length_lt v.data ['/', 'v', '3'] (by simpa using hc) (by simp)
      omega
    rw [trimSuffixChars_of_not _ _ h2] at hd hlen l3
    have h3 : hasSuffixChars v.data ['/', 'v', '1'] = false := by
      by_contra hc
      have := trimSuffixChars_length_lt v.data ['/', 'v', '1'] (by simpa using hc) (by simp)
      omega
    exact ⟨h1, h2, h3⟩
  · rintro ⟨h1, h2, h3⟩
    have h1c : hasSuffixChars v.data ['/'] = false := h1
    have h2c : hasSuffixChars v.data ['/', 'v', '3'] = false := h2
    have h3c : hasSuffixChars v.data ['/', 'v', '1'] = false := h3
    apply String.ext
    rw [normalizeURL_data, trimSuffixChars_of_not _ _ h1c, trimSuffixChars_of_not _ _ h2c,
      trimSuffixChars_of_not _ _ h3c]

/-! ## C15 -/

/-- C15 (counterexample). The base URL `https://api.doppler.com//` is normalized to
`https://api.doppler.com/`, which normalizes further to `https://api.doppler.com`; the
same happens to `https://api.doppler.com/v3/v3` and `https://api.doppler.com/v3/v1`. -/
theorem C15_normalizeURL_not_idempotent :
    normalizeURL "https://api.doppler.com//" = "https://api.doppler.com/" ∧
    normalizeURL (normalizeURL "https://api.doppler.com//") = "https://api.doppler.com" ∧
    normalizeURL (normalizeURL "https://api.doppler.com//") ≠
      normalizeURL "https://api.doppler.com//" ∧
    normalizeURL "https://api.doppler.com/v3/v3" = "https://api.doppler.com/v3" ∧
    normalizeURL (normalizeURL "https://api.doppler.com/v3/v3") = "https://api.doppler.com" ∧
    normalizeURL "https://api.doppler.com/v3/v1" = "https://api.doppler.com/v3" ∧
    normalizeURL (normalizeURL "https://api.doppler.com/v3/v1") = "https://api.doppler.com" := by
  decide

/-- C15 (amended). A string is left as it is by `normalizeURL` exactly when it ends in none
of `/`, `/v3` and `/v1`; hence normalizing `U` twice equals normalizing it once exactly when
`normalizeURL U` ends in none of the three. -/
theorem C15_normalizeURL_idempotent_iff (U : String) :
    (normalizeURL (normalizeURL U) = normalizeURL U ↔
      (hasSuffix (normalizeURL U) "/" = false ∧ hasSuffix (normalizeURL U) "/v3" = false ∧
        hasSuffix (normalizeURL U) "/v1" = false)) ∧
    (normalizeURL U = U ↔
      (hasSuffix U "/" = false ∧ hasSuffix U "/v3" = false ∧ hasSuffix U "/v1" = false)) :=
  ⟨normalizeURL_fixed_iff (normalizeURL U), normalizeURL_fixed_iff U⟩

/-! ## C16 -/

theorem hasSuffixChars_snoc_ne (b : List Char) (pre : List Char) (c d : Char) (rest : List Char)
    (h : c ≠ d) : hasSuffixChars (b ++ pre ++ [c]) (rest ++ [d]) = false := by
  have hb : (c == d) = false := by simpa using h
  simp [hasSuffixChars, List.reverse_append, hasPrefixChars, hb]

theorem normalizeURL_append_chars (b : List Char)
    (h1 : hasSuffixChars b ['/'] = false) (h2 : hasSuffixChars b ['/', 'v', '3'] = false)
    (h3 : hasSuffixChars b ['/', 'v', '1'] = false) (s : List Char)
    (hs : s ∈ [[], ['/'], ['/', 'v', '1'], ['/', 'v', '1', '/'], ['/', 'v', '3'],
               ['/', 'v', '3', '/']]) :
    trimSuffixChars (trimSuffixChars (trimSuffixChars (b ++ s) ['/']) ['/', 'v', '3'])
      ['/', 'v', '1'] = b := by
  have e1 : hasSuffixChars (b ++ ['/', 'v', '1']) ['/'] = false := by
    simpa using hasSuffixChars_snoc_ne b ['/', 'v'] '1' '/' [] (by decide)
  have e2 : hasSuffixChars (b ++ ['/', 'v', '1']) ['/', 'v', '3'] = false := by
    simpa using hasSuffixChars_snoc_ne b ['/', 'v'] '1' '3' ['/', 'v'] (by decide)
  have e3 : hasSuffixChars (b ++ ['/', 'v', '3']) ['/'] = false := by
    simpa using hasSuffixChars_snoc_ne b ['/', 'v'] '3' '/' [] (by decide)
  have a1 : b ++ ['/', 'v', '1', '/'] = (b ++ ['/', 'v', '1']) ++ ['/'] := by simp
  have a3 : b ++ ['/', 'v', '3', '/'] = (b ++ ['/', 'v', '3']) ++ ['/'] := by simp
  simp only [List.mem_cons, List.mem_singleton, List.not_mem_nil, or_false] at hs
  rcases hs with rfl | rfl | rfl | rfl | rfl | rfl
  · rw [List.append_nil, trimSuffixChars_of_not _ _ h1, trimSuffixChars_of_not _ _ h2,
      trimSuffixChars_of_not _ _ h3]
  · rw [trimSuffixChars_append, trimSuffixChars_of_not _ _ h2, trimSuffixChars_of_not _ _ h3]
  · rw [trimSuffixChars_of_not _ _ e1, trimSuffixChars_of_not _ _ e2, trimSuffixChars_append]
  · rw [a1, trimSuffixChars_append, trimSuffixChars_of_not _ _ e2, trimSuffixChars_append]
  · rw [trimSuffixChars_of_not _ _ e3, trimSuffixChars_append, trimSuffixChars_of_not _ _ h3]
  · rw [a3, trimSuffixChars_append, trimSuffixChars_append, trimSuffixChars_of_not _ _ h3]

/-- C16. For every string `B` that ends in none of `/`, `/v3` and `/v1` (the empty string
is one) and every `s` among `""`, `/`, `/v1`, `/v1/`, `/v3`, `/v3/`, `normalizeURL (B ++ s)`
is `B`. -/
theorem C16_normalizeURL_strips_suffix (B s : String)
    (h1 : hasSuffix B "/" = false) (h2 : hasSuffix B "/v3" = false)
    (h3 : hasSuffix B "/v1" = false)
    (hs : s ∈ ["", "/", "/v1", "/v1/", "/v3", "/v3/"]) :
    normalizeURL (B ++ s) = B := by
  apply String.ext
  rw [normalizeURL_data, String.data_append]
  apply normalizeURL_append_chars B.data h1 h2 h3
  simp only [List.mem_cons, List.mem_singleton, List.not_mem_nil, or_false] at hs ⊢
  rcases hs with rfl | rfl | rfl | rfl | rfl | rfl <;> simp

/-- C16, witness: the six spellings of the default API URL, and of the empty base URL, all
normalize to it. -/
theorem C16_normalizeURL_strips_suffix_witness :
    (hasSuffix "https://api.doppler.com" "/" = false ∧
      hasSuffix "https://api.doppler.com" "/v3" = false ∧
      hasSuffix "https://api.doppler.com" "/v1" = false ∧
      "/v3/" ∈ ["", "/", "/v1", "/v1/", "/v3", "/v3/"]) ∧
    normalizeURL ("https://api.doppler.com" ++ "/v3/") = "https://api.doppler.com" ∧
    normalizeURL ("" ++ "/v1") = "" ∧
    (["", "/", "/v1", "/v1/", "/v3", "/v3/"].map
        (fun s => normalizeURL ("https://api.doppler.com" ++ s))) =
      List.replicate 6 "https://api.doppler.com" ∧
    (["", "/", "/v1", "/v1/", "/v3", "/v3/"].map (fun s => normalizeURL ("" ++ s))) =
      List.replicate 6 "" :=
  ⟨⟨by decide, by decide, by decide, by decide⟩,
   C16_normalizeURL_strips_suffix "https://api.doppler.com" "/v3/" (by decide) (by decide)
     (by decide) (by decide),
   C16_normalizeURL_strips_suffix "" "/v1" (by decide) (by decide) (by decide) (by decide),
   by decide, by decide⟩

/-! ## C17 -/

/-- C17. `APIResponse.WithDetails` leaves the envelope as it is on a nil response; on a
response with a header map it sets `Status` and `StatusCode` to those of the response,
`Header` to the header map, `RequestID` to the value of `X-Request-Id` and `RateLimit` to
what `extractRateLimitFromHeader` returns for the map, and changes nothing else; on a
response without header map it sets `Status` and `StatusCode` only; on no input does it
change `Success`, `Messages` or `Page`. The response of `TestAPIResponse` gives the status
`200 OK`, the rate limit 100 / 50 / `time.Unix(1234567890, 0)` and the request id
`1234567890`. -/
theorem C17_with_details (r : APIResponse) (st : String) (code : Int) (h : Header)
    (len : Int) (body : String) :
    r.WithDetails none = r ∧
    r.WithDetails (some ⟨st, code, some h, len, body⟩) =
      { r with Status := st, StatusCode := code, Header := some h,
               RequestID := h.Get headerXRequestID,
               RateLimit := extractRateLimitFromHeader h } ∧
    r.WithDetails (some ⟨st, code, none, len, body⟩) =
      { r with Status := st, StatusCode := code } ∧
    (∀ resp, (r.WithDetails resp).Success = r.Success ∧
      (r.WithDetails resp).Messages = r.Messages ∧ (r.WithDetails resp).Page = r.Page) ∧
    ({} : APIResponse).WithDetails
        (some ⟨"200 OK", 200,
          some (rateLimitHeader "100" "50" "1234567890" ++ [("X-Request-Id", ["1234567890"])]),
          0, ""⟩) =
      { Header :=
          some (rateLimitHeader "100" "50" "1234567890" ++ [("X-Request-Id", ["1234567890"])]),
        RequestID := "1234567890",
        RateLimit := some { Limit := 100, Remaining := 50, Reset := timeUnix 1234567890 },
        Status := "200 OK", StatusCode := 200 } := by
  refine ⟨rfl, rfl, rfl, ?_, by decide⟩
  intro resp
  cases resp with
  | none => exact ⟨rfl, rfl, rfl⟩
  | some resp =>
    obtain ⟨s, c, hd, l, bd⟩ := resp
    cases hd <;> exact ⟨rfl, rfl, rfl⟩

/-! ## C18 -/

/-- C18 (counterexample). A `204 No Content` with the header `X-Request-Id: req-1` and a
content length of zero: `Call` returns a nil error and the zero-valued target as it was, with
empty `Status`, zero `StatusCode`, nil `Header` and empty `RequestID`, whereas binding the
response to the envelope would have set all four. -/
theorem C18_zero_length_envelope_not_populated :
    (Call (envelopeResponse fun _ => none) {} (fun _ => true) (backendAnswering exampleNoContent)
        exampleWorkplaceGetRequest (some {})).result.err = none ∧
    (Call (envelopeResponse fun _ => none) {} (fun _ => true) (backendAnswering exampleNoContent)
        exampleWorkplaceGetRequest (some {})).result.target = some {} ∧
    (Call (envelopeResponse fun _ => none) {} (fun _ => true) (backendAnswering exampleNoContent)
        exampleWorkplaceGetRequest (some {})).sent.length = 1 ∧
    ({} : APIResponse).WithDetails (some exampleNoContent) =
      { Header := some [("X-Request-Id", ["req-1"])], RequestID := "req-1",
        Status := "204 No Content", StatusCode := 204 } := by
  decide

/-- C18 (amended). When the transport answers with a response whose content length is
zero, `Call` decodes nothing, returns a nil error and returns the typed target exactly as it
was passed: the response is not bound to the envelope. -/
theorem C18_zero_content_length {T : Type} (R : ResponseType T) (g : Globals)
    (urlParses : String → Bool) (b : backendImplementation) (req : Request) (resp : Option T)
    (httpResp : HTTPResponse)
    (hcall : (call g urlParses b req).result = .ok httpResp)
    (hlen : httpResp.ContentLength = 0) :
    (Call R g urlParses b req resp).result.err = none ∧
    (Call R g urlParses b req resp).result.target = resp ∧
    (Call R g urlParses b req resp).sent = (call g urlParses b req).sent := by
  simp [Call, hcall, hlen]

/-- C18, witness: the `204 No Content` of content length zero. -/
theorem C18_zero_content_length_witness :
    ((call {} (fun _ => true) (backendAnswering exampleNoContent)
        exampleWorkplaceGetRequest).result = .ok exampleNoContent ∧
      exampleNoContent.ContentLength = 0) ∧
    (Call (secretUpdateResponse fun _ => none) {} (fun _ => true)
        (backendAnswering exampleNoContent) exampleWorkplaceGetRequest
        (some { Secrets := some [("name", "value")] })).result.target =
      some { Secrets := some [("name", "value")] } :=
  ⟨⟨rfl, rfl⟩,
   (C18_zero_content_length (secretUpdateResponse fun _ => none) {} (fun _ => true)
      (backendAnswering exampleNoContent) exampleWorkplaceGetRequest
      (some { Secrets := some [("name", "value")] }) exampleNoContent rfl rfl).2.1⟩

/-! ## C19 -/

/-- C19 (code defect). When the body of a JSON response fails to decode into the target,
`Call` returns the decoding error wrapped in `decode response body` at once, and the target
as the decoder left it: the messages of the envelope take no part in the error. -/
theorem C19_decode_error_returned_alone {T : Type} (R : ResponseType T) (g : Globals)
    (urlParses : String → Bool) (b : backendImplementation) (req : Request) (t0 t1 : T)
    (e : String) (httpResp : HTTPResponse)
    (hcall : (call g urlParses b req).result = .ok httpResp)
    (hlen : httpResp.ContentLength ≠ 0)
    (hct : hasPrefix ((httpResp.Header.getD []).Get "Content-Type") "application/json" = true)
    (hdec : R.decode httpResp.Body
      (R.withEnvelope t0 ((R.envelope t0).WithDetails (some httpResp))) = (t1, some e)) :
    (Call R g urlParses b req (some t0)).result.err = some ("decode response body: " ++ e) ∧
    (Call R g urlParses b req (some t0)).result.target = some t1 := by
  have h0 : (httpResp.ContentLength == 0) = false := by simpa using hlen
  simp [Call, hcall, hct, hdec, h0, errorsWrap]

/-- C19, failing input: a `200 OK` with the body
`{"messages":["bad config"],"status_code":"oops"}`. The decoder stores the message and
reports the type mismatch; the error of `Call` is the wrapped decoding error and does not
contain `bad config`. -/
theorem C19_decode_error_returned_alone_witness :
    ((call {} (fun _ => true) (backendAnswering exampleUndecodable)
        exampleWorkplaceGetRequest).result = .ok exampleUndecodable ∧
      exampleUndecodable.ContentLength ≠ 0 ∧
      hasPrefix ((exampleUndecodable.Header.getD []).Get "Content-Type") "application/json" = true ∧
      (envelopeResponse fun _ => none).decode exampleUndecodable.Body
        (({} : APIResponse).WithDetails (some exampleUndecodable)) =
        ({ Header := some [("Content-Type", ["application/json"])], Status := "200 OK",
           StatusCode := 200, Messages := ["bad config"] },
         some "json: cannot unmarshal into Go value of type int")) ∧
    (Call (envelopeResponse fun _ => none) {} (fun _ => true)
        (backendAnswering exampleUndecodable) exampleWorkplaceGetRequest (some {})).result.err =
      some "decode response body: json: cannot unmarshal into Go value of type int" ∧
    stringsContains "decode response body: json: cannot unmarshal into Go value of type int"
      "bad config" = false ∧
    (({ Header := some [("Content-Type", ["application/json"])], Status := "200 OK",
        StatusCode := 200, Messages := ["bad config"] } : APIResponse).Error) =
      some "bad config" :=
  ⟨⟨rfl, by decide, by decide, by decide⟩,
   (C19_decode_error_returned_alone (envelopeResponse fun _ => none) {} (fun _ => true)
      (backendAnswering exampleUndecodable) exampleWorkplaceGetRequest {}
      { Header := some [("Content-Type", ["application/json"])], Status := "200 OK",
        StatusCode := 200, Messages := ["bad config"] }
      "json: cannot unmarshal into Go value of type int"
      exampleUndecodable rfl (by decide) (by decide) (by decide)).1.trans (by decide),
   by decide, by decide⟩

/-! ## C20 -/

/-- C20. When the transport answers with a response of non-zero content length (as every
response with a non-empty body has) whose `Content-Type` does not begin with
`application/json`, and the target carries no messages (as a zero-valued target does),
`Call` returns a nil error and the target with the response bound to its envelope and
nothing else changed: the domain fields are those of the target passed, `Success`,
`Messages` and `Page` are as before, and the result is the same whatever the body holds. -/
theorem C20_non_json_body_not_read {T : Type} (R : ResponseType T) (g : Globals)
    (urlParses : String → Bool) (b : backendImplementation) (req : Request) (t0 : T)
    (httpResp : HTTPResponse)
    (hlens : ∀ t e, R.envelope (R.withEnvelope t e) = e)
    (hcall : (call g urlParses b req).result = .ok httpResp)
    (hlen : httpResp.ContentLength ≠ 0)
    (hct : hasPrefix ((httpResp.Header.getD []).Get "Content-Type") "application/json" = false)
    (hmsg : (R.envelope t0).Messages = []) :
    (Call R g urlParses b req (some t0)).result.err = none ∧
    (Call R g urlParses b req (some t0)).result.target =
      some (R.withEnvelope t0 ((R.envelope t0).WithDetails (some httpResp))) ∧
    (R.envelope t0).WithDetails (some httpResp) =
      (R.envelope t0).WithDetails (some { httpResp with Body := "" }) ∧
    ((R.envelope t0).WithDetails (some httpResp)).Status = httpResp.Status ∧
    ((R.envelope t0).WithDetails (some httpResp)).StatusCode = httpResp.StatusCode ∧
    (∀ h, httpResp.Header = some h →
      ((R.envelope t0).WithDetails (some httpResp)).Header = some h ∧
      ((R.envelope t0).WithDetails (some httpResp)).RequestID = h.Get headerXRequestID ∧
      ((R.envelope t0).WithDetails (some httpResp)).RateLimit = extractRateLimitFromHeader h) ∧
    ((R.envelope t0).WithDetails (some httpResp)).Success = (R.envelope t0).Success ∧
    ((R.envelope t0).WithDetails (some httpResp)).Messages = [] ∧
    ((R.envelope t0).WithDetails (some httpResp)).Page = (R.envelope t0).Page := by
  have hM : ((R.envelope t0).WithDetails (some httpResp)).Messages = [] := by
    rw [← hmsg]
    obtain ⟨s, c, hd, l, bd⟩ := httpResp
    cases hd <;> rfl
  have h0 : (httpResp.ContentLength == 0) = false := by simpa using hlen
  have hE : (R.envelope (R.withEnvelope t0 ((R.envelope t0).WithDetails (some httpResp)))).Error
      = none := by
    rw [hlens]
    simp [APIResponse.Error, hM]
  refine ⟨?_, ?_, ?_, ?_, ?_, ?_, ?_, hM, ?_⟩
  · simp only [Call, hcall, hct, h0, Option.isNone_some, Bool.or_self, Bool.false_eq_true,
      if_false, hE]
  · simp only [Call, hcall, hct, h0, Option.isNone_some, Bool.or_self, Bool.false_eq_true,
      if_false, hE]
  all_goals
    obtain ⟨s, c, hd, l, bd⟩ := httpResp
    cases hd
  all_goals first
    | rfl
    | (intro h hh; cases hh; exact ⟨rfl, rfl, rfl⟩)
    | (intro h hh; cases hh)

/-- C20, witness: a `200 OK` with `Content-Type: text/plain` whose body is the text
`{"success":true,"page":2,"secrets":{"name":"value"}}`. A decoder would read the success
flag, the page and the secrets from it; `Call` returns the zero `SecretUpdateResponse` with
the status line, the header map and the request id bound, and a nil error. -/
theorem C20_non_json_body_not_read_witness :
    ((∀ t e, (secretUpdateResponse fun _ => none).envelope
        ((secretUpdateResponse fun _ => none).withEnvelope t e) = e) ∧
      (call {} (fun _ => true) (backendAnswering examplePlainText)
        exampleWorkplaceGetRequest).result = .ok examplePlainText ∧
      examplePlainText.ContentLength ≠ 0 ∧
      hasPrefix ((examplePlainText.Header.getD []).Get "Content-Type") "application/json" = false ∧
      ((secretUpdateResponse fun _ => none).envelope {}).Messages = []) ∧
    (Call (secretUpdateResponse fun _ => none) {} (fun _ => true)
        (backendAnswering examplePlainText) exampleWorkplaceGetRequest (some {})).result.target =
      some { APIResponse :=
               { Header := some [("Content-Type", ["text/plain"]), ("X-Request-Id", ["req-2"])],
                 RequestID := "req-2", Status := "200 OK", StatusCode := 200 },
             Secrets := none } ∧
    (Call (secretUpdateResponse fun _ => none) {} (fun _ => true)
        (backendAnswering examplePlainText) exampleWorkplaceGetRequest (some {})).result.err =
      none ∧
    (secretUpdateResponse fun _ => none).decode examplePlainText.Body {} =
      ({ APIResponse := { Success := some true, Page := some 2 },
         Secrets := some [("name", "value")] }, none) :=
  have c := C20_non_json_body_not_read (secretUpdateResponse fun _ => none) {} (fun _ => true)
    (backendAnswering examplePlainText) exampleWorkplaceGetRequest {} examplePlainText
    (fun _ _ => rfl) rfl (by decide) (by decide) rfl
  ⟨⟨fun _ _ => rfl, rfl, by decide, by decide, rfl⟩, c.2.1.trans (by decide), c.1, by decide⟩

/-! ## The composed user-agent -/

theorem formatUserAgent_eq (a : AppInfo) :
    a.formatUserAgent =
      a.Name ++ (if a.Version = "" then "" else "/" ++ a.Version) ++
        (if a.URL = "" then "" else " (" ++ a.URL ++ ")") := by
  unfold AppInfo.formatUserAgent
  by_cases hv : a.Version = "" <;> by_cases hu : a.URL = "" <;>
    simp [hv, hu, String.append_assoc]

theorem initUserAgent_eq (g : Globals) :
    initUserAgent g =
      { EnableValidation := g.EnableValidation, Key := g.Key, appInfo := g.appInfo,
        encodedUserAgent :=
          match g.appInfo with
          | none => "doppler-go/0.2.0"
          | some i =>
            "doppler-go/0.2.0 " ++ i.Name ++ (if i.Version = "" then "" else "/" ++ i.Version) ++
              (if i.URL = "" then "" else " (" ++ i.URL ++ ")") } := by
  unfold initUserAgent
  cases h : g.appInfo with
  | none =>
    simp only [h]
    rfl
  | some i =>
    simp only [h, formatUserAgent_eq]
    have e : "doppler-go/" ++ SDKVersion ++ " " = "doppler-go/0.2.0 " := by decide
    have e2 : ∀ x : String, "doppler-go/" ++ SDKVersion ++ (" " ++ x) = "doppler-go/0.2.0 " ++ x := by
      intro x
      rw [← String.append_assoc, e]
    rw [e2]
    simp only [String.append_assoc]

/-! ## C21 -/

/-- C21. `SetAppInfo` panics exactly when it is passed a record whose `Name` is empty,
whatever its `Version` and `URL`; a nil record is accepted. When it panics the process-wide
variables are left as they were; when it does not, the stored app-info is the argument, the
user-agent is recomposed from it, whatever it was before (`doppler-go/0.2.0` for a nil
record, and for a record that followed by a space, the name, `/` and the version when there
is a version, and the URL in parentheses behind a space when there is a URL), and `Key` and
`EnableValidation` are left as they were. The four records of `TestSetAppInfo` behave as the
test expects. -/
theorem C21_set_app_info (g : Globals) (info : Option AppInfo) :
    (((SetAppInfo g info).2).isSome ↔ ∃ i, info = some i ∧ i.Name = "") ∧
    (((SetAppInfo g info).2).isSome → (SetAppInfo g info).1 = g) ∧
    ((SetAppInfo g info).2 = none →
      (SetAppInfo g info).1.appInfo = info ∧
      (SetAppInfo g info).1 = initUserAgent { g with appInfo := info } ∧
      (SetAppInfo g info).1.Key = g.Key ∧
      (SetAppInfo g info).1.EnableValidation = g.EnableValidation) ∧
    (SetAppInfo g (some { Name := "doppler", Version := "0.1.0" })).2 = none ∧
    (SetAppInfo g (some { Name := "doppler", Version := "" })).2 = none ∧
    ((SetAppInfo g (some { Name := "", Version := "0.1.0" })).2).isSome ∧
    ((SetAppInfo g (some { Name := "", Version := "" })).2).isSome ∧
    (SetAppInfo g none).2 = none ∧
    ((SetAppInfo g info).2 = none →
      (SetAppInfo g info).1 =
        { EnableValidation := g.EnableValidation, Key := g.Key, appInfo := info,
          encodedUserAgent :=
            match info with
            | none => "doppler-go/0.2.0"
            | some i =>
              "doppler-go/0.2.0 " ++ i.Name ++
                (if i.Version = "" then "" else "/" ++ i.Version) ++
                (if i.URL = "" then "" else " (" ++ i.URL ++ ")") }) ∧
    (SetAppInfo g (some { Name := "doppler", Version := "0.1.0" })).1.encodedUserAgent =
      "doppler-go/0.2.0 doppler/0.1.0" ∧
    (SetAppInfo g (some { Name := "doppler", Version := "" })).1.encodedUserAgent =
      "doppler-go/0.2.0 doppler" ∧
    (SetAppInfo g (some { Name := "", Version := "0.1.0" })).1.encodedUserAgent =
      g.encodedUserAgent ∧
    (SetAppInfo g none).1.encodedUserAgent = "doppler-go/0.2.0" ∧
    (SetAppInfo (SetAppInfo g (some { Name := "doppler", Version := "0.1.0" })).1
      (some { Name := "my-app", URL := "https://example.com" })).1.encodedUserAgent =
      "doppler-go/0.2.0 my-app (https://example.com)" := by
  have hinit : ∀ g0 : Globals, (initUserAgent g0).appInfo = g0.appInfo ∧
      (initUserAgent g0).Key = g0.Key ∧
      (initUserAgent g0).EnableValidation = g0.EnableValidation := by
    intro g0
    unfold initUserAgent
    cases g0.appInfo <;> exact ⟨rfl, rfl, rfl⟩
  refine ⟨?_, ?_, ?_, rfl, rfl, rfl, rfl, rfl, ?_, ?_, ?_, rfl, ?_, ?_⟩
  · cases info with
    | none => simp [SetAppInfo]
    | some i =>
      by_cases h : i.Name = "" <;> simp [SetAppInfo, h]
  · cases info with
    | none => simp [SetAppInfo]
    | some i =>
      by_cases h : i.Name = "" <;> simp [SetAppInfo, h]
  · cases info with
    | none =>
      intro _
      exact ⟨(hinit _).1, rfl, (hinit _).2.1, (hinit _).2.2⟩
    | some i =>
      by_cases h : i.Name = ""
      · simp [SetAppInfo, h]
      · intro _
        have hs : SetAppInfo g (some i) = (initUserAgent { g with appInfo := some i }, none) := by
          simp [SetAppInfo, h]
        rw [hs]
        exact ⟨(hinit _).1, rfl, (hinit _).2.1, (hinit _).2.2⟩
  · cases info with
    | none =>
      intro _
      show initUserAgent { g with appInfo := none } = _
      rw [initUserAgent_eq]
    | some i =>
      by_cases h : i.Name = ""
      · simp [SetAppInfo, h]
      · intro _
        have hs : SetAppInfo g (some i) = (initUserAgent { g with appInfo := some i }, none) := by
          simp [SetAppInfo, h]
        rw [hs, initUserAgent_eq]
  · show (initUserAgent _).encodedUserAgent = _
    rw [initUserAgent_eq]
    rfl
  · show (initUserAgent _).encodedUserAgent = _
    rw [initUserAgent_eq]
    rfl
  · show (initUserAgent _).encodedUserAgent = _
    rw [initUserAgent_eq]
  · show (initUserAgent _).encodedUserAgent = _
    rw [initUserAgent_eq]
    rfl

/-! ## C22 -/

/-- C22. `formatUserAgent` returns the name, followed by `/` and the version when the
version is not empty, followed by the URL in parentheses behind a space when the URL is not
empty. When `SetAppInfo` returns, the composed user-agent is `doppler-go/` followed by
`SDKVersion` for a nil record, and that followed by a space and `formatUserAgent` of the
record otherwise. The three records of `TestAppInfo_formatUserAgent` give `doppler/0.1.0
(https://example.com)`, `doppler/0.1.0` and `doppler`. -/
theorem C22_user_agent (a : AppInfo) (g : Globals) :
    a.formatUserAgent =
      a.Name ++ (if a.Version = "" then "" else "/" ++ a.Version) ++
        (if a.URL = "" then "" else " (" ++ a.URL ++ ")") ∧
    (SetAppInfo g none).1.encodedUserAgent = "doppler-go/" ++ SDKVersion ∧
    ((SetAppInfo g (some a)).2 = none →
      (SetAppInfo g (some a)).1.encodedUserAgent =
        "doppler-go/" ++ SDKVersion ++ " " ++ a.formatUserAgent) ∧
    (a.Name ≠ "" → (SetAppInfo g (some a)).2 = none) ∧
    AppInfo.formatUserAgent { Name := "doppler", Version := "0.1.0", URL := "https://example.com" } =
      "doppler/0.1.0 (https://example.com)" ∧
    AppInfo.formatUserAgent { Name := "doppler", Version := "0.1.0" } = "doppler/0.1.0" ∧
    AppInfo.formatUserAgent { Name := "doppler" } = "doppler" ∧
    (SetAppInfo {} (some { Name := "doppler", Version := "0.1.0", URL := "https://example.com" })).1.encodedUserAgent =
      "doppler-go/0.2.0 doppler/0.1.0 (https://example.com)" := by
  refine ⟨?_, rfl, ?_, ?_, by decide, by decide, by decide, by decide⟩
  · unfold AppInfo.formatUserAgent
    by_cases hv : a.Version = "" <;> by_cases hu : a.URL = "" <;>
      simp [hv, hu, String.append_assoc]
  · by_cases h : a.Name = ""
    · simp [SetAppInfo, h]
    · intro _
      simp [SetAppInfo, h, initUserAgent, String.append_assoc]
  · intro h
    simp [SetAppInfo, h]

/-! ## C23 -/

/-- C23. The backend that `GetBackendWithConfig` and `newBackendImplementation` build from
a configuration uses the client of the configuration when it has one and otherwise the
default client, whose timeout is 60 seconds; it uses the logger of the configuration when
it has one and otherwise the no-op logger; its base URL is `normalizeURL` of the URL of the
configuration when it has one and otherwise `https://api.doppler.com`. The nil fields of
the configuration are filled in with the same values. `GetBackend` returns the backend
with the default client, the default URL and the no-op logger. -/
theorem C23_backend_defaults (transport : HTTPRequest → Except String HTTPResponse)
    (c : BackendConfig) :
    GetBackendWithConfig transport c = newBackendImplementation transport c ∧
    (GetBackendWithConfig transport c).2.HTTPClient = c.Client.getD (defaultClient transport) ∧
    (defaultClient transport).Timeout = 60 * 1000000000 ∧
    (defaultClient transport).Do = transport ∧
    (GetBackendWithConfig transport c).2.Logger = c.Logger.getD Logger.nop ∧
    (GetBackendWithConfig transport c).2.URL =
      (match c.URL with
       | some u => normalizeURL u
       | none => "https://api.doppler.com") ∧
    (GetBackendWithConfig transport c).1 =
      { Client := some (c.Client.getD (defaultClient transport)),
        URL := some (GetBackendWithConfig transport c).2.URL,
        Logger := some (c.Logger.getD Logger.nop) } ∧
    GetBackend transport =
      { HTTPClient := defaultClient transport, URL := "https://api.doppler.com",
        Logger := Logger.nop } ∧
    GetBackend transport = (GetBackendWithConfig transport {}).2 := by
  have hA : normalizeURL APIURL = "https://api.doppler.com" := by decide
  refine ⟨rfl, ?_, rfl, rfl, ?_, ?_, ?_, ?_, ?_⟩
  · simp only [GetBackendWithConfig, newBackendImplementation]
    cases c.Client <;> rfl
  · simp only [GetBackendWithConfig, newBackendImplementation]
    cases c.Logger <;> rfl
  · simp only [GetBackendWithConfig, newBackendImplementation]
    cases c.URL
    · exact hA
    · rfl
  · simp only [GetBackendWithConfig, newBackendImplementation]
    cases c.Client <;> cases c.Logger <;> cases c.URL <;> rfl
  · simp only [GetBackend, GetBackendWithConfig, newBackendImplementation, hA]
  · simp only [GetBackend, GetBackendWithConfig, newBackendImplementation]

/-! ## C24 -/

/-- C24 (code defect). A configuration without URL gives a backend with the base URL
`https://api.doppler.com`; a configuration whose URL points to the empty string gives a
backend with the empty base URL, because only the nil pointer is replaced by the default
and `normalizeURL` leaves the empty string as it is. The same holds of `/`, `/v3` and
`/v1`. -/
theorem C24_empty_url_not_defaulted (transport : HTTPRequest → Except String HTTPResponse) :
    (GetBackendWithConfig transport { URL := none }).2.URL = "https://api.doppler.com" ∧
    (GetBackendWithConfig transport { URL := some "" }).2.URL = "" ∧
    (GetBackendWithConfig transport { URL := some "" }).2.URL ≠ APIURL ∧
    (GetBackendWithConfig transport { URL := some "" }).1.URL = some "" ∧
    (GetBackendWithConfig transport { URL := some "/" }).2.URL = "" ∧
    (GetBackendWithConfig transport { URL := some "/v3" }).2.URL = "" ∧
    (GetBackendWithConfig transport { URL := some "/v1" }).2.URL = "" := by
  have h0 : normalizeURL "" = "" := by decide
  have h1 : normalizeURL "/" = "" := by decide
  have h2 : normalizeURL "/v3" = "" := by decide
  have h3 : normalizeURL "/v1" = "" := by decide
  have hA : normalizeURL APIURL = "https://api.doppler.com" := by decide
  refine ⟨hA, h0, ?_, congrArg some h0, h1, h2, h3⟩
  show normalizeURL "" ≠ APIURL
  rw [h0]; decide

/-! ## C25 -/

/-- C25 (code defect). `Client.delete` of the service-token client builds, for every
options value, the request `DELETE /v3/configs/config/tokens/token` with the key of the
client and a nil payload: the options are dropped. The request therefore passes
`isPayloadValid` whatever the options hold, has no query parameters and an empty body,
whereas the request of the sibling `config` client for the same record carries it as
payload and is sent with the body `{"project":"test","config":"test","slug":"test"}`. -/
theorem C25_delete_drops_options (c : servicetoken.Client)
    (opts : Option ServiceTokenDeleteOptions) (g : Globals) :
    c.deleteRequest opts =
      { Method := "DELETE", Path := "/v3/configs/config/tokens/token", Key := c.Key,
        Payload := Payload.nil } ∧
    c.deleteRequest opts = c.deleteRequest none ∧
    isPayloadValid g (c.deleteRequest opts).Payload = none ∧
    (c.deleteRequest opts).getQueryParameters = .ok [] ∧
    (c.deleteRequest opts).getBody = .ok "" ∧
    (config.Client.deleteRequest c.Key
        (some (ServiceTokenDeleteOptions.toStruct
          { Project := "test", Config := "test", Slug := "test" }))).getBody =
      .ok "\x7b\"project\":\"test\",\"config\":\"test\",\"slug\":\"test\"\x7d\n" ∧
    (c.deleteRequest (some { Project := "test", Config := "test", Slug := "test" })).Payload ≠
      Payload.ofPtr (some (ServiceTokenDeleteOptions.toStruct
        { Project := "test", Config := "test", Slug := "test" })) := by
  refine ⟨rfl, rfl, ?_, rfl, rfl, congrArg Except.ok (by decide), ?_⟩
  · simp [isPayloadValid, servicetoken.Client.deleteRequest]
  · simp [servicetoken.Client.deleteRequest, Payload.ofPtr]

/-! ## C26 -/

/-- C26 (counterexample). On the same backend, built before, the project-get request with
an empty project name fails validation while `EnableValidation` is true and is built into
an HTTP request once the flag is set to false; and the workplace-get request is built with
`User-Agent: doppler-go/0.2.0` before and `User-Agent: doppler-go/0.2.0 my-app/1.0` after
`SetAppInfo` is called with the name `my-app` and the version `1.0`. -/
theorem C26_later_globals_change_outcome :
    ((prepareRequest {} (fun _ => true) (GetBackendWithConfig exampleBackend.HTTPClient.Do {}).2
        exampleProjectGetRequest).2.toOption.map (fun r => r.URL)) = none ∧
    ((prepareRequest { EnableValidation := false } (fun _ => true)
        (GetBackendWithConfig exampleBackend.HTTPClient.Do {}).2
        exampleProjectGetRequest).2.toOption.map (fun r => r.URL)) =
      some "https://api.doppler.com/v3/projects/project" ∧
    ((prepareRequest {} (fun _ => true) (GetBackendWithConfig exampleBackend.HTTPClient.Do {}).2
        exampleWorkplaceGetRequest).2.toOption.map (fun r => r.Header.Get "User-Agent")) =
      some "doppler-go/0.2.0" ∧
    (SetAppInfo {} (some { Name := "my-app", Version := "1.0" })).2 = none ∧
    ((prepareRequest (SetAppInfo {} (some { Name := "my-app", Version := "1.0" })).1
        (fun _ => true) (GetBackendWithConfig exampleBackend.HTTPClient.Do {}).2
        exampleWorkplaceGetRequest).2.toOption.map (fun r => r.Header.Get "User-Agent")) =
      some "doppler-go/0.2.0 my-app/1.0" := by
  decide

/-- C26 (amended). The outcome of `prepareRequest` on a backend depends on the process-wide
variables through `EnableValidation` and the composed user-agent alone, and on the backend
through its base URL alone, which `GetBackendWithConfig` computes from the configuration
when the backend is built: two runs whose variables agree on these two values give the same
outcome whatever `Key` and the stored app-info are, and so do two backends with the same
base URL, whatever their clients and loggers. -/
theorem C26_outcome_reads_two_globals (transport : HTTPRequest → Except String HTTPResponse)
    (config : BackendConfig) (g1 g2 : Globals) (urlParses : String → Bool) (req : Request)
    (hv : g1.EnableValidation = g2.EnableValidation)
    (hu : g1.encodedUserAgent = g2.encodedUserAgent) :
    prepareRequest g1 urlParses (GetBackendWithConfig transport config).2 req =
      prepareRequest g2 urlParses (GetBackendWithConfig transport config).2 req ∧
    (GetBackendWithConfig transport config).2.URL = normalizeURL (config.URL.getD APIURL) ∧
    (∀ b : backendImplementation, b.URL = (GetBackendWithConfig transport config).2.URL →
      prepareRequest g1 urlParses b req =
        prepareRequest g1 urlParses (GetBackendWithConfig transport config).2 req) := by
  have hp : isPayloadValid g1 req.Payload = isPayloadValid g2 req.Payload := by
    simp only [isPayloadValid, hv]
  refine ⟨?_, ?_, ?_⟩
  · simp only [prepareRequest, hp, hu]
  · simp only [GetBackendWithConfig, newBackendImplementation]
    cases config.URL <;> rfl
  · intro b hb
    simp only [prepareRequest, hb]

/-- C26, witness: the variables after `Key` is set and `SetAppInfo(nil)` is called agree
with the initial ones on the validation flag and the user-agent, and the project-get request
with the name `my-project` is built the same way under both. -/
theorem C26_outcome_reads_two_globals_witness :
    (({} : Globals).EnableValidation =
        (SetAppInfo { Key := "other-key" } none).1.EnableValidation ∧
      ({} : Globals).encodedUserAgent =
        (SetAppInfo { Key := "other-key" } none).1.encodedUserAgent) ∧
    prepareRequest {} (fun _ => true)
        (GetBackendWithConfig exampleBackend.HTTPClient.Do
          { URL := some "https://api.example.com/v3/" }).2
        { exampleProjectGetRequest with
            Payload := .ptr (ProjectGetOptions.toStruct { Name := "my-project" }) } =
      prepareRequest (SetAppInfo { Key := "other-key" } none).1 (fun _ => true)
        (GetBackendWithConfig exampleBackend.HTTPClient.Do
          { URL := some "https://api.example.com/v3/" }).2
        { exampleProjectGetRequest with
            Payload := .ptr (ProjectGetOptions.toStruct { Name := "my-project" }) } ∧
    ((prepareRequest {} (fun _ => true)
        (GetBackendWithConfig exampleBackend.HTTPClient.Do
          { URL := some "https://api.example.com/v3/" }).2
        { exampleProjectGetRequest with
            Payload := .ptr (ProjectGetOptions.toStruct { Name := "my-project" }) }).2.toOption.map
      (fun r => (r.URL, r.RawQuery))) =
      some ("https://api.example.com/v3/projects/project", "project=my-project") :=
  ⟨⟨rfl, rfl⟩,
   (C26_outcome_reads_two_globals exampleBackend.HTTPClient.Do
      { URL := some "https://api.example.com/v3/" } {} (SetAppInfo { Key := "other-key" } none).1
      (fun _ => true)
      { exampleProjectGetRequest with
          Payload := .ptr (ProjectGetOptions.toStruct { Name := "my-project" }) } rfl rfl).1,
   by decide⟩

/-! ## C27 -/

/-- C27. When `CallRaw` returns a response for the download request, whatever its status
code, content type and body, `Client.download` returns the body of the response as it is,
a nil error, and an envelope with `Status` and `StatusCode` of the response, its header
map, the request id and the rate limit read from the header map, and `Success`, `Messages`
and `Page` unset. -/
theorem C27_download_verbatim (g : Globals) (urlParses : String → Bool) (c : secret.Client)
    (opts : Option SecretDownloadOptions) (httpResp : HTTPResponse)
    (hraw : (CallRaw g urlParses c.Backend (c.downloadRequest opts)).result = .ok httpResp) :
    (c.download g urlParses opts).result =
      (httpResp.Body,
       { Status := httpResp.Status, StatusCode := httpResp.StatusCode,
         Header := httpResp.Header,
         RequestID := (httpResp.Header.getD []).Get headerXRequestID,
         RateLimit := extractRateLimitFromHeader (httpResp.Header.getD []),
         Success := none, Messages := [], Page := none },
       none) ∧
    (c.download g urlParses opts).sent = (CallRaw g urlParses c.Backend (c.downloadRequest opts)).sent := by
  have hW : ({} : APIResponse).WithDetails (some httpResp) =
      { Status := httpResp.Status, StatusCode := httpResp.StatusCode,
        Header := httpResp.Header,
        RequestID := (httpResp.Header.getD []).Get headerXRequestID,
        RateLimit := extractRateLimitFromHeader (httpResp.Header.getD []),
        Success := none, Messages := [], Page := none } := by
    obtain ⟨s, code, hd, l, bd⟩ := httpResp
    cases hd with
    | none =>
      have h1 : extractRateLimitFromHeader [] = none := by decide
      have h2 : Header.Get [] headerXRequestID = "" := by decide
      simp [APIResponse.WithDetails, h1, h2]
    | some h => rfl
  have hE : (({} : APIResponse).WithDetails (some httpResp)).Error = none := by
    rw [hW]; rfl
  simp only [secret.Client.download, hraw, hE, hW]
  exact ⟨rfl, rfl⟩

/-- C27, witness: a `200 OK` with a JSON content type whose body reports the message
`bad config` is returned as it is, with a nil error and no message in the envelope; `Call`
returns the error `bad config` for the same response. -/
theorem C27_download_verbatim_witness :
    (CallRaw {} (fun _ => true) (backendAnswering exampleFailure200)
        (secret.Client.downloadRequest
          { Backend := backendAnswering exampleFailure200, Key := "fake-key" }
          (some { Project := "fake-project", Config := "fake-config" }))).result =
      .ok exampleFailure200 ∧
    (secret.Client.download {} (fun _ => true)
        { Backend := backendAnswering exampleFailure200, Key := "fake-key" }
        (some { Project := "fake-project", Config := "fake-config" })).result =
      ("\x7b\"success\":false,\"messages\":[\"bad config\"]\x7d\n",
       { Status := "200 OK", StatusCode := 200,
         Header := some [("Content-Type", ["application/json"])] },
       none) ∧
    ((secret.Client.download {} (fun _ => true)
        { Backend := backendAnswering exampleFailure200, Key := "fake-key" }
        (some { Project := "fake-project", Config := "fake-config" })).sent.map
      (fun r => (r.Method, r.URL, r.Body))) =
      [("GET", "https://api.doppler.com/v3/configs/config/secrets/download", none)] :=
  ⟨rfl,
   (C27_download_verbatim {} (fun _ => true)
      { Backend := backendAnswering exampleFailure200, Key := "fake-key" }
      (some { Project := "fake-project", Config := "fake-config" }) exampleFailure200 rfl).1.trans
     (by decide),
   by decide⟩

/-! ## Decoding the members of an object -/

theorem andThen_eq_ok (e1 e2 : DecErr) (h : e1.andThen e2 = .ok) : e1 = .ok ∧ e2 = .ok := by
  cases e1 <;> cases e2 <;> simp [DecErr.andThen] at h ⊢

theorem decodeMembers_cons_ok {α : Type} (step : α → String → Json → α × DecErr) (a : α)
    (k : String) (j : Json) (ms : List (String × Json))
    (h : (decodeMembers step a ((k, j) :: ms)).2 = .ok) :
    (step a k j).2 = .ok ∧
    (decodeMembers step a ((k, j) :: ms)).1 = (decodeMembers step (step a k j).1 ms).1 ∧
    (decodeMembers step (step a k j).1 ms).2 = .ok := by
  rw [decodeMembers] at h ⊢
  rcases hs : step a k j with ⟨a1, e⟩
  rw [hs] at h
  cases e with
  | ok =>
    simp only [DecErr.andThen] at h ⊢
    exact ⟨trivial, trivial, h⟩
  | saved e =>
    simp only at h
    have := (andThen_eq_ok _ _ h).1
    cases this
  | fatal e => simp at h

theorem decodeMembers_frame {α β : Type} (step : α → String → Json → α × DecErr) (π : α → β)
    (sel : String → Prop) (hstep : ∀ a k j, ¬ sel k → π (step a k j).1 = π a)
    (ms : List (String × Json)) (a : α) (hms : ∀ kj ∈ ms, ¬ sel kj.1) :
    π (decodeMembers step a ms).1 = π a := by
  induction ms generalizing a with
  | nil => rfl
  | cons kj ms ih =>
    obtain ⟨k, j⟩ := kj
    have h1 := hstep a k j (hms (k, j) (List.mem_cons_self _ _))
    have h2 := fun a1 => ih a1 (fun x hx => hms x (List.mem_cons_of_mem _ hx))
    rw [decodeMembers]
    rcases hs : step a k j with ⟨a1, e⟩
    rw [hs] at h1
    cases e with
    | ok => simpa [h1] using h2 a1
    | saved e => simpa [h1] using h2 a1
    | fatal e => simpa using h1

theorem decodeMembers_once {α β : Type} (step : α → String → Json → α × DecErr) (π : α → β)
    (sel : String → Prop) (hstep : ∀ a k j, ¬ sel k → π (step a k j).1 = π a)
    (k : String) (j : Json) (F : β → β) (hval : ∀ a, π (step a k j).1 = F (π a))
    (pre post : List (String × Json)) (a : α)
    (hpre : ∀ kj ∈ pre, ¬ sel kj.1) (hpost : ∀ kj ∈ post, ¬ sel kj.1)
    (hok : (decodeMembers step a (pre ++ (k, j) :: post)).2 = .ok) :
    π (decodeMembers step a (pre ++ (k, j) :: post)).1 = F (π a) := by
  induction pre generalizing a with
  | nil =>
    obtain ⟨_, h2, _⟩ := decodeMembers_cons_ok step a k j post hok
    rw [List.nil_append, h2, decodeMembers_frame step π sel hstep post _ hpost, hval]
  | cons kj pre ih =>
    obtain ⟨k0, j0⟩ := kj
    obtain ⟨_, h2, h3⟩ := decodeMembers_cons_ok step a k0 j0 (pre ++ (k, j) :: post) hok
    rw [List.cons_append, h2,
      ih (step a k0 j0).1 (fun x hx => hpre x (List.mem_cons_of_mem _ hx)) h3,
      hstep a k0 j0 (hpre (k0, j0) (List.mem_cons_self _ _))]

theorem decodeStringElems_strs (strs old : List String) :
    (decodeStringElems old (strs.map Json.str)).1 = strs := by
  induction strs generalizing old with
  | nil => rfl
  | cons s strs ih =>
    simp only [List.map_cons, decodeStringElems, decodeString, ih]

/-! ## Decoding into the envelope, field by field -/

theorem member_frame_header (parseTime : String → Option Time) (a : APIResponse) (k : String)
    (j : Json) (h : ¬ findField apiResponseKeys k = some "header") :
    (decodeAPIResponseMember parseTime a k j).1.Header = a.Header := by
  unfold decodeAPIResponseMember
  split <;> first | rfl | (exfalso; apply h; assumption)

theorem member_value_header (parseTime : String → Option Time) (a : APIResponse) (k : String)
    (j : Json) (h : findField apiResponseKeys k = some "header") :
    (decodeAPIResponseMember parseTime a k j).1.Header = (decodeHeader a.Header j).1 := by
  unfold decodeAPIResponseMember
  rw [h]
  rfl

theorem member_frame_request_id (parseTime : String → Option Time) (a : APIResponse) (k : String)
    (j : Json) (h : ¬ findField apiResponseKeys k = some "request_id") :
    (decodeAPIResponseMember parseTime a k j).1.RequestID = a.RequestID := by
  unfold decodeAPIResponseMember
  split <;> first | rfl | (exfalso; apply h; assumption)

theorem member_value_request_id (parseTime : String → Option Time) (a : APIResponse) (k : String)
    (j : Json) (h : findField apiResponseKeys k = some "request_id") :
    (decodeAPIResponseMember parseTime a k j).1.RequestID = (decodeString a.RequestID j).1 := by
  unfold decodeAPIResponseMember
  rw [h]
  rfl

theorem member_frame_ratelimit (parseTime : String → Option Time) (a : APIResponse) (k : String)
    (j : Json) (h : ¬ findField apiResponseKeys k = some "ratelimit") :
    (decodeAPIResponseMember parseTime a k j).1.RateLimit = a.RateLimit := by
  unfold decodeAPIResponseMember
  split <;> first | rfl | (exfalso; apply h; assumption)

theorem member_value_ratelimit (parseTime : String → Option Time) (a : APIResponse) (k : String)
    (j : Json) (h : findField apiResponseKeys k = some "ratelimit") :
    (decodeAPIResponseMember parseTime a k j).1.RateLimit = (decodeRateLimitPtr parseTime a.RateLimit j).1 := by
  unfold decodeAPIResponseMember
  rw [h]
  rfl

theorem member_frame_status (parseTime : String → Option Time) (a : APIResponse) (k : String)
    (j : Json) (h : ¬ findField apiResponseKeys k = some "status") :
    (decodeAPIResponseMember parseTime a k j).1.Status = a.Status := by
  unfold decodeAPIResponseMember
  split <;> first | rfl | (exfalso; apply h; assumption)

theorem member_value_status (parseTime : String → Option Time) (a : APIResponse) (k : String)
    (j : Json) (h : findField apiResponseKeys k = some "status") :
    (decodeAPIResponseMember parseTime a k j).1.Status = (decodeString a.Status j).1 := by
  unfold decodeAPIResponseMember
  rw [h]
  rfl

theorem member_frame_status_code (parseTime : String → Option Time) (a : APIResponse) (k : String)
    (j : Json) (h : ¬ findField apiResponseKeys k = some "status_code") :
    (decodeAPIResponseMember parseTime a k j).1.StatusCode = a.StatusCode := by
  unfold decodeAPIResponseMember
  split <;> first | rfl | (exfalso; apply h; assumption)

theorem member_value_status_code (parseTime : String → Option Time) (a : APIResponse) (k : String)
    (j : Json) (h : findField apiResponseKeys k = some "status_code") :
    (decodeAPIResponseMember parseTime a k j).1.StatusCode = (decodeInt a.StatusCode j).1 := by
  unfold decodeAPIResponseMember
  rw [h]
  rfl

theorem member_frame_success (parseTime : String → Option Time) (a : APIResponse) (k : String)
    (j : Json) (h : ¬ findField apiResponseKeys k = some "success") :
    (decodeAPIResponseMember parseTime a k j).1.Success = a.Success := by
  unfold decodeAPIResponseMember
  split <;> first | rfl | (exfalso; apply h; assumption)

theorem member_value_success (parseTime : String → Option Time) (a : APIResponse) (k : String)
    (j : Json) (h : findField apiResponseKeys k = some "success") :
    (decodeAPIResponseMember parseTime a k j).1.Success = (decodeBoolPtr a.Success j).1 := by
  unfold decodeAPIResponseMember
  rw [h]
  rfl

theorem member_frame_messages (parseTime : String → Option Time) (a : APIResponse) (k : String)
    (j : Json) (h : ¬ findField apiResponseKeys k = some "messages") :
    (decodeAPIResponseMember parseTime a k j).1.Messages = a.Messages := by
  unfold decodeAPIResponseMember
  split <;> first | rfl | (exfalso; apply h; assumption)

theorem member_value_messages (parseTime : String → Option Time) (a : APIResponse) (k : String)
    (j : Json) (h : findField apiResponseKeys k = some "messages") :
    (decodeAPIResponseMember parseTime a k j).1.Messages = (decodeStringList a.Messages j).1 := by
  unfold decodeAPIResponseMember
  rw [h]
  rfl

theorem member_frame_page (parseTime : String → Option Time) (a : APIResponse) (k : String)
    (j : Json) (h : ¬ findField apiResponseKeys k = some "page") :
    (decodeAPIResponseMember parseTime a k j).1.Page = a.Page := by
  unfold decodeAPIResponseMember
  split <;> first | rfl | (exfalso; apply h; assumption)

theorem member_value_page (parseTime : String → Option Time) (a : APIResponse) (k : String)
    (j : Json) (h : findField apiResponseKeys k = some "page") :
    (decodeAPIResponseMember parseTime a k j).1.Page = (decodeIntPtr a.Page j).1 := by
  unfold decodeAPIResponseMember
  rw [h]
  rfl

theorem decodeHeaderMembers_keeps (hs : List (String × Json)) (base : Header) (name : String)
    (h : ∀ kv ∈ hs, kv.1 ≠ name) :
    Header.index (decodeHeaderMembers base hs).1 name = Header.index base name := by
  induction hs generalizing base with
  | nil => rfl
  | cons kv hs ih =>
    obtain ⟨k, j⟩ := kv
    have hk : ¬ name = k := fun e => h (k, j) (List.mem_cons_self _ _) e.symm
    simp only [decodeHeaderMembers]
    rw [ih _ (fun x hx => h x (List.mem_cons_of_mem _ hx)), index_headerAssign, if_neg hk]

theorem envelope_decode_ok (parseTime : String → Option Time) (body : String) (a : APIResponse)
    (ms : List (String × Json)) (hread : readValue body = some (.obj ms))
    (hok : (decodeMembers (decodeAPIResponseMember parseTime) a ms).2 = .ok) :
    (envelopeResponse parseTime).decode body a =
      ((decodeMembers (decodeAPIResponseMember parseTime) a ms).1, none) := by
  simp only [envelopeResponse, decodeRecord, hread, Prod.map, hok, DecErr.toError, id]

/-! ## C28 -/

/-- C28 (counterexample). A `200 OK` with the headers `Content-Type`, `X-Request-Id` and the
three rate-limit headers 100 / 50 / 1234567890, whose body is
`{"header":{"X-Extra":["1"]},"ratelimit":{"limit":5}}`, decodes without error; afterwards the
header map of the envelope holds the headers of the response and `X-Extra`, and its rate limit
is 5 / 50 / `time.Unix(1234567890, 0)`, whereas the body alone says the header map with the
one entry `X-Extra` and the rate limit 5 / 0 / zero time. -/
theorem C28_header_and_ratelimit_merged :
    (Call (envelopeResponse fun _ => none) {} (fun _ => true)
        (backendAnswering exampleMergingResponse) exampleWorkplaceGetRequest (some {})).result.err =
      none ∧
    (Call (envelopeResponse fun _ => none) {} (fun _ => true)
        (backendAnswering exampleMergingResponse) exampleWorkplaceGetRequest
        (some {})).result.target =
      some { Header := some ([("Content-Type", ["application/json"]), ("X-Request-Id", ["req-1"])] ++
                rateLimitHeader "100" "50" "1234567890" ++ [("X-Extra", ["1"])]),
             RequestID := "req-1",
             RateLimit := some { Limit := 5, Remaining := 50, Reset := timeUnix 1234567890 },
             Status := "200 OK", StatusCode := 200 } ∧
    (envelopeResponse fun _ => none).decode exampleMergingResponse.Body {} =
      ({ Header := some [("X-Extra", ["1"])],
         RateLimit := some { Limit := 5, Remaining := 0, Reset := Time.zero } }, none) := by
  decide

/-- C28 (amended). In `Call` the response is bound to the envelope first and the body is
decoded into the same envelope afterwards. When the body is a JSON object that decodes
without error, the target is the bound envelope with the members of the object decoded into
it in order: a field whose key no member selects keeps its bound value; a field whose key
one member selects is what the decoder of its type makes of the value of that member,
starting from the bound value. For a value of the JSON type of the field, `status`,
`request_id`, `status_code`, `success`, `page` and `messages` (an array of strings) hold the
value of the body; `header` is the bound map with the entries of the body's object stored
into it, so a bound header that the object does not name remains; `ratelimit` is the bound
record with the members of the body's object decoded into it. -/
theorem C28_decode_over_bound_envelope (parseTime : String → Option Time) (g : Globals)
    (urlParses : String → Bool) (b : backendImplementation) (req : Request)
    (t0 bound : APIResponse) (httpResp : HTTPResponse) (ms : List (String × Json))
    (hcall : (call g urlParses b req).result = .ok httpResp)
    (hlen : httpResp.ContentLength ≠ 0)
    (hct : hasPrefix ((httpResp.Header.getD []).Get "Content-Type") "application/json" = true)
    (hbound : bound = t0.WithDetails (some httpResp))
    (hread : readValue httpResp.Body = some (.obj ms))
    (hok : (decodeMembers (decodeAPIResponseMember parseTime) bound ms).2 = .ok) :
    (Call (envelopeResponse parseTime) g urlParses b req (some t0)).result.target =
      some (decodeMembers (decodeAPIResponseMember parseTime) bound ms).1 ∧
    (Call (envelopeResponse parseTime) g urlParses b req (some t0)).result.err =
      (decodeMembers (decodeAPIResponseMember parseTime) bound ms).1.Error ∧
    (keyAbsent "header" ms → (decodeMembers (decodeAPIResponseMember parseTime) bound ms).1.Header = bound.Header) ∧
    (keyAbsent "request_id" ms → (decodeMembers (decodeAPIResponseMember parseTime) bound ms).1.RequestID = bound.RequestID) ∧
    (keyAbsent "ratelimit" ms → (decodeMembers (decodeAPIResponseMember parseTime) bound ms).1.RateLimit = bound.RateLimit) ∧
    (keyAbsent "status" ms → (decodeMembers (decodeAPIResponseMember parseTime) bound ms).1.Status = bound.Status) ∧
    (keyAbsent "status_code" ms → (decodeMembers (decodeAPIResponseMember parseTime) bound ms).1.StatusCode = bound.StatusCode) ∧
    (keyAbsent "success" ms → (decodeMembers (decodeAPIResponseMember parseTime) bound ms).1.Success = bound.Success) ∧
    (keyAbsent "messages" ms → (decodeMembers (decodeAPIResponseMember parseTime) bound ms).1.Messages = bound.Messages) ∧
    (keyAbsent "page" ms → (decodeMembers (decodeAPIResponseMember parseTime) bound ms).1.Page = bound.Page) ∧
    (∀ pre k j post, ms = pre ++ (k, j) :: post →
      (findField apiResponseKeys k = some "header" → keyAbsent "header" pre → keyAbsent "header" post →
        (decodeMembers (decodeAPIResponseMember parseTime) bound ms).1.Header = (decodeHeader bound.Header j).1) ∧
      (findField apiResponseKeys k = some "request_id" → keyAbsent "request_id" pre → keyAbsent "request_id" post →
        (decodeMembers (decodeAPIResponseMember parseTime) bound ms).1.RequestID = (decodeString bound.RequestID j).1) ∧
      (findField apiResponseKeys k = some "ratelimit" → keyAbsent "ratelimit" pre → keyAbsent "ratelimit" post →
        (decodeMembers (decodeAPIResponseMember parseTime) bound ms).1.RateLimit = (decodeRateLimitPtr parseTime bound.RateLimit j).1) ∧
      (findField apiResponseKeys k = some "status" → keyAbsent "status" pre → keyAbsent "status" post →
        (decodeMembers (decodeAPIResponseMember parseTime) bound ms).1.Status = (decodeString bound.Status j).1) ∧
      (findField apiResponseKeys k = some "status_code" → keyAbsent "status_code" pre → keyAbsent "status_code" post →
        (decodeMembers (decodeAPIResponseMember parseTime) bound ms).1.StatusCode = (decodeInt bound.StatusCode j).1) ∧
      (findField apiResponseKeys k = some "success" → keyAbsent "success" pre → keyAbsent "success" post →
        (decodeMembers (decodeAPIResponseMember parseTime) bound ms).1.Success = (decodeBoolPtr bound.Success j).1) ∧
      (findField apiResponseKeys k = some "messages" → keyAbsent "messages" pre → keyAbsent "messages" post →
        (decodeMembers (decodeAPIResponseMember parseTime) bound ms).1.Messages = (decodeStringList bound.Messages j).1) ∧
      (findField apiResponseKeys k = some "page" → keyAbsent "page" pre → keyAbsent "page" post →
        (decodeMembers (decodeAPIResponseMember parseTime) bound ms).1.Page = (decodeIntPtr bound.Page j).1)) ∧
    (∀ cur s, (decodeString cur (.str s)).1 = s) ∧
    (∀ cur t n, parseInt64 t = some n → (decodeInt cur (.num t)).1 = n) ∧
    (∀ cur v, (decodeBoolPtr cur (.bool v)).1 = some v) ∧
    (∀ cur t n, parseInt64 t = some n → (decodeIntPtr cur (.num t)).1 = some n) ∧
    (∀ cur strs, (decodeStringList cur (.arr (strs.map Json.str))).1 = strs) ∧
    (∀ cur hs, (decodeHeader cur (.obj hs)).1 = some (decodeHeaderMembers (cur.getD []) hs).1) ∧
    (∀ base hs name, (∀ kv ∈ hs, kv.1 ≠ name) →
      Header.index (decodeHeaderMembers base hs).1 name = Header.index base name) ∧
    (∀ cur rs, (decodeRateLimitPtr parseTime cur (.obj rs)).1 =
      some (decodeMembers (decodeRateLimitMember parseTime) (cur.getD ⟨0, 0, Time.zero⟩) rs).1) := by
  have hdec := envelope_decode_ok parseTime httpResp.Body bound ms hread hok
  have h0 : (httpResp.ContentLength == 0) = false := by simpa using hlen
  have hC : (Call (envelopeResponse parseTime) g urlParses b req (some t0)).result =
      { target := some (decodeMembers (decodeAPIResponseMember parseTime) bound ms).1,
        err := (decodeMembers (decodeAPIResponseMember parseTime) bound ms).1.Error } := by
    have he : ∀ t : APIResponse, (envelopeResponse parseTime).envelope t = t := fun _ => rfl
    have hw : ∀ t e : APIResponse, (envelopeResponse parseTime).withEnvelope t e = e :=
      fun _ _ => rfl
    simp only [Call, hcall, hct, if_true, he, hw, ← hbound, hdec, h0, Option.isNone_some,
      Bool.or_self, Bool.false_eq_true, if_false]
    cases hErr : (decodeMembers (decodeAPIResponseMember parseTime) bound ms).1.Error <;> rfl
  refine ⟨by rw [hC], by rw [hC], ?_, ?_, ?_, ?_, ?_, ?_, ?_, ?_, ?_, ?_, ?_, ?_, ?_, ?_, ?_, ?_, ?_⟩
  · intro h
    exact decodeMembers_frame _ (fun a => a.Header) (fun k => findField apiResponseKeys k = some "header")
      (member_frame_header parseTime) ms bound h
  · intro h
    exact decodeMembers_frame _ (fun a => a.RequestID) (fun k => findField apiResponseKeys k = some "request_id")
      (member_frame_request_id parseTime) ms bound h
  · intro h
    exact decodeMembers_frame _ (fun a => a.RateLimit) (fun k => findField apiResponseKeys k = some "ratelimit")
      (member_frame_ratelimit parseTime) ms bound h
  · intro h
    exact decodeMembers_frame _ (fun a => a.Status) (fun k => findField apiResponseKeys k = some "status")
      (member_frame_status parseTime) ms bound h
  · intro h
    exact decodeMembers_frame _ (fun a => a.StatusCode) (fun k => findField apiResponseKeys k = some "status_code")
      (member_frame_status_code parseTime) ms bound h
  · intro h
    exact decodeMembers_frame _ (fun a => a.Success) (fun k => findField apiResponseKeys k = some "success")
      (member_frame_success parseTime) ms bound h
  · intro h
    exact decodeMembers_frame _ (fun a => a.Messages) (fun k => findField apiResponseKeys k = some "messages")
      (member_frame_messages parseTime) ms bound h
  · intro h
    exact decodeMembers_frame _ (fun a => a.Page) (fun k => findField apiResponseKeys k = some "page")
      (member_frame_page parseTime) ms bound h
  · intro pre k j post hms
    subst hms
    refine ⟨?_, ?_, ?_, ?_, ?_, ?_, ?_, ?_⟩
    · intro hk hpre hpost
      exact decodeMembers_once _ (fun a => a.Header)
        (fun k => findField apiResponseKeys k = some "header") (member_frame_header parseTime) k j
        (fun cur => (decodeHeader cur j).1)
        (fun a => member_value_header parseTime a k j hk) pre post bound hpre hpost hok
    · intro hk hpre hpost
      exact decodeMembers_once _ (fun a => a.RequestID)
        (fun k => findField apiResponseKeys k = some "request_id") (member_frame_request_id parseTime) k j
        (fun cur => (decodeString cur j).1)
        (fun a => member_value_request_id parseTime a k j hk) pre post bound hpre hpost hok
    · intro hk hpre hpost
      exact decodeMembers_once _ (fun a => a.RateLimit)
        (fun k => findField apiResponseKeys k = some "ratelimit") (member_frame_ratelimit parseTime) k j
        (fun cur => (decodeRateLimitPtr parseTime cur j).1)
        (fun a => member_value_ratelimit parseTime a k j hk) pre post bound hpre hpost hok
    · intro hk hpre hpost
      exact decodeMembers_once _ (fun a => a.Status)
        (fun k => findField apiResponseKeys k = some "status") (member_frame_status parseTime) k j
        (fun cur => (decodeString cur j).1)
        (fun a => member_value_status parseTime a k j hk) pre post bound hpre hpost hok
    · intro hk hpre hpost
      exact decodeMembers_once _ (fun a => a.StatusCode)
        (fun k => findField apiResponseKeys k = some "status_code") (member_frame_status_code parseTime) k j
        (fun cur => (decodeInt cur j).1)
        (fun a => member_value_status_code parseTime a k j hk) pre post bound hpre hpost hok
    · intro hk hpre hpost
      exact decodeMembers_once _ (fun a => a.Success)
        (fun k => findField apiResponseKeys k = some "success") (member_frame_success parseTime) k j
        (fun cur => (decodeBoolPtr cur j).1)
        (fun a => member_value_success parseTime a k j hk) pre post bound hpre hpost hok
    · intro hk hpre hpost
      exact decodeMembers_once _ (fun a => a.Messages)
        (fun k => findField apiResponseKeys k = some "messages") (member_frame_messages parseTime) k j
        (fun cur => (decodeStringList cur j).1)
        (fun a => member_value_messages parseTime a k j hk) pre post bound hpre hpost hok
    · intro hk hpre hpost
      exact decodeMembers_once _ (fun a => a.Page)
        (fun k => findField apiResponseKeys k = some "page") (member_frame_page parseTime) k j
        (fun cur => (decodeIntPtr cur j).1)
        (fun a => member_value_page parseTime a k j hk) pre post bound hpre hpost hok
  · intro cur s; rfl
  · intro cur t n h; simp [decodeInt, h]
  · intro cur v; rfl
  · intro cur t n h; simp [decodeIntPtr, decodeInt, h, Prod.map]
  · intro cur strs; exact decodeStringElems_strs strs cur
  · intro cur hs; rfl
  · intro base hs name h; exact decodeHeaderMembers_keeps hs base name h
  · intro cur rs; rfl

/-- C28, witness: a `200 OK` with the request id `req-1` whose body is
`{"status":"OK","success":true}` leaves the envelope with `Status` `OK` and `Success` true
from the body, and with `StatusCode` 200, the request id and the header map from the
response. -/
theorem C28_decode_over_bound_envelope_witness :
    ((call {} (fun _ => true) (backendAnswering exampleStatusOK)
        exampleWorkplaceGetRequest).result = .ok exampleStatusOK ∧
      exampleStatusOK.ContentLength ≠ 0 ∧
      hasPrefix ((exampleStatusOK.Header.getD []).Get "Content-Type") "application/json" = true ∧
      ({ Header := some [("Content-Type", ["application/json"]), ("X-Request-Id", ["req-1"])],
         RequestID := "req-1", Status := "200 OK", StatusCode := 200 } : APIResponse) =
        ({} : APIResponse).WithDetails (some exampleStatusOK) ∧
      readValue exampleStatusOK.Body =
        some (.obj [("status", .str "OK"), ("success", .bool true)]) ∧
      (decodeMembers (decodeAPIResponseMember fun _ => none)
        { Header := some [("Content-Type", ["application/json"]), ("X-Request-Id", ["req-1"])],
          RequestID := "req-1", Status := "200 OK", StatusCode := 200 }
        [("status", .str "OK"), ("success", .bool true)]).2 = .ok) ∧
    (Call (envelopeResponse fun _ => none) {} (fun _ => true) (backendAnswering exampleStatusOK)
        exampleWorkplaceGetRequest (some {})).result.target =
      some { Header := some [("Content-Type", ["application/json"]), ("X-Request-Id", ["req-1"])],
             RequestID := "req-1", Status := "OK", StatusCode := 200, Success := some true } :=
  ⟨⟨rfl, by decide, by decide, rfl, rfl, rfl⟩,
   (C28_decode_over_bound_envelope (fun _ => none) {} (fun _ => true)
      (backendAnswering exampleStatusOK) exampleWorkplaceGetRequest {}
      { Header := some [("Content-Type", ["application/json"]), ("X-Request-Id", ["req-1"])],
        RequestID := "req-1", Status := "200 OK", StatusCode := 200 }
      exampleStatusOK [("status", .str "OK"), ("success", .bool true)]
      rfl (by decide) (by decide) rfl rfl rfl).1.trans (by decide)⟩

/-! ## C29 -/

/-- C29 (counterexample). The field `UserID` of `AuditWorkplaceUserGetOptions` is tagged
`url:"-"` and `json:"-"`: for the record with the user id `123` the query mapping is empty
and the body is `{}`, so the field is sent on neither surface. -/
theorem C29_user_id_on_neither_surface :
    (optionsTypes.lookup "AuditWorkplaceUserGetOptions") =
      some [ { name := "UserID", url := "-", json := "-" },
             { name := "Settings", url := "settings,omitempty", json := "-" } ] ∧
    FieldDecl.exactlyOneSurface { name := "UserID", url := "-", json := "-" } = false ∧
    (AuditWorkplaceUserGetOptions.toStruct { UserID := "123" }).fields.map Field.decl =
      [ { name := "UserID", url := "-", json := "-" },
        { name := "Settings", url := "settings,omitempty", json := "-" } ] ∧
    reflectValue (AuditWorkplaceUserGetOptions.toStruct { UserID := "123" }).fields = [] ∧
    marshalStruct (AuditWorkplaceUserGetOptions.toStruct { UserID := "123" }) = "\x7b\x7d" := by
  decide

/-- C29 (amended). Of the forty options types of the package, every field is routed to
exactly one surface (a `url` tag that names a key, or inlines an embedded record, next to
`json:"-"`, or a `json` tag that names a key next to `url:"-"`) with these exceptions:
`UserID` of `AuditWorkplaceUserGetOptions`, tagged `-` on both surfaces; `Page` and
`PerPage` of `ListOptions`, which name a query key and declare no `json` tag, while every
field that embeds `ListOptions` is tagged `url:",inline" json:"-"`; and the two fields of
`WorkplaceUpdateOptions`, of which nothing is claimed. The records that are embedded with
their values declare the fields that the table lists for them. -/
theorem C29_options_routing :
    optionsTypes.length = 40 ∧
    (∀ t ∈ optionsTypes, ∀ d ∈ t.2,
      d.exactlyOneSurface = true ∨
      (t.1, d.name) ∈ [("AuditWorkplaceUserGetOptions", "UserID"), ("ListOptions", "Page"),
        ("ListOptions", "PerPage"), ("WorkplaceUpdateOptions", "NewName"),
        ("WorkplaceUpdateOptions", "NewBillingEmail")]) ∧
    (∀ t ∈ optionsTypes, ∀ d ∈ t.2, d.anonymous = true →
      d = { name := "ListOptions", url := ",inline", json := "-", anonymous := true }) ∧
    optionsTypes.lookup "ListOptions" =
      some [ { name := "Page", url := "page,omitempty", json := "" },
             { name := "PerPage", url := "per_page,omitempty", json := "" } ] ∧
    (∀ o : ListOptions, o.fields.map (fun f => Field.decl (.leaf f)) =
      (optionsTypes.lookup "ListOptions").getD []) ∧
    (∀ o : ProjectGetOptions, o.toStruct.fields.map Field.decl =
      (optionsTypes.lookup "ProjectGetOptions").getD []) ∧
    (∀ o : ProjectListOptions, o.toStruct.fields.map Field.decl =
      (optionsTypes.lookup "ProjectListOptions").getD []) ∧
    (∀ o : SecretGetOptions, o.toStruct.fields.map Field.decl =
      (optionsTypes.lookup "SecretGetOptions").getD []) ∧
    (∀ o : SecretUpdateOptions, o.toStruct.fields.map Field.decl =
      (optionsTypes.lookup "SecretUpdateOptions").getD []) ∧
    (∀ o : SecretDownloadOptions, o.toStruct.fields.map Field.decl =
      (optionsTypes.lookup "SecretDownloadOptions").getD []) ∧
    (∀ o : ShareEncryptedOptions, o.toStruct.fields.map Field.decl =
      (optionsTypes.lookup "ShareEncryptedOptions").getD []) ∧
    (∀ o : AuthRevokeOptions, o.toStruct.fields.map Field.decl =
      (optionsTypes.lookup "AuthRevokeOptions").getD []) ∧
    (∀ o : ServiceTokenDeleteOptions, o.toStruct.fields.map Field.decl =
      (optionsTypes.lookup "ServiceTokenDeleteOptions").getD []) ∧
    (∀ o : AuditWorkplaceUserGetOptions, o.toStruct.fields.map Field.decl =
      (optionsTypes.lookup "AuditWorkplaceUserGetOptions").getD []) := by
  refine ⟨by decide, by decide, by decide, by decide, fun _ => rfl, fun _ => rfl, fun _ => rfl,
    fun _ => rfl, fun _ => rfl, fun _ => rfl, fun _ => rfl, fun _ => rfl, fun _ => rfl,
    fun _ => rfl⟩

/-! ## C30 -/

theorem prepareRequest_fst (g : Globals) (urlParses : String → Bool) (b : backendImplementation)
    (req : Request) :
    (prepareRequest g urlParses b req).1 =
      match isPayloadValid g req.Payload with
      | some _ => req
      | none =>
        { req with
          Path := b.URL ++ (if hasPrefix req.Path "/" then req.Path else "/" ++ req.Path) } := by
  unfold prepareRequest
  cases hv : isPayloadValid g req.Payload with
  | some e => rfl
  | none =>
    by_cases hp : hasPrefix req.Path "/" = true
    · simp only [hp, Bool.not_true, Bool.false_eq_true, if_false, if_true]
      split
      · rfl
      · split
        · rfl
        · split <;> rfl
    · have hp2 : hasPrefix req.Path "/" = false := by simpa using hp
      simp only [hp2, Bool.not_false, Bool.false_eq_true, if_true, if_false]
      split
      · rfl
      · split
        · rfl
        · split <;> rfl

theorem hasPrefix_slashed (p : String) :
    hasPrefix (if hasPrefix p "/" then p else "/" ++ p) "/" = true := by
  by_cases h : hasPrefix p "/" = true
  · rw [if_pos h]; exact h
  · rw [if_neg h]
    simp [hasPrefix, hasPrefixChars, String.data_append]

theorem hasPrefix_append_of_not (u p : String) (hne : u ≠ "")
    (hu : hasPrefix u "/" = false) : hasPrefix (u ++ p) "/" = false := by
  obtain ⟨cs⟩ := u
  cases cs with
  | nil => exact absurd rfl hne
  | cons c cs =>
    simp only [hasPrefix, String.data_append] at hu ⊢
    simpa [hasPrefixChars] using hu

/-- C30 (counterexample). On a backend with the empty base URL (built from a configuration
whose URL points to the empty string) the workplace-get request is prepared with the URL
`/v3/workplace` and left with that path; preparing the request as it was left a second time
gives the same URL `/v3/workplace` again. -/
theorem C30_empty_base_url_reproduces :
    exampleEmptyURLBackend.URL = "" ∧
    (prepareRequest {} (fun _ => true) exampleEmptyURLBackend exampleWorkplaceGetRequest).1 =
      exampleWorkplaceGetRequest ∧
    ((prepareRequest {} (fun _ => true) exampleEmptyURLBackend
        exampleWorkplaceGetRequest).2.toOption.map (fun r => r.URL)) = some "/v3/workplace" ∧
    ((prepareRequest {} (fun _ => true) exampleEmptyURLBackend
        (prepareRequest {} (fun _ => true) exampleEmptyURLBackend
          exampleWorkplaceGetRequest).1).2.toOption.map (fun r => r.URL)) =
      some "/v3/workplace" := by
  decide

/-- C30 (amended). `prepareRequest` changes nothing of the caller's `Request` but `Path`:
when validation fails the `Request` is left as it was, and otherwise, whatever happens
afterwards, `Path` is overwritten with the base URL of the backend followed by the original
path, with a `/` put in front of a path that lacks it, while `Method`, `Key`, `Payload` and
`Header` are left as they were. The string left in `Path` is the one from which the request
URL is parsed. When the `Request` as a first preparation left it is prepared again, the
second string is the base URL followed by the first string, with a `/` in between when the
first string does not begin with one: for a base URL that is not empty and does not begin
with `/` this is `URL ++ "/" ++ URL ++ path` and differs from the first; for the empty base
URL it is the first string again, and so is the request URL. Where the strings hold no `?`
and no `#` they are the request URLs themselves. -/
theorem C30_request_path_overwritten (g : Globals) (urlParses : String → Bool)
    (b : backendImplementation) (req req1 req2 : Request) (httpReq1 httpReq2 : HTTPRequest)
    (h1 : prepareRequest g urlParses b req = (req1, .ok httpReq1))
    (h2 : prepareRequest g urlParses b req1 = (req2, .ok httpReq2)) :
    (∀ r e, isPayloadValid g r.Payload = some e → (prepareRequest g urlParses b r).1 = r) ∧
    (∀ r, isPayloadValid g r.Payload = none →
      (prepareRequest g urlParses b r).1 =
        { Header := r.Header, Method := r.Method, Key := r.Key, Payload := r.Payload,
          Path := b.URL ++ (if hasPrefix r.Path "/" then r.Path else "/" ++ r.Path) }) ∧
    req1 = { req with
      Path := b.URL ++ (if hasPrefix req.Path "/" then req.Path else "/" ++ req.Path) } ∧
    req1.Path = b.URL ++ (if hasPrefix req.Path "/" then req.Path else "/" ++ req.Path) ∧
    req2.Path =
      b.URL ++ (if hasPrefix req1.Path "/" then req1.Path else "/" ++ req1.Path) ∧
    (b.URL ≠ "" → hasPrefix b.URL "/" = false →
      req2.Path = b.URL ++ "/" ++ b.URL ++
        (if hasPrefix req.Path "/" then req.Path else "/" ++ req.Path) ∧
      req2.Path ≠ req1.Path) ∧
    (b.URL = "" → req2.Path = req1.Path ∧ httpReq2.URL = httpReq1.URL) ∧
    httpReq1.URL = (urlSplit req1.Path).text ∧
    httpReq2.URL = (urlSplit req2.Path).text ∧
    ('?' ∉ req2.Path.data → '#' ∉ req2.Path.data →
      httpReq1.URL = req1.Path ∧ httpReq2.URL = req2.Path ∧
      (b.URL ≠ "" → hasPrefix b.URL "/" = false →
        httpReq2.URL = b.URL ++ "/" ++ b.URL ++
          (if hasPrefix req.Path "/" then req.Path else "/" ++ req.Path) ∧
        httpReq2.URL ≠ httpReq1.URL)) := by
  obtain ⟨_, a2, _, ⟨a4, _, _⟩, _, _, _⟩ := prepareRequest_ok g urlParses b req req1 httpReq1 h1
  obtain ⟨_, c2, _, ⟨c4, _, _⟩, _, _, _⟩ := prepareRequest_ok g urlParses b req1 req2 httpReq2 h2
  have hp1 : req1.Path =
      b.URL ++ (if hasPrefix req.Path "/" then req.Path else "/" ++ req.Path) := by rw [a2]
  have hp2 : req2.Path =
      b.URL ++ (if hasPrefix req1.Path "/" then req1.Path else "/" ++ req1.Path) := by rw [c2]
  have hu1 : httpReq1.URL = (urlSplit req1.Path).text := by rw [a4, hp1]
  have hu2 : httpReq2.URL = (urlSplit req2.Path).text := by rw [c4, hp2]
  have hne : b.URL ≠ "" → hasPrefix b.URL "/" = false →
      req2.Path = b.URL ++ "/" ++ b.URL ++
        (if hasPrefix req.Path "/" then req.Path else "/" ++ req.Path) ∧
      req2.Path ≠ req1.Path := by
    intro hne hu
    have hnp : hasPrefix req1.Path "/" = false := by
      rw [hp1]; exact hasPrefix_append_of_not _ _ hne hu
    have e2 : req2.Path = b.URL ++ "/" ++ b.URL ++
        (if hasPrefix req.Path "/" then req.Path else "/" ++ req.Path) := by
      rw [hp2, hnp, hp1]
      simp [String.append_assoc]
    refine ⟨e2, ?_⟩
    intro heq
    have hl := congrArg String.length heq
    rw [e2, hp1] at hl
    simp only [String.length_append] at hl
    have : ("/" : String).length = 1 := rfl
    omega
  have hempty : b.URL = "" → req2.Path = req1.Path := by
    intro he
    have hp : hasPrefix req1.Path "/" = true := by
      rw [hp1, he, String.empty_append]
      exact hasPrefix_slashed req.Path
    rw [hp2, hp, if_pos rfl, he, String.empty_append]
  refine ⟨?_, ?_, a2, hp1, hp2, hne, ?_, hu1, hu2, ?_⟩
  · intro r e hv
    rw [prepareRequest_fst, hv]
  · intro r hv
    rw [prepareRequest_fst, hv]
  · intro he
    exact ⟨hempty he, by rw [hu1, hu2, hempty he]⟩
  · intro hq hf
    have hq1 : '?' ∉ req1.Path.data := by
      intro hm; apply hq; rw [hp2]
      by_cases hpre : hasPrefix req1.Path "/" = true
      · rw [if_pos hpre, String.data_append]; exact List.mem_append_right _ hm
      · rw [if_neg hpre, String.data_append, String.data_append]
        exact List.mem_append_right _ (List.mem_append_right _ hm)
    have hf1 : '#' ∉ req1.Path.data := by
      intro hm; apply hf; rw [hp2]
      by_cases hpre : hasPrefix req1.Path "/" = true
      · rw [if_pos hpre, String.data_append]; exact List.mem_append_right _ hm
      · rw [if_neg hpre, String.data_append, String.data_append]
        exact List.mem_append_right _ (List.mem_append_right _ hm)
    have e1 : httpReq1.URL = req1.Path := by rw [hu1, urlSplit_clean _ hq1 hf1]
    have e2 : httpReq2.URL = req2.Path := by rw [hu2, urlSplit_clean _ hq hf]
    refine ⟨e1, e2, ?_⟩
    intro hn hu
    rw [e1, e2]
    exact hne hn hu

/-- C30, witness: on the backend with the base URL `https://api.doppler.com` the
workplace-get request is prepared with the URL `https://api.doppler.com/v3/workplace` and
left with that path; preparing it again gives
`https://api.doppler.com/https://api.doppler.com/v3/workplace`. -/
theorem C30_request_path_overwritten_witness :
    (prepareRequest {} (fun _ => true) exampleBackend exampleWorkplaceGetRequest =
        ({ exampleWorkplaceGetRequest with Path := "https://api.doppler.com/v3/workplace" },
         .ok { Method := "GET", URL := "https://api.doppler.com/v3/workplace",
               Header := [("Authorization", ["Basic ZmFrZS1rZXk6"]),
                          ("Accept", ["application/json"]),
                          ("User-Agent", ["doppler-go/0.2.0"])] }) ∧
      prepareRequest {} (fun _ => true) exampleBackend
          { exampleWorkplaceGetRequest with Path := "https://api.doppler.com/v3/workplace" } =
        ({ exampleWorkplaceGetRequest with
            Path := "https://api.doppler.com/https://api.doppler.com/v3/workplace" },
         .ok { Method := "GET",
               URL := "https://api.doppler.com/https://api.doppler.com/v3/workplace",
               Header := [("Authorization", ["Basic ZmFrZS1rZXk6"]),
                          ("Accept", ["application/json"]),
                          ("User-Agent", ["doppler-go/0.2.0"])] })) ∧
    "https://api.doppler.com/https://api.doppler.com/v3/workplace" =
      exampleBackend.URL ++ "/" ++ exampleBackend.URL ++
        (if hasPrefix exampleWorkplaceGetRequest.Path "/" then exampleWorkplaceGetRequest.Path
         else "/" ++ exampleWorkplaceGetRequest.Path) :=
  ⟨⟨rfl, rfl⟩,
   (((C30_request_path_overwritten {} (fun _ => true) exampleBackend exampleWorkplaceGetRequest
      { exampleWorkplaceGetRequest with Path := "https://api.doppler.com/v3/workplace" }
      { exampleWorkplaceGetRequest with
          Path := "https://api.doppler.com/https://api.doppler.com/v3/workplace" }
      { Method := "GET", URL := "https://api.doppler.com/v3/workplace",
        Header := [("Authorization", ["Basic ZmFrZS1rZXk6"]),
                   ("Accept", ["application/json"]),
                   ("User-Agent", ["doppler-go/0.2.0"])] }
      { Method := "GET", URL := "https://api.doppler.com/https://api.doppler.com/v3/workplace",
        Header := [("Authorization", ["Basic ZmFrZS1rZXk6"]),
                   ("Accept", ["application/json"]),
                   ("User-Agent", ["doppler-go/0.2.0"])] }
      rfl rfl).2.2.2.2.2.2.2.2.2 (by decide) (by decide)).2.2 (by decide) (by decide)).1⟩

end Doppler
